import Mathlib

/-!
# Field-value layer of the protocol analyser: integer family, time family, type registry,
typed accessors and slice engine

A shallow embedding of `epan/ftypes/ftype-integer.c`, `epan/ftypes/ftype-time.c` and
`epan/ftypes/ftypes.c`.

Conventions of the embedding.

* A C string is a list of characters without NUL; reading at or past the end
  yields NUL (`cAt`).  A pointer into the string is an index.
* Machine integers are `Nat` / `Int` with explicit wrap-around where the C
  code converts or overflows.
* A routine that reports failure through `err_msg` returns `Except String _`,
  the error being the formatted message.
* The width of the C type `long` is a platform constant; it is the parameter
  `lbits` (32 on ILP32 / LLP64, 64 on LP64) of every routine that calls
  `strtol` / `strtoul`.
* The C type `time_t` is a signed type whose width is the parameter `tbits` of the routines
  that store seconds.
* A character of a text is taken as an unsigned byte.
* Signed `gint` arithmetic wraps to 32 bits in two's complement.
* A failed `ws_assert` aborts the process (`Outcome.aborts`).
* A read through a NULL pointer is undefined behaviour: it is a result of its own
  (`Query.null_dereference`), neither a return nor the abort of an assertion.
* `strtol`, `strtoul`, `g_ascii_strtoll`, `g_ascii_strtoull`, `strchr`, `isspace` and
  `g_ascii_isprint` are library routines; they follow ISO C / the GLib manual.  Routines of
  this code base whose source is not at hand are marked `Modelled from the spec`.
* `strptime` and `mktime` depend on the platform and its time zone, and `hex_str_to_bytes`
  is a helper whose source is not at hand: they are parameters of the routines that call them.
-/

deriving instance DecidableEq for Except

namespace Ftypes

/-! ## Characters and C strings -/

/-- The terminator of a C string. -/
def NUL : Char := Char.ofNat 0

/-- The single quote. -/
def QUOTE : Char := Char.ofNat 39

/-- The backslash. -/
def BACKSLASH : Char := Char.ofNat 92

/-- The double quote. -/
def DQUOTE : Char := Char.ofNat 34

/-- The character `s[i]` of a NUL-terminated string. -/
def cAt (s : List Char) (i : Nat) : Char := s.getD i NUL

/-- The conversion `"%s"` in double quotes, as the error messages print the input. -/
def quoted (s : List Char) : String := String.mk ([DQUOTE] ++ s ++ [DQUOTE])

/-- GLib `g_ascii_isprint`: the printable ASCII characters, space included. -/
def g_ascii_isprint (v : Nat) : Bool := decide (32 ≤ v ∧ v ≤ 126)

/-- C `isspace` in the C locale. -/
def isspace (c : Char) : Bool := decide (c.toNat = 32 ∨ (9 ≤ c.toNat ∧ c.toNat ≤ 13))

/-- The digit `d < 10` as a character. -/
def decChar (d : Nat) : Char :=
  match d with
  | 0 => '0' | 1 => '1' | 2 => '2' | 3 => '3' | 4 => '4'
  | 5 => '5' | 6 => '6' | 7 => '7' | 8 => '8' | _ => '9'

/-- The hex digit `d < 16` as a lower-case character. -/
def hexChar (d : Nat) : Char :=
  match d with
  | 10 => 'a' | 11 => 'b' | 12 => 'c' | 13 => 'd' | 14 => 'e' | 15 => 'f'
  | d => decChar d

/-- Modelled from the spec: the decimal numeral of an unsigned number, as written by
`guint32_to_str_buf` / `guint64_to_str_buf` (epan/to_str.c, absent here) and by the
`%u` / `%d` conversions: no leading zero, `0` for zero.  The first argument bounds
the number of digits. -/
def decimalAux : Nat → Nat → List Char
  | 0, _ => []
  | fuel + 1, n => if n < 10 then [decChar n] else decimalAux fuel (n / 10) ++ [decChar (n % 10)]

/-- Modelled from the spec: the decimal numeral of `n` (see `decimalAux`). -/
def decimal (n : Nat) : List Char := decimalAux (n + 1) n

/-- The `%d` conversion of a signed number. -/
def decimalInt (i : Int) : List Char :=
  if i < 0 then '-' :: decimal i.natAbs else decimal i.natAbs

/-- Modelled from the spec: the fixed-width zero-padded lower-case hex numeral of the low
`4 * w` bits of `v`, as written by `guint8_to_hex` (w = 2), `word_to_hex` (4),
`dword_to_hex` (8) and `qword_to_hex` (16) of wsutil/to_str.c, absent here. -/
def hexFixed : Nat → Nat → List Char
  | 0, _ => []
  | w + 1, v => hexFixed w (v / 16) ++ [hexChar (v % 16)]

/-! ## Character constants -/

/-- The message of a malformed character constant. -/
def msgNotCharconst (s : List Char) : String :=
  quoted s ++ " isn't a valid character constant."

/-- The message of an octal escape above 0xFF. -/
def msgCharconstTooLarge (s : List Char) : String :=
  quoted s ++ " is too large to be a valid character constant."

/-- The message of a character constant that does not end after its character. -/
def msgCharconstTooLong (s : List Char) : String :=
  quoted s ++ " is too long to be a valid character constant."

/-- The message of an unescaped non-printable character, `'\x%02lx'` of the `unsigned long`
that `value = *cp` stores.  The character is an unsigned byte here; where plain `char` is
signed, a byte of 0x80 and above is sign-extended by that assignment and the digits printed
are those of the sign-extended value. -/
def msgNonPrintable (value : Nat) : String :=
  "Non-printable character '" ++ String.mk (BACKSLASH :: 'x' ::
    (if value < 16 then hexFixed 2 value else (hexFixed 16 value).dropWhile (fun c => c = '0'))) ++
    "' in character constant."

/-- The value of a hex digit, as the three range tests of the `'x'` case compute it. -/
def hexDigitValue (c : Char) : Option Nat :=
  if '0'.toNat ≤ c.toNat ∧ c.toNat ≤ '9'.toNat then some (c.toNat - '0'.toNat)
  else if 'A'.toNat ≤ c.toNat ∧ c.toNat ≤ 'F'.toNat then some (10 + (c.toNat - 'A'.toNat))
  else if 'a'.toNat ≤ c.toNat ∧ c.toNat ≤ 'f'.toNat then some (10 + (c.toNat - 'a'.toNat))
  else none

/-- The value of an octal digit, as the range test of the default case computes it. -/
def octDigitValue (c : Char) : Option Nat :=
  if '0'.toNat ≤ c.toNat ∧ c.toNat ≤ '7'.toNat then some (c.toNat - '0'.toNat) else none

/-- The tail of `parse_charconst` after the `if`: `cp++`, then the closing quote and the
terminator are required; `cp` is the index of the last character read. -/
def charconstClose (s : List Char) (cp : Nat) (value : Nat) : Except String Nat :=
  let cp := cp + 1
  if cAt s cp ≠ QUOTE ∨ cAt s (cp + 1) ≠ NUL then .error (msgCharconstTooLong s)
  else .ok value

/-- The octal case (`default:`) of the escape switch; `cp` is the index of the first digit. -/
def charconstOctal (s : List Char) (cp : Nat) : Except String Nat :=
  match octDigitValue (cAt s cp) with
  | none => .error (msgNotCharconst s)
  | some v1 =>
    if cAt s (cp + 1) ≠ QUOTE then
      let cp := cp + 1
      match octDigitValue (cAt s cp) with
      | none => .error (msgNotCharconst s)
      | some d2 =>
        let v2 := (v1 <<< 3) ||| d2
        if cAt s (cp + 1) ≠ QUOTE then
          let cp := cp + 1
          match octDigitValue (cAt s cp) with
          | none => .error (msgNotCharconst s)
          | some d3 =>
            let v3 := (v2 <<< 3) ||| d3
            if v3 > 0xFF then .error (msgCharconstTooLarge s) else charconstClose s cp v3
        else if v2 > 0xFF then .error (msgCharconstTooLarge s) else charconstClose s cp v2
    else if v1 > 0xFF then .error (msgCharconstTooLarge s) else charconstClose s cp v1

/-- The hex case (`case 'x':`) of the escape switch; `cp` is the index of the `x`. -/
def charconstHex (s : List Char) (cp : Nat) : Except String Nat :=
  let cp := cp + 1
  match hexDigitValue (cAt s cp) with
  | none => .error (msgNotCharconst s)
  | some v1 =>
    let cp := cp + 1
    if cAt s cp ≠ QUOTE then
      match hexDigitValue (cAt s cp) with
      | none => .error (msgNotCharconst s)
      | some d2 => charconstClose s cp ((v1 <<< 4) ||| d2)
    else charconstClose s cp v1

/-- The routine `parse_charconst`: the value of a C-style character constant; `s[0]` is the
opening quote, which the callers have tested. -/
def parse_charconst (s : List Char) : Except String Nat :=
  let cp := 1
  if cAt s cp = BACKSLASH then
    let cp := cp + 1
    let c := cAt s cp
    if c = NUL then .error (msgNotCharconst s)
    else if c = 'a' then charconstClose s cp 7
    else if c = 'b' then charconstClose s cp 8
    else if c = 'f' then charconstClose s cp 12
    else if c = 'n' then charconstClose s cp 10
    else if c = 'r' then charconstClose s cp 13
    else if c = 't' then charconstClose s cp 9
    else if c = 'v' then charconstClose s cp 11
    else if c = QUOTE then charconstClose s cp 39
    else if c = BACKSLASH then charconstClose s cp 92
    else if c = DQUOTE then charconstClose s cp 34
    else if c = 'x' then charconstHex s cp
    else charconstOctal s cp
  else
    let value := (cAt s cp).toNat
    if ¬ g_ascii_isprint value then .error (msgNonPrintable value)
    else charconstClose s cp value

/-- The named escapes of the character-constant grammar, each with the byte value the C
escape of that name has in ASCII. -/
def namedEscapes : List (Char × Nat) :=
  [('a', 7), ('b', 8), ('f', 12), ('n', 10), ('r', 13), ('t', 9), ('v', 11),
   (BACKSLASH, 92), (QUOTE, 39), (DQUOTE, 34)]

/-! ## The C library conversions `strtol` / `strtoul` with base 0 -/

/-- The value of a character as a digit in bases up to 36; 36 for a character that is no
digit of any base. -/
def digitValue (c : Char) : Nat :=
  if '0'.toNat ≤ c.toNat ∧ c.toNat ≤ '9'.toNat then c.toNat - '0'.toNat
  else if 'a'.toNat ≤ c.toNat ∧ c.toNat ≤ 'z'.toNat then 10 + (c.toNat - 'a'.toNat)
  else if 'A'.toNat ≤ c.toNat ∧ c.toNat ≤ 'Z'.toNat then 10 + (c.toNat - 'A'.toNat)
  else 36

/-- The longest run of digits of `base` at the head of the text: the number it denotes
(continuing from `acc`) and the count of digits read (continuing from `n`). -/
def scanDigits (base : Nat) : List Char → Nat → Nat → Nat × Nat
  | [], acc, n => (acc, n)
  | c :: cs, acc, n =>
    if digitValue c < base then scanDigits base cs (acc * base + digitValue c) (n + 1)
    else (acc, n)

/-- The subject sequence of a conversion: sign, magnitude as a mathematical number, and the
index `endp` of the first character after it (0 when there is no conversion). -/
structure Subject where
  neg : Bool
  mag : Nat
  endp : Nat
deriving DecidableEq, Repr

/-- The subject that a digit run gives: none when the run is empty, otherwise the sign
seen before it, the number it denotes, and the index after its last digit; `start` is the
index of its first digit and `d` what `scanDigits` returned. -/
def subjectOf (neg : Bool) (start : Nat) (d : Nat × Nat) : Subject :=
  if d.2 = 0 then ⟨false, 0, 0⟩ else ⟨neg, d.1, start + d.2⟩

/-- The subject sequence the `strto*` family recognises with base 0 (ISO C 7.22.1.4): white
space, an optional sign, then a hex numeral after `0x` / `0X`, an octal numeral after `0`,
or a decimal numeral.  `0x` without a hex digit after it is the numeral `0`. -/
def scanSubject (s : List Char) : Subject :=
  let ws := (s.takeWhile isspace).length
  let r := s.drop ws
  let neg := decide (r.head? = some '-')
  let sign := if r.head? = some '-' ∨ r.head? = some '+' then 1 else 0
  let r := r.drop sign
  let hex := decide (cAt r 0 = '0' ∧ (cAt r 1 = 'x' ∨ cAt r 1 = 'X') ∧ digitValue (cAt r 2) < 16)
  let base := if hex then 16 else if cAt r 0 = '0' then 8 else 10
  let pre := if hex then 2 else 0
  subjectOf neg (ws + sign + pre) (scanDigits base (r.drop pre) 0 0)

/-- What a conversion returns: the value, the end pointer as an index into the text, and
whether `errno` was set to `ERANGE`. -/
structure Conv (α : Type) where
  value : α
  endp : Nat
  erange : Bool
deriving DecidableEq, Repr

/-- The largest value of an unsigned integer type of `bits` bits (`ULONG_MAX`, `G_MAXUINT64`). -/
def umaxOf (bits : Nat) : Nat := 2 ^ bits - 1

/-- The largest value of a signed integer type of `bits` bits (`LONG_MAX`, `G_MAXINT64`). -/
def smaxOf (bits : Nat) : Int := 2 ^ (bits - 1) - 1

/-- The smallest value of a signed integer type of `bits` bits (`LONG_MIN`, `G_MININT64`). -/
def sminOf (bits : Nat) : Int := -(2 ^ (bits - 1))

/-- The conversion to an unsigned type of `bits` bits (`strtoul`, `g_ascii_strtoull`): a
magnitude above the maximum gives the maximum and `ERANGE`; a minus sign negates in the
unsigned type. -/
def strtou (bits : Nat) (s : List Char) : Conv Nat :=
  let sub := scanSubject s
  if sub.endp = 0 then ⟨0, 0, false⟩
  else if sub.mag > umaxOf bits then ⟨umaxOf bits, sub.endp, true⟩
  else ⟨if sub.neg then (2 ^ bits - sub.mag) % 2 ^ bits else sub.mag, sub.endp, false⟩

/-- The conversion to a signed type of `bits` bits (`strtol`, `g_ascii_strtoll`): a value
above the maximum gives the maximum and `ERANGE`, one below the minimum gives the minimum
and `ERANGE`. -/
def strtos (bits : Nat) (s : List Char) : Conv Int :=
  let sub := scanSubject s
  if sub.endp = 0 then ⟨0, 0, false⟩
  else if sub.neg then
    if -(sub.mag : Int) < sminOf bits then ⟨sminOf bits, sub.endp, true⟩
    else ⟨-(sub.mag : Int), sub.endp, false⟩
  else if (sub.mag : Int) > smaxOf bits then ⟨smaxOf bits, sub.endp, true⟩
  else ⟨(sub.mag : Int), sub.endp, false⟩

/-- C `strtoul(s, &endptr, 0)` where `long` has `lbits` bits. -/
def strtoul (lbits : Nat) (s : List Char) : Conv Nat := strtou lbits s

/-- C `strtol(s, &endptr, 0)` where `long` has `lbits` bits. -/
def strtol (lbits : Nat) (s : List Char) : Conv Int := strtos lbits s

/-- GLib `g_ascii_strtoull(s, &endptr, 0)`. -/
def g_ascii_strtoull (s : List Char) : Conv Nat := strtou 64 s

/-- GLib `g_ascii_strtoll(s, &endptr, 0)`. -/
def g_ascii_strtoll (s : List Char) : Conv Int := strtos 64 s

/-- C `strchr(s, c) != NULL` for a character other than NUL. -/
def strchr (s : List Char) (c : Char) : Bool := decide (c ∈ s)

/-! ## Value kinds -/

/-- Modelled from the spec: the closed enumeration of value-kind tags (`enum ftenum` of
epan/ftypes/ftypes.h, absent here), with the tags the source files name. -/
inductive ftenum
  | FT_NONE | FT_PROTOCOL | FT_BOOLEAN | FT_CHAR
  | FT_UINT8 | FT_UINT16 | FT_UINT24 | FT_UINT32
  | FT_UINT40 | FT_UINT48 | FT_UINT56 | FT_UINT64
  | FT_INT8 | FT_INT16 | FT_INT24 | FT_INT32
  | FT_INT40 | FT_INT48 | FT_INT56 | FT_INT64
  | FT_IEEE_11073_SFLOAT | FT_IEEE_11073_FLOAT | FT_FLOAT | FT_DOUBLE
  | FT_ABSOLUTE_TIME | FT_RELATIVE_TIME
  | FT_STRING | FT_STRINGZ | FT_UINT_STRING
  | FT_ETHER | FT_BYTES | FT_UINT_BYTES | FT_IPv4 | FT_IPv6 | FT_IPXNET | FT_FRAMENUM
  | FT_GUID | FT_OID | FT_EUI64 | FT_AX25 | FT_VINES | FT_REL_OID | FT_SYSTEM_ID | FT_FCWWN
deriving DecidableEq, Repr

/-- The member of the storage union of a field value that an integer kind uses. -/
inductive fvalue_value
  | uinteger (v : Nat)
  | sinteger (v : Int)
  | uinteger64 (v : Nat)
  | sinteger64 (v : Int)
deriving DecidableEq, Repr

/-- Display mode `BASE_DEC` (epan/proto.h, absent here). -/
def BASE_DEC : Nat := 1

/-- Display mode `BASE_HEX` (epan/proto.h, absent here). -/
def BASE_HEX : Nat := 2

/-- Display mode `BASE_HEX_DEC` (epan/proto.h, absent here). -/
def BASE_HEX_DEC : Nat := 5

/-- GLib `G_MAXUINT8`. -/
def G_MAXUINT8 : Nat := 255

/-- GLib `G_MAXUINT16`. -/
def G_MAXUINT16 : Nat := 65535

/-- GLib `G_MAXUINT32`. -/
def G_MAXUINT32 : Nat := 4294967295

/-- GLib `G_MAXUINT64`. -/
def G_MAXUINT64 : Nat := 18446744073709551615

/-- GLib `G_MAXINT8`. -/
def G_MAXINT8 : Int := 127

/-- GLib `G_MININT8`. -/
def G_MININT8 : Int := -128

/-- GLib `G_MAXINT16`. -/
def G_MAXINT16 : Int := 32767

/-- GLib `G_MININT16`. -/
def G_MININT16 : Int := -32768

/-- GLib `G_MAXINT32`. -/
def G_MAXINT32 : Int := 2147483647

/-- GLib `G_MININT32`. -/
def G_MININT32 : Int := -2147483648

/-- GLib `G_MAXINT64`. -/
def G_MAXINT64 : Int := 9223372036854775807

/-- GLib `G_MININT64`. -/
def G_MININT64 : Int := -9223372036854775808

/-- Conversion of an integer to a signed type of `bits` bits (two's complement wrap). -/
def toSigned (bits : Nat) (v : Int) : Int :=
  (v + 2 ^ (bits - 1)) % 2 ^ bits - 2 ^ (bits - 1)

/-- Conversion of an integer to an unsigned type of `bits` bits. -/
def toUnsigned (bits : Nat) (v : Int) : Nat := (v % 2 ^ bits).toNat

/-! ## Integer family: parsing -/

/-- The message `"%s" too small for this field, minimum 0.` -/
def msgTooSmallMin0 (s : List Char) : String :=
  quoted s ++ " too small for this field, minimum 0."

/-- The message `"%s" is not a valid number.` -/
def msgNotValidNumber (s : List Char) : String := quoted s ++ " is not a valid number."

/-- The message `"%s" causes an integer overflow.` -/
def msgOverflow (s : List Char) : String := quoted s ++ " causes an integer overflow."

/-- The message `"%s" causes an integer underflow.` -/
def msgUnderflow (s : List Char) : String := quoted s ++ " causes an integer underflow."

/-- The message `"%s" is not an integer.` -/
def msgNotInteger (s : List Char) : String := quoted s ++ " is not an integer."

/-- The message `"%s" too big for this field, maximum <bound>.` -/
def msgTooBig (s : List Char) (bound : List Char) : String :=
  quoted s ++ " too big for this field, maximum " ++ String.mk bound ++ "."

/-- The message `"%s" too small for this field, minimum <bound>.` -/
def msgTooSmall (s : List Char) (bound : List Char) : String :=
  quoted s ++ " too small for this field, minimum " ++ String.mk bound ++ "."

/-- The message `"%s" too small for this field, maximum <bound>.` of `_sint64_from_unparsed`. -/
def msgTooSmallMaximum (s : List Char) (bound : List Char) : String :=
  quoted s ++ " too small for this field, maximum " ++ String.mk bound ++ "."

/-- The routine `uint_from_unparsed`: the stored `uinteger` or the error message. -/
def uint_from_unparsed (lbits : Nat) (s : List Char) (max : Nat) : Except String Nat :=
  let parsed : Except String Nat :=
    if cAt s 0 = QUOTE then parse_charconst s
    else if strchr s '-' ∧ (strtol lbits s).value < 0 then .error (msgTooSmallMin0 s)
    else
      let r := strtoul lbits s
      if r.endp = 0 ∨ cAt s r.endp ≠ NUL then .error (msgNotValidNumber s)
      else if r.erange then
        .error (if r.value = umaxOf lbits then msgOverflow s else msgNotInteger s)
      else .ok r.value
  match parsed with
  | .error e => .error e
  | .ok value =>
    if value > max then .error (msgTooBig s (decimal max))
    else .ok (value % 2 ^ 32)

/-- The routine `uint32_from_unparsed`. -/
def uint32_from_unparsed (lbits : Nat) (s : List Char) : Except String Nat :=
  uint_from_unparsed lbits s G_MAXUINT32

/-- The routine `uint24_from_unparsed`. -/
def uint24_from_unparsed (lbits : Nat) (s : List Char) : Except String Nat :=
  uint_from_unparsed lbits s 0xFFFFFF

/-- The routine `uint16_from_unparsed`. -/
def uint16_from_unparsed (lbits : Nat) (s : List Char) : Except String Nat :=
  uint_from_unparsed lbits s G_MAXUINT16

/-- The routine `uint8_from_unparsed`. -/
def uint8_from_unparsed (lbits : Nat) (s : List Char) : Except String Nat :=
  uint_from_unparsed lbits s G_MAXUINT8

/-- The routine `sint_from_unparsed`: the stored `sinteger` or the error message. -/
def sint_from_unparsed (lbits : Nat) (s : List Char) (max min : Int) : Except String Int :=
  let parsed : Except String Int :=
    if cAt s 0 = QUOTE then
      match parse_charconst s with
      | .error e => .error e
      | .ok charvalue => .ok (toSigned 8 charvalue)
    else if ¬ strchr s '-' ∧ ((strtoul lbits s).value : Int) > G_MAXINT32 then
      .error (msgOverflow s)
    else
      let r := strtol lbits s
      if r.endp = 0 ∨ cAt s r.endp ≠ NUL then .error (msgNotValidNumber s)
      else if r.erange then
        .error (if r.value = smaxOf lbits then msgOverflow s
                else if r.value = sminOf lbits then msgUnderflow s
                else msgNotInteger s)
      else .ok r.value
  match parsed with
  | .error e => .error e
  | .ok value =>
    if value > max then .error (msgTooBig s (decimalInt max))
    else if value < min then .error (msgTooSmall s (decimalInt min))
    else .ok (toSigned 32 value)

/-- The routine `sint32_from_unparsed`. -/
def sint32_from_unparsed (lbits : Nat) (s : List Char) : Except String Int :=
  sint_from_unparsed lbits s G_MAXINT32 G_MININT32

/-- The routine `sint24_from_unparsed`. -/
def sint24_from_unparsed (lbits : Nat) (s : List Char) : Except String Int :=
  sint_from_unparsed lbits s 0x7FFFFF (-0x800000)

/-- The routine `sint16_from_unparsed`. -/
def sint16_from_unparsed (lbits : Nat) (s : List Char) : Except String Int :=
  sint_from_unparsed lbits s G_MAXINT16 G_MININT16

/-- The routine `sint8_from_unparsed`. -/
def sint8_from_unparsed (lbits : Nat) (s : List Char) : Except String Int :=
  sint_from_unparsed lbits s G_MAXINT8 G_MININT8

/-- The routine `_uint64_from_unparsed`: the stored `uinteger64` or the error message. -/
def _uint64_from_unparsed (s : List Char) (max : Nat) : Except String Nat :=
  if strchr s '-' ∧ (g_ascii_strtoll s).value < 0 then .error (msgUnderflow s)
  else
    let r := g_ascii_strtoull s
    if r.endp = 0 ∨ cAt s r.endp ≠ NUL then .error (msgNotValidNumber s)
    else if r.erange then
      .error (if r.value = G_MAXUINT64 then msgOverflow s else msgNotInteger s)
    else if r.value > max then .error (msgTooBig s (decimal max))
    else .ok r.value

/-- The routine `uint64_from_unparsed`. -/
def uint64_from_unparsed (s : List Char) : Except String Nat :=
  _uint64_from_unparsed s G_MAXUINT64

/-- The routine `uint56_from_unparsed`. -/
def uint56_from_unparsed (s : List Char) : Except String Nat :=
  _uint64_from_unparsed s 0xFFFFFFFFFFFFFF

/-- The routine `uint48_from_unparsed`. -/
def uint48_from_unparsed (s : List Char) : Except String Nat :=
  _uint64_from_unparsed s 0xFFFFFFFFFFFF

/-- The routine `uint40_from_unparsed`. -/
def uint40_from_unparsed (s : List Char) : Except String Nat :=
  _uint64_from_unparsed s 0xFFFFFFFFFF

/-- The routine `_sint64_from_unparsed`: the stored `sinteger64` or the error message.  Both
range messages print `max` with an unsigned conversion. -/
def _sint64_from_unparsed (s : List Char) (max min : Int) : Except String Int :=
  if ¬ strchr s '-' ∧ ((g_ascii_strtoull s).value : Int) > G_MAXINT64 then
    .error (msgOverflow s)
  else
    let r := g_ascii_strtoll s
    if r.endp = 0 ∨ cAt s r.endp ≠ NUL then .error (msgNotValidNumber s)
    else if r.erange then
      .error (if r.value = G_MAXINT64 then msgOverflow s
              else if r.value = G_MININT64 then msgUnderflow s
              else msgNotInteger s)
    else if r.value > max then .error (msgTooBig s (decimal (toUnsigned 64 max)))
    else if r.value < min then .error (msgTooSmallMaximum s (decimal (toUnsigned 64 max)))
    else .ok (toSigned 64 (toUnsigned 64 r.value))

/-- The routine `sint64_from_unparsed`. -/
def sint64_from_unparsed (s : List Char) : Except String Int :=
  _sint64_from_unparsed s G_MAXINT64 G_MININT64

/-- The routine `sint56_from_unparsed`. -/
def sint56_from_unparsed (s : List Char) : Except String Int :=
  _sint64_from_unparsed s 0x7FFFFFFFFFFFFF (-0x80000000000000)

/-- The routine `sint48_from_unparsed`. -/
def sint48_from_unparsed (s : List Char) : Except String Int :=
  _sint64_from_unparsed s 0x7FFFFFFFFFFF (-0x800000000000)

/-- The routine `sint40_from_unparsed`. -/
def sint40_from_unparsed (s : List Char) : Except String Int :=
  _sint64_from_unparsed s 0x7FFFFFFFFF (-0x8000000000)

/-- The message `"%s" is not a valid IPX network address.` -/
def msgNotIpxnet (s : List Char) : String := quoted s ++ " is not a valid IPX network address."

/-- The routine `ipxnet_from_unparsed`. -/
def ipxnet_from_unparsed (lbits : Nat) (s : List Char) : Except String Nat :=
  match uint32_from_unparsed lbits s with
  | .ok v => .ok v
  | .error _ => .error (msgNotIpxnet s)

/-! ## Integer family: formatting -/

/-- Modelled from the spec: `guint32_to_str_buf` (epan/to_str.c, absent here) writes the
decimal numeral of a 32-bit unsigned number. -/
def guint32_to_str_buf (u : Nat) : List Char := decimal (u % 2 ^ 32)

/-- Modelled from the spec: `guint64_to_str_buf` (epan/to_str.c, absent here) writes the
decimal numeral of a 64-bit unsigned number. -/
def guint64_to_str_buf (u : Nat) : List Char := decimal (u % 2 ^ 64)

/-- Modelled from the spec: `guint8_to_hex` (wsutil/to_str.c, absent here) writes the two hex
digits of a byte. -/
def guint8_to_hex (v : Nat) : List Char := hexFixed 2 v

/-- Modelled from the spec: `word_to_hex` (wsutil/to_str.c, absent here) writes the four hex
digits of a 16-bit word. -/
def word_to_hex (v : Nat) : List Char := hexFixed 4 v

/-- Modelled from the spec: `dword_to_hex` (wsutil/to_str.c, absent here) writes the eight
hex digits of a 32-bit word. -/
def dword_to_hex (v : Nat) : List Char := hexFixed 8 v

/-- Modelled from the spec: `qword_to_hex` (wsutil/to_str.c, absent here) writes the sixteen
hex digits of a 64-bit word. -/
def qword_to_hex (v : Nat) : List Char := hexFixed 16 v

/-- The routine `integer_to_repr` on the stored `sinteger`: the text written to `buf`. -/
def integer_to_repr (sinteger : Int) : List Char :=
  if sinteger < 0 then '-' :: guint32_to_str_buf (toUnsigned 32 (-sinteger))
  else guint32_to_str_buf (toUnsigned 32 sinteger)

/-- The routine `uinteger_to_repr` on the kind tag and the stored `uinteger`. -/
def uinteger_to_repr (ftype : ftenum) (uinteger : Nat) (field_display : Nat) : List Char :=
  if field_display &&& 0xff = BASE_HEX ∨ field_display &&& 0xff = BASE_HEX_DEC then
    '0' :: 'x' ::
      (match ftype with
       | .FT_UINT8 => guint8_to_hex uinteger
       | .FT_UINT16 => word_to_hex uinteger
       | .FT_UINT24 =>
         guint8_to_hex ((uinteger &&& 0x00ff0000) >>> 16) ++ word_to_hex (uinteger &&& 0x0000ffff)
       | _ => dword_to_hex uinteger)
  else guint32_to_str_buf uinteger

/-- The routine `ipxnet_to_repr`. -/
def ipxnet_to_repr (ftype : ftenum) (uinteger : Nat) : List Char :=
  uinteger_to_repr ftype uinteger BASE_HEX

/-- The routine `integer64_to_repr` on the stored `sinteger64`. -/
def integer64_to_repr (sinteger64 : Int) : List Char :=
  if sinteger64 < 0 then '-' :: guint64_to_str_buf (toUnsigned 64 (-sinteger64))
  else guint64_to_str_buf (toUnsigned 64 sinteger64)

/-- The routine `uinteger64_to_repr` on the stored `uinteger64`. -/
def uinteger64_to_repr (uinteger64 : Nat) (field_display : Nat) : List Char :=
  if field_display = BASE_HEX ∨ field_display = BASE_HEX_DEC then
    '0' :: 'x' :: qword_to_hex uinteger64
  else guint64_to_str_buf uinteger64

/-! ## Descriptors of the integer width kinds -/

/-- The `wire_size` field of the descriptors that `ftype_register_integers` registers for
the character kind, the integer width kinds, the boolean, the IPX network number and the
frame number; 0 as well for the kinds whose descriptor is not embedded here. -/
def wire_size : ftenum → Nat
  | .FT_CHAR | .FT_UINT8 | .FT_INT8 => 1
  | .FT_UINT16 | .FT_INT16 => 2
  | .FT_UINT24 | .FT_INT24 => 3
  | .FT_UINT32 | .FT_INT32 | .FT_IPXNET | .FT_FRAMENUM => 4
  | .FT_UINT40 | .FT_INT40 => 5
  | .FT_UINT48 | .FT_INT48 => 6
  | .FT_UINT56 | .FT_INT56 => 7
  | .FT_UINT64 | .FT_INT64 => 8
  | _ => 0

/-- The `val_from_unparsed` entry (`parse_literal`) of the descriptors that
`ftype_register_integers` registers, the value being stored in the union member the routine
writes; `none` for FT_EUI64 and for the kinds that other files register. -/
def val_from_unparsed (lbits : Nat) (ft : ftenum) (s : List Char) :
    Option (Except String fvalue_value) :=
  match ft with
  | .FT_CHAR => some ((uint8_from_unparsed lbits s).map .uinteger)
  | .FT_UINT8 => some ((uint8_from_unparsed lbits s).map .uinteger)
  | .FT_UINT16 => some ((uint16_from_unparsed lbits s).map .uinteger)
  | .FT_UINT24 => some ((uint24_from_unparsed lbits s).map .uinteger)
  | .FT_UINT32 => some ((uint32_from_unparsed lbits s).map .uinteger)
  | .FT_UINT40 => some ((uint40_from_unparsed s).map .uinteger64)
  | .FT_UINT48 => some ((uint48_from_unparsed s).map .uinteger64)
  | .FT_UINT56 => some ((uint56_from_unparsed s).map .uinteger64)
  | .FT_UINT64 => some ((uint64_from_unparsed s).map .uinteger64)
  | .FT_INT8 => some ((sint8_from_unparsed lbits s).map .sinteger)
  | .FT_INT16 => some ((sint16_from_unparsed lbits s).map .sinteger)
  | .FT_INT24 => some ((sint24_from_unparsed lbits s).map .sinteger)
  | .FT_INT32 => some ((sint32_from_unparsed lbits s).map .sinteger)
  | .FT_INT40 => some ((sint40_from_unparsed s).map .sinteger64)
  | .FT_INT48 => some ((sint48_from_unparsed s).map .sinteger64)
  | .FT_INT56 => some ((sint56_from_unparsed s).map .sinteger64)
  | .FT_INT64 => some ((sint64_from_unparsed s).map .sinteger64)
  | .FT_BOOLEAN => some ((uint64_from_unparsed s).map .uinteger64)
  | .FT_IPXNET => some ((ipxnet_from_unparsed lbits s).map .uinteger)
  | .FT_FRAMENUM => some ((uint32_from_unparsed lbits s).map .uinteger)
  | _ => none

/-- The `val_to_string_repr` entry (`format`) of the descriptors of the integer width kinds
on a value held in the union member the kind uses; `none` otherwise. -/
def val_to_string_repr (ft : ftenum) (v : fvalue_value) (field_display : Nat) :
    Option (List Char) :=
  match ft, v with
  | .FT_UINT8, .uinteger u => some (uinteger_to_repr ft u field_display)
  | .FT_UINT16, .uinteger u => some (uinteger_to_repr ft u field_display)
  | .FT_UINT24, .uinteger u => some (uinteger_to_repr ft u field_display)
  | .FT_UINT32, .uinteger u => some (uinteger_to_repr ft u field_display)
  | .FT_UINT40, .uinteger64 u => some (uinteger64_to_repr u field_display)
  | .FT_UINT48, .uinteger64 u => some (uinteger64_to_repr u field_display)
  | .FT_UINT56, .uinteger64 u => some (uinteger64_to_repr u field_display)
  | .FT_UINT64, .uinteger64 u => some (uinteger64_to_repr u field_display)
  | .FT_INT8, .sinteger i => some (integer_to_repr i)
  | .FT_INT16, .sinteger i => some (integer_to_repr i)
  | .FT_INT24, .sinteger i => some (integer_to_repr i)
  | .FT_INT32, .sinteger i => some (integer_to_repr i)
  | .FT_INT40, .sinteger64 i => some (integer64_to_repr i)
  | .FT_INT48, .sinteger64 i => some (integer64_to_repr i)
  | .FT_INT56, .sinteger64 i => some (integer64_to_repr i)
  | .FT_INT64, .sinteger64 i => some (integer64_to_repr i)
  | _, _ => none

/-- The unsigned integer kinds UINT8 .. UINT64. -/
def unsignedKinds : List ftenum :=
  [.FT_UINT8, .FT_UINT16, .FT_UINT24, .FT_UINT32, .FT_UINT40, .FT_UINT48, .FT_UINT56, .FT_UINT64]

/-- The signed integer kinds INT8 .. INT64. -/
def signedKinds : List ftenum :=
  [.FT_INT8, .FT_INT16, .FT_INT24, .FT_INT32, .FT_INT40, .FT_INT48, .FT_INT56, .FT_INT64]

/-- The union member in which a kind of the integer width family stores the number `v`. -/
def store (ft : ftenum) (v : Int) : fvalue_value :=
  match ft with
  | .FT_UINT40 | .FT_UINT48 | .FT_UINT56 | .FT_UINT64 => .uinteger64 v.toNat
  | .FT_INT8 | .FT_INT16 | .FT_INT24 | .FT_INT32 => .sinteger v
  | .FT_INT40 | .FT_INT48 | .FT_INT56 | .FT_INT64 => .sinteger64 v
  | _ => .uinteger v.toNat

/-- The number a stored value holds. -/
def fvalue_value.toInt : fvalue_value → Int
  | .uinteger v => v
  | .sinteger v => v
  | .uinteger64 v => v
  | .sinteger64 v => v

/-- The declared width in bits of an integer kind: eight times its wire size. -/
def widthBits (ft : ftenum) : Nat := 8 * wire_size ft

/-! ## Slice engine -/

/-- What a routine does when it can hit an assertion: it returns, or the process aborts. -/
inductive Outcome (α : Type)
  | returns (a : α)
  | aborts
deriving DecidableEq, Repr

/-- Modelled from the spec: the end mode of a range node (`drange_node_end_t` of
epan/dfilter/drange.h, absent here): FixedLength, ExplicitEnd, ToEnd, and the mode of a
node that was never initialised. -/
inductive drange_node_end_t
  | DRANGE_NODE_END_T_UNINITIALIZED
  | DRANGE_NODE_END_T_LENGTH
  | DRANGE_NODE_END_T_OFFSET
  | DRANGE_NODE_END_T_TO_THE_END
deriving DecidableEq, Repr

/-- Modelled from the spec: a range node (`drange_node` of epan/dfilter/drange.h, absent
here); the three offsets are C `gint`. -/
structure drange_node where
  start_offset : Int
  length : Int
  end_offset : Int
  ending : drange_node_end_t
deriving DecidableEq, Repr

/-- Modelled from the spec: a source value of a kind that supports slicing, given by its
logical bytes.  Its logical length is the number of bytes and its kind's `slice` operation
appends `length` bytes starting at `offset` to the accumulating buffer (the descriptors
with a `slice` entry are registered by files absent here). -/
structure slice_source where
  data : List Nat
deriving DecidableEq, Repr

/-- The routine `fvalue_length` on a slicing source, a C `guint`. -/
def fvalue_length (fv : slice_source) : Nat := fv.data.length % 2 ^ 32

/-- The `slice` entry of the source kind: append `length` bytes from `offset`. -/
def ftype_slice (fv : slice_source) (bytes : List Nat) (offset length : Nat) : List Nat :=
  bytes ++ (fv.data.drop offset).take length

/-- The record `slice_data_t` without its `fv` field, which never changes. -/
structure slice_data_t where
  bytes : List Nat
  slice_failure : Bool
deriving DecidableEq, Repr

/-- The end of `slice_func`: the assertion `start_offset >= 0 && length > 0`, then the call
of the source kind's `slice` operation. -/
def slice_append (fv : slice_source) (slice_data : slice_data_t) (start_offset length : Int) :
    Outcome slice_data_t :=
  if start_offset ≥ 0 ∧ length > 0 then
    .returns { slice_data with
      bytes := ftype_slice fv slice_data.bytes start_offset.toNat length.toNat }
  else .aborts

/-- The routine `slice_func` on one range node.  `gint` arithmetic wraps to 32 bits; a sum
with the `guint` length is taken in the unsigned type and converted back. -/
def slice_func (fv : slice_source) (drnode : drange_node) (slice_data : slice_data_t) :
    Outcome slice_data_t :=
  if slice_data.slice_failure then .returns slice_data
  else
    let field_length : Int := fvalue_length fv
    let failure : Outcome slice_data_t := .returns { slice_data with slice_failure := true }
    let start_offset :=
      if drnode.start_offset < 0 then toSigned 32 (field_length + drnode.start_offset)
      else drnode.start_offset
    if drnode.start_offset < 0 ∧ start_offset < 0 then failure
    else
      match drnode.ending with
      | .DRANGE_NODE_END_T_TO_THE_END =>
        let length := toSigned 32 (field_length - start_offset)
        if length ≤ 0 then failure else slice_append fv slice_data start_offset length
      | .DRANGE_NODE_END_T_LENGTH =>
        let length := drnode.length
        if toSigned 32 (start_offset + length) > toSigned 32 field_length then failure
        else slice_append fv slice_data start_offset length
      | .DRANGE_NODE_END_T_OFFSET =>
        if drnode.end_offset < 0 then
          let end_offset := toSigned 32 (field_length + drnode.end_offset)
          if end_offset < start_offset then failure
          else slice_append fv slice_data start_offset (toSigned 32 (end_offset - start_offset + 1))
        else if drnode.end_offset ≥ toSigned 32 field_length then failure
        else
          slice_append fv slice_data start_offset
            (toSigned 32 (drnode.end_offset - start_offset + 1))
      | .DRANGE_NODE_END_T_UNINITIALIZED => .aborts

/-- The routine `drange_foreach_drange_node` with `slice_func`: the nodes in list order. -/
def slice_foreach (fv : slice_source) : List drange_node → slice_data_t → Outcome slice_data_t
  | [], slice_data => .returns slice_data
  | drnode :: rest, slice_data =>
    match slice_func fv drnode slice_data with
    | .aborts => .aborts
    | .returns slice_data1 => slice_foreach fv rest slice_data1

/-- The routine `fvalue_slice`: the pointer it returns, `none` for NULL and otherwise the
new value given by its kind tag and its byte array. -/
def fvalue_slice (fv : slice_source) (d_range : List drange_node) :
    Outcome (Option (ftenum × List Nat)) :=
  match slice_foreach fv d_range { bytes := [], slice_failure := false } with
  | .aborts => .aborts
  | .returns slice_data => .returns (some (.FT_BYTES, slice_data.bytes))

/-! ## Boolean comparator -/

/-- The routine `bool_cmp_order` on the stored `uinteger64` of the two values. -/
def bool_cmp_order (a b : Nat) : Int :=
  if a ≠ 0 then
    if b ≠ 0 then 0 else 1
  else if b ≠ 0 then -1
  else 0

/-! ## Type registry -/

/-- The routine `same_ftype`: the representative of the class of a kind. -/
def same_ftype (ftype : ftenum) : ftenum :=
  match ftype with
  | .FT_INT8 | .FT_INT16 | .FT_INT24 | .FT_INT32 => .FT_INT32
  | .FT_UINT8 | .FT_UINT16 | .FT_UINT24 | .FT_UINT32 => .FT_UINT32
  | .FT_INT40 | .FT_INT48 | .FT_INT56 | .FT_INT64 => .FT_INT64
  | .FT_UINT40 | .FT_UINT48 | .FT_UINT56 | .FT_UINT64 => .FT_UINT64
  | .FT_STRING | .FT_STRINGZ | .FT_UINT_STRING => .FT_STRING
  | .FT_FLOAT | .FT_DOUBLE => .FT_DOUBLE
  | .FT_BYTES | .FT_UINT_BYTES => .FT_BYTES
  | .FT_OID | .FT_REL_OID => .FT_OID
  | ftype => ftype

/-- The routine `ftype_similar_types`. -/
def ftype_similar_types (ftype_a ftype_b : ftenum) : Bool :=
  decide (same_ftype ftype_a = same_ftype ftype_b)

/-- Modelled from the spec: the descriptor of a kind (`ftype_t` of epan/ftypes/ftypes-int.h,
absent here), with the metadata fields the registrations initialise; the operation entries
are left out. -/
structure ftype_t where
  ftype : ftenum
  name : String
  pretty_name : String
  wire_size : Nat
deriving DecidableEq, Repr

/-- The table `type_list`: one slot per tag, `none` for the NULL of an unbound slot. -/
abbrev type_list_t := ftenum → Option ftype_t

/-- What a call of `ftype_register` leaves: the table after the binding, or the table as it
stands when an assertion aborts the process. -/
inductive register_result
  | registered (type_list : type_list_t)
  | aborted (type_list : type_list_t)

/-- The routine `ftype_register`.  The assertion `ftype < FT_NUM_TYPES` holds for every tag
of the enumeration; the two other assertions precede the only assignment. -/
def ftype_register (type_list : type_list_t) (ftype : ftenum) (ft : ftype_t) :
    register_result :=
  if ftype ≠ ft.ftype then .aborted type_list
  else if type_list ftype ≠ none then .aborted type_list
  else .registered (fun t => if t = ftype then some ft else type_list t)

/-- A sequence of calls of `ftype_register`, as the `ftype_register_*` routines make them;
it stops at the first call that aborts. -/
def ftype_register_all : type_list_t → List (ftenum × ftype_t) → register_result
  | type_list, [] => .registered type_list
  | type_list, (ftype, ft) :: rest =>
    match ftype_register type_list ftype ft with
    | .aborted t => .aborted t
    | .registered t => ftype_register_all t rest

/-- The table a call of `ftype_register` leaves, whether it returned or aborted. -/
def register_result.table : register_result → type_list_t
  | .registered type_list => type_list
  | .aborted type_list => type_list

/-- The four classes of integer width kinds that the similarity test is stated for. -/
def integerClasses : List (List ftenum) :=
  [[.FT_INT8, .FT_INT16, .FT_INT24, .FT_INT32],
   [.FT_UINT8, .FT_UINT16, .FT_UINT24, .FT_UINT32],
   [.FT_INT40, .FT_INT48, .FT_INT56, .FT_INT64],
   [.FT_UINT40, .FT_UINT48, .FT_UINT56, .FT_UINT64]]

/-- The end of `slice_func` seen from the `slice` operation: the offset and length it is
called with when the assertion `start_offset >= 0 && length > 0` holds. -/
def slice_span_checked (start_offset length : Int) : Outcome (Option (Int × Int)) :=
  if start_offset ≥ 0 ∧ length > 0 then .returns (some (start_offset, length)) else .aborts

/-- What `slice_func` does with one range node while no failure is recorded: it resolves the
node to the offset and the length that it passes to the source kind's `slice` operation
(`some`), or records a slice failure (`none`), or aborts on an assertion.  The body is that
of `slice_func` without the byte buffer (`slice_func_eq_span` relates the two). -/
def slice_span (fv : slice_source) (drnode : drange_node) : Outcome (Option (Int × Int)) :=
  let field_length : Int := fvalue_length fv
  let start_offset :=
    if drnode.start_offset < 0 then toSigned 32 (field_length + drnode.start_offset)
    else drnode.start_offset
  if drnode.start_offset < 0 ∧ start_offset < 0 then .returns none
  else
    match drnode.ending with
    | .DRANGE_NODE_END_T_TO_THE_END =>
      let length := toSigned 32 (field_length - start_offset)
      if length ≤ 0 then .returns none else slice_span_checked start_offset length
    | .DRANGE_NODE_END_T_LENGTH =>
      let length := drnode.length
      if toSigned 32 (start_offset + length) > toSigned 32 field_length then .returns none
      else slice_span_checked start_offset length
    | .DRANGE_NODE_END_T_OFFSET =>
      if drnode.end_offset < 0 then
        let end_offset := toSigned 32 (field_length + drnode.end_offset)
        if end_offset < start_offset then .returns none
        else slice_span_checked start_offset (toSigned 32 (end_offset - start_offset + 1))
      else if drnode.end_offset ≥ toSigned 32 field_length then .returns none
      else slice_span_checked start_offset (toSigned 32 (drnode.end_offset - start_offset + 1))
    | .DRANGE_NODE_END_T_UNINITIALIZED => .aborts

/-- The bytes `[start, start + length)` of a source. -/
def source_bytes (fv : slice_source) (span : Int × Int) : List Nat :=
  (fv.data.drop span.1.toNat).take span.2.toNat

/-! ## Time family: relative time -/

/-- GLib `g_ascii_isdigit`. -/
def g_ascii_isdigit (c : Char) : Bool := decide ('0'.toNat ≤ c.toNat ∧ c.toNat ≤ '9'.toNat)

/-- The loop `for (i = 0; i < scale; i++) digit *= 10;` of `get_nsecs`, in C `int`. -/
def times_ten : Nat → Int → Int
  | 0, digit => digit
  | i + 1, digit => times_ten i (toSigned 32 (digit * 10))

/-- The `while` loop of `get_nsecs`: the characters before `p`, the last one first, the
current `scale` and `val`; `none` for `return FALSE`. -/
def get_nsecs_loop : List Char → Int → Int → Option Int
  | [], _, val => some val
  | c :: rest, scale, val =>
    if ¬ g_ascii_isdigit c then none
    else
      let digit : Int := (c.toNat : Int) - ('0'.toNat : Int)
      if digit ≠ 0 then
        if scale < 0 then none
        else get_nsecs_loop rest (scale + 1) (toSigned 32 (val + times_ten scale.toNat digit))
      else get_nsecs_loop rest (scale + 1) val

/-- The routine `get_nsecs` on the text at `startp` (shorter than 2^31 characters): the
nanoseconds, `none` for failure. -/
def get_nsecs (startp : List Char) : Option Int :=
  get_nsecs_loop startp.reverse (9 - (startp.length : Int)) 0

/-- The subject sequence `strtoul` recognises with base 10: white space, an optional sign,
a decimal numeral. -/
def scanSubject10 (s : List Char) : Subject :=
  let ws := (s.takeWhile isspace).length
  let r := s.drop ws
  let neg := decide (r.head? = some '-')
  let sign := if r.head? = some '-' ∨ r.head? = some '+' then 1 else 0
  subjectOf neg (ws + sign) (scanDigits 10 (r.drop sign) 0 0)

/-- C `strtoul(s, &endptr, 10)` where `long` has `lbits` bits. -/
def strtoul10 (lbits : Nat) (s : List Char) : Conv Nat :=
  let sub := scanSubject10 s
  if sub.endp = 0 then ⟨0, 0, false⟩
  else if sub.mag > umaxOf lbits then ⟨umaxOf lbits, sub.endp, true⟩
  else ⟨if sub.neg then (2 ^ lbits - sub.mag) % 2 ^ lbits else sub.mag, sub.endp, false⟩

/-- The record `nstime_t`: `secs` is a C `time_t`, `nsecs` a C `int`. -/
structure nstime_t where
  secs : Int
  nsecs : Int
deriving DecidableEq, Repr

/-- The message `"%s" is not a valid time.` -/
def msgNotValidTime (s : List Char) : String := quoted s ++ " is not a valid time."

/-- The body of `relative_val_from_unparsed` after the sign: the seconds and nanoseconds of
the text at `curptr`, `none` for `goto fail`.  A pointer is the rest of the text from it;
`time_t` is a signed type of `tbits` bits. -/
def relative_val_parse (lbits tbits : Nat) (curptr : List Char) : Option nstime_t :=
  let seconds : Option (Int × List Char) :=
    if cAt curptr 0 ≠ '.' then
      let r := strtoul10 lbits curptr
      let endptr := curptr.drop r.endp
      if r.endp = 0 ∨ (cAt endptr 0 ≠ NUL ∧ cAt endptr 0 ≠ '.') then none
      else some (toSigned tbits r.value, if cAt endptr 0 = '.' then endptr.drop 1 else endptr)
    else some (0, curptr.drop 1)
  match seconds with
  | none => none
  | some (secs, curptr) =>
    if cAt curptr 0 ≠ NUL then
      match get_nsecs curptr with
      | none => none
      | some nsecs => some ⟨secs, nsecs⟩
    else some ⟨secs, 0⟩

/-- The routine `relative_val_from_unparsed`: the stored time or the error message. -/
def relative_val_from_unparsed (lbits tbits : Nat) (s : List Char) : Except String nstime_t :=
  let negative := decide (cAt s 0 = '-')
  let curptr := if negative then s.drop 1 else s
  match relative_val_parse lbits tbits curptr with
  | none => .error (msgNotValidTime s)
  | some t =>
    .ok (if negative then ⟨toSigned tbits (-t.secs), toSigned 32 (-t.nsecs)⟩ else t)

/-- The integer value of a run of decimal digits. -/
def digitsValue (d : List Char) : Nat := d.foldl (fun a c => a * 10 + digitValue c) 0

/-! ## Typed accessors -/

/-- Modelled from the spec: the macro `IS_FT_TIME` (epan/ftypes/ftypes.h, absent here): the
tag is one of the two time kinds. -/
def IS_FT_TIME (ft : ftenum) : Bool :=
  decide (ft = .FT_ABSOLUTE_TIME ∨ ft = .FT_RELATIVE_TIME)

/-- Modelled from the spec: the tag and the accessor entries of a descriptor (`ftype_t` of
epan/ftypes/ftypes-int.h, absent here) over a storage of type `σ`; `none` is a NULL entry.
One field stands for each member of the unions `set_value` and `get_value` that the typed
accessors call. -/
structure ftype_accessors (σ : Type) where
  ftype : ftenum
  set_value_time : Option (σ → nstime_t → σ)
  set_value_uinteger : Option (σ → Nat → σ)
  set_value_sinteger : Option (σ → Int → σ)
  set_value_uinteger64 : Option (σ → Nat → σ)
  set_value_sinteger64 : Option (σ → Int → σ)
  get_value_uinteger : Option (σ → Nat)
  get_value_sinteger : Option (σ → Int)
  get_value_uinteger64 : Option (σ → Nat)
  get_value_sinteger64 : Option (σ → Int)

/-- The record `fvalue_t`: the descriptor and the storage. -/
structure fvalue_t (σ : Type) where
  ftype : ftype_accessors σ
  value : σ

/-- The two assertions and the call of a setter: the tag test, the entry, the argument. -/
def call_setter {σ α : Type} (fv : fvalue_t σ) (tag_ok : Bool) (entry : Option (σ → α → σ))
    (value : α) : Outcome (fvalue_t σ) :=
  if tag_ok then
    match entry with
    | none => .aborts
    | some set_value => .returns { fv with value := set_value fv.value value }
  else .aborts

/-- The two assertions and the call of a getter: the tag test and the entry. -/
def call_getter {σ α : Type} (fv : fvalue_t σ) (tag_ok : Bool) (entry : Option (σ → α)) :
    Outcome α :=
  if tag_ok then
    match entry with
    | none => .aborts
    | some get_value => .returns (get_value fv.value)
  else .aborts

/-- The routine `fvalue_set_time`. -/
def fvalue_set_time {σ : Type} (fv : fvalue_t σ) (value : nstime_t) : Outcome (fvalue_t σ) :=
  call_setter fv (IS_FT_TIME fv.ftype.ftype) fv.ftype.set_value_time value

/-- The tag test of `fvalue_set_uinteger` and `fvalue_get_uinteger`. -/
def uinteger_tag (ft : ftenum) : Bool :=
  decide (ft = .FT_IEEE_11073_SFLOAT ∨ ft = .FT_IEEE_11073_FLOAT ∨ ft = .FT_CHAR ∨
    ft = .FT_UINT8 ∨ ft = .FT_UINT16 ∨ ft = .FT_UINT24 ∨ ft = .FT_UINT32 ∨
    ft = .FT_IPXNET ∨ ft = .FT_FRAMENUM ∨ ft = .FT_IPv4)

/-- The tag test of `fvalue_set_sinteger` and `fvalue_get_sinteger`. -/
def sinteger_tag (ft : ftenum) : Bool :=
  decide (ft = .FT_INT8 ∨ ft = .FT_INT16 ∨ ft = .FT_INT24 ∨ ft = .FT_INT32)

/-- The tag test of `fvalue_set_uinteger64` and `fvalue_get_uinteger64`. -/
def uinteger64_tag (ft : ftenum) : Bool :=
  decide (ft = .FT_UINT40 ∨ ft = .FT_UINT48 ∨ ft = .FT_UINT56 ∨ ft = .FT_UINT64 ∨
    ft = .FT_BOOLEAN ∨ ft = .FT_EUI64)

/-- The tag test of `fvalue_set_sinteger64` and `fvalue_get_sinteger64`. -/
def sinteger64_tag (ft : ftenum) : Bool :=
  decide (ft = .FT_INT40 ∨ ft = .FT_INT48 ∨ ft = .FT_INT56 ∨ ft = .FT_INT64)

/-- The routine `fvalue_set_uinteger`. -/
def fvalue_set_uinteger {σ : Type} (fv : fvalue_t σ) (value : Nat) : Outcome (fvalue_t σ) :=
  call_setter fv (uinteger_tag fv.ftype.ftype) fv.ftype.set_value_uinteger value

/-- The routine `fvalue_set_sinteger`. -/
def fvalue_set_sinteger {σ : Type} (fv : fvalue_t σ) (value : Int) : Outcome (fvalue_t σ) :=
  call_setter fv (sinteger_tag fv.ftype.ftype) fv.ftype.set_value_sinteger value

/-- The routine `fvalue_set_uinteger64`. -/
def fvalue_set_uinteger64 {σ : Type} (fv : fvalue_t σ) (value : Nat) : Outcome (fvalue_t σ) :=
  call_setter fv (uinteger64_tag fv.ftype.ftype) fv.ftype.set_value_uinteger64 value

/-- The routine `fvalue_set_sinteger64`. -/
def fvalue_set_sinteger64 {σ : Type} (fv : fvalue_t σ) (value : Int) : Outcome (fvalue_t σ) :=
  call_setter fv (sinteger64_tag fv.ftype.ftype) fv.ftype.set_value_sinteger64 value

/-- The routine `fvalue_get_uinteger`. -/
def fvalue_get_uinteger {σ : Type} (fv : fvalue_t σ) : Outcome Nat :=
  call_getter fv (uinteger_tag fv.ftype.ftype) fv.ftype.get_value_uinteger

/-- The routine `fvalue_get_sinteger`. -/
def fvalue_get_sinteger {σ : Type} (fv : fvalue_t σ) : Outcome Int :=
  call_getter fv (sinteger_tag fv.ftype.ftype) fv.ftype.get_value_sinteger

/-- The routine `fvalue_get_uinteger64`. -/
def fvalue_get_uinteger64 {σ : Type} (fv : fvalue_t σ) : Outcome Nat :=
  call_getter fv (uinteger64_tag fv.ftype.ftype) fv.ftype.get_value_uinteger64

/-- The routine `fvalue_get_sinteger64`. -/
def fvalue_get_sinteger64 {σ : Type} (fv : fvalue_t σ) : Outcome Int :=
  call_getter fv (sinteger64_tag fv.ftype.ftype) fv.ftype.get_value_sinteger64

/-- The descriptor entries of the kinds INT8 .. INT32 (`set_sinteger`, `get_sinteger`) over a
storage that is the `sinteger` member. -/
def sinteger_accessors (ft : ftenum) : ftype_accessors Int :=
  { ftype := ft, set_value_time := none, set_value_uinteger := none,
    set_value_sinteger := some (fun _ value => value), set_value_uinteger64 := none,
    set_value_sinteger64 := none, get_value_uinteger := none,
    get_value_sinteger := some (fun value => value), get_value_uinteger64 := none,
    get_value_sinteger64 := none }

/-! ## Lookup of a descriptor -/

/-- The macro `FTYPE_LOOKUP`: the assertion `ftype < FT_NUM_TYPES`, which holds for every tag
of the enumeration, then `result = type_list[ftype]`; `none` is the NULL of an unbound slot. -/
def FTYPE_LOOKUP (type_list : type_list_t) (ftype : ftenum) : Outcome (Option ftype_t) :=
  .returns (type_list ftype)

/-- What a query of the registry does: it returns a value, it aborts on a failed assertion,
or it reads a field through a NULL descriptor pointer.  The last is undefined behaviour in C:
no value is returned and no assertion is involved; where the platform traps the access the
process is killed by the memory fault. -/
inductive Query (α : Type)
  | returns (a : α)
  | aborts
  | null_dereference
deriving DecidableEq, Repr

/-- The read `ft->field` that follows the lookup in every query: the field of the descriptor;
through the NULL of an unbound slot the read is a NULL dereference (no test of `ft` precedes
it). -/
def read_field {α : Type} (field : ftype_t → α) (ft : Outcome (Option ftype_t)) : Query α :=
  match ft with
  | .aborts => .aborts
  | .returns none => .null_dereference
  | .returns (some ft) => .returns (field ft)

/-- The routine `ftype_name`. -/
def ftype_name (type_list : type_list_t) (ftype : ftenum) : Query String :=
  read_field (fun ft => ft.name) (FTYPE_LOOKUP type_list ftype)

/-- The routine `ftype_pretty_name`. -/
def ftype_pretty_name (type_list : type_list_t) (ftype : ftenum) : Query String :=
  read_field (fun ft => ft.pretty_name) (FTYPE_LOOKUP type_list ftype)

/-- The routine `ftype_length`. -/
def ftype_length (type_list : type_list_t) (ftype : ftenum) : Query Nat :=
  read_field (fun ft => ft.wire_size) (FTYPE_LOOKUP type_list ftype)

/-! ## Integer comparators -/

/-- The routine `uinteger_cmp_order` on the stored `uinteger` of the two values. -/
def uinteger_cmp_order (a b : Nat) : Int :=
  if a = b then 0 else if a < b then -1 else 1

/-- The routine `sinteger_cmp_order` on the stored `sinteger` of the two values. -/
def sinteger_cmp_order (a b : Int) : Int :=
  if a = b then 0 else if a < b then -1 else 1

/-- The routine `uinteger64_cmp_order` on the stored `uinteger64` of the two values. -/
def uinteger64_cmp_order (a b : Nat) : Int :=
  if a = b then 0 else if a < b then -1 else 1

/-- The routine `sinteger64_cmp_order` on the stored `sinteger64` of the two values. -/
def sinteger64_cmp_order (a b : Int) : Int :=
  if a = b then 0 else if a < b then -1 else 1

/-! ## Time family: absolute time -/

/-- The C record `struct tm`. -/
structure tm where
  tm_sec : Int
  tm_min : Int
  tm_hour : Int
  tm_mday : Int
  tm_mon : Int
  tm_year : Int
  tm_wday : Int
  tm_yday : Int
  tm_isdst : Int
deriving DecidableEq, Repr

/-- The library routine `strptime` as the parser calls it: the text, the format and the record
it fills; it yields the rest of the text after the match, `none` for NULL, and the record as it
leaves it.  The routine is the platform's (or wsutil/strptime.c, absent here) and is a
parameter of the parser. -/
abbrev strptime_t := List Char → List Char → tm → Option (List Char) × tm

/-- GLib `g_ascii_tolower`. -/
def g_ascii_tolower (c : Char) : Char :=
  if 'A'.toNat ≤ c.toNat ∧ c.toNat ≤ 'Z'.toNat then Char.ofNat (c.toNat + 32) else c

/-- The table `months` of `parse_month_name`. -/
def months : List (List Char) :=
  ["Jan".toList, "Feb".toList, "Mar".toList, "Apr".toList, "May".toList, "Jun".toList,
   "Jul".toList, "Aug".toList, "Sep".toList, "Oct".toList, "Nov".toList, "Dec".toList]

/-- The routine `parse_month_name`: the index of the first month whose abbreviation the text
starts with, compared as `g_ascii_strncasecmp(s, months[i], 3) == 0` does; `none` for FALSE. -/
def parse_month_name (s : List Char) : Option Int :=
  match months.findIdx? (fun m => decide ((s.take 3).map g_ascii_tolower = m.map g_ascii_tolower))
  with
  | some i => some (i : Int)
  | none => none

/-- The layout `"%d, %Y %H:%M:%S"`, tried after the month name. -/
def layout_month_name : List Char := "%d, %Y %H:%M:%S".toList

/-- The layout `"%Y-%m-%dT%H:%M:%S"`. -/
def layout_iso8601 : List Char := "%Y-%m-%dT%H:%M:%S".toList

/-- The layout `"%Y-%m-%d %H:%M:%S"`. -/
def layout_seconds : List Char := "%Y-%m-%d %H:%M:%S".toList

/-- The layout `"%Y-%m-%d %H:%M"`. -/
def layout_minutes : List Char := "%Y-%m-%d %H:%M".toList

/-- The layout `"%Y-%m-%d %H"`. -/
def layout_hours : List Char := "%Y-%m-%d %H".toList

/-- The layout `"%Y-%m-%d"`. -/
def layout_date : List Char := "%Y-%m-%d".toList

/-- One further attempt `if (curptr == NULL) curptr = strptime(s, layout, &tm);`. -/
def try_layout (strptime : strptime_t) (s layout : List Char) (prev : Option (List Char) × tm) :
    Option (List Char) × tm :=
  if prev.1.isNone then strptime s layout prev.2 else prev

/-- The layout matching of `absolute_val_from_string`: the six attempts in order.  It yields
`curptr` (`none` for NULL), `has_seconds` and the record `tm`. -/
def absolute_match (strptime : strptime_t) (s : List Char) : Option (List Char) × Bool × tm :=
  let tm0 : tm := ⟨0, 0, 0, 0, 0, 0, 0, 0, 0⟩
  let a1 : Option (List Char) × tm :=
    if cAt s 3 = ' ' then
      match parse_month_name s with
      | some mon => strptime (s.drop 4) layout_month_name { tm0 with tm_mon := mon }
      | none => (none, tm0)
    else (none, tm0)
  let a2 := try_layout strptime s layout_iso8601 a1
  let a3 := try_layout strptime s layout_seconds a2
  let has_seconds := a3.1.isSome
  let a4 := try_layout strptime s layout_minutes a3
  let a5 := try_layout strptime s layout_hours a4
  let a6 := try_layout strptime s layout_date a5
  (a6.1, has_seconds, a6.2)

/-- Whether a layout has a seconds field, the conversion `%S`. -/
def layout_has_seconds : List Char → Bool
  | [] => false
  | c :: rest => (c = '%' && rest.head? = some 'S') || layout_has_seconds rest

/-- The spec's reading of the attempts, "tried in order, first successful match wins": the
first of the given layouts that `strptime` matches on `s`, with the text the match leaves, and
the record as the attempts made leave it. -/
def first_matching_layout (strptime : strptime_t) (s : List Char) :
    List (List Char) → tm → Option (List Char × List Char) × tm
  | [], t => (none, t)
  | layout :: rest, t =>
    match strptime s layout t with
    | (some curptr, t1) => (some (layout, curptr), t1)
    | (none, t1) => first_matching_layout strptime s rest t1

/-- The spec's reading of the layout matching of `absolute_val_from_string`: the layout that
matched, with the text it left unconsumed, and the record.  The month-name layout comes first,
on the text after the month, when the fourth character is a blank and the text starts with a
month name; the five numeric layouts follow in the order of the source. -/
def absolute_matched_layout (strptime : strptime_t) (s : List Char) :
    Option (List Char × List Char) × tm :=
  let tm0 : tm := ⟨0, 0, 0, 0, 0, 0, 0, 0, 0⟩
  let month_name : Option (List Char) × tm :=
    if cAt s 3 = ' ' then
      match parse_month_name s with
      | some mon => strptime (s.drop 4) layout_month_name { tm0 with tm_mon := mon }
      | none => (none, tm0)
    else (none, tm0)
  match month_name with
  | (some curptr, t) => (some (layout_month_name, curptr), t)
  | (none, t) =>
    first_matching_layout strptime s
      [layout_iso8601, layout_seconds, layout_minutes, layout_hours, layout_date] t

/-- The message of a text that is no absolute time. -/
def msgNotValidAbsTime (s : List Char) : String :=
  quoted s ++ " is not a valid absolute time. Example: " ++
    quoted "Nov 12, 1999 08:55:44.123".toList ++ " or " ++ quoted "2011-07-04 12:34:56".toList

/-- The nanoseconds of `absolute_val_from_string` from the text `curptr` that the matched
layout left; `none` for `goto fail`. -/
def absolute_nsecs (has_seconds : Bool) (curptr : List Char) : Option Int :=
  if cAt curptr 0 ≠ NUL then
    if cAt curptr 0 ≠ '.' ∨ ¬ has_seconds then none
    else
      let curptr := curptr.drop 1
      if ¬ g_ascii_isdigit (cAt curptr 0) then none
      else get_nsecs curptr
  else some 0

/-- The routine `absolute_val_from_string`; `mktime` is the library routine, a parameter. -/
def absolute_val_from_string (strptime : strptime_t) (mktime : tm → Int) (s : List Char) :
    Except String nstime_t :=
  if s.length < 8 then .error (msgNotValidAbsTime s)
  else
    match absolute_match strptime s with
    | (none, _, _) => .error (msgNotValidAbsTime s)
    | (some curptr, has_seconds, tm) =>
      let secs := mktime { tm with tm_isdst := -1 }
      match absolute_nsecs has_seconds curptr with
      | none => .error (msgNotValidAbsTime s)
      | some nsecs => if secs = -1 then .error (msgNotValidAbsTime s) else .ok ⟨secs, nsecs⟩

/-- The routine `absolute_val_from_unparsed`. -/
def absolute_val_from_unparsed (strptime : strptime_t) (mktime : tm → Int) (s : List Char) :
    Except String nstime_t :=
  absolute_val_from_string strptime mktime s

/-! ## Hardware address -/

/-- The message `"%s" is not a valid EUI-64 address.` -/
def msgNotEui64 (s : List Char) : String := quoted s ++ " is not a valid EUI-64 address."

/-- GLib `GUINT64_FROM_BE` on the eight bytes copied into the union: the number they spell
with the first byte as the most significant one. -/
def GUINT64_FROM_BE (bytes : List Nat) : Nat :=
  (bytes.take 8).foldl (fun value b => value * 256 + b % 256) 0

/-- The routine `eui64_from_unparsed`.  The helper `hex_str_to_bytes` (epan/strutil.c, absent
here) is a parameter: the byte array it fills, `none` when it returns FALSE. -/
def eui64_from_unparsed (hex_str_to_bytes : List Char → Option (List Nat)) (s : List Char) :
    Except String Nat :=
  match uint64_from_unparsed s with
  | .ok value => .ok value
  | .error _ =>
    match hex_str_to_bytes s with
    | none => .error (msgNotEui64 s)
    | some bytes =>
      if bytes.length ≠ 8 then .error (msgNotEui64 s) else .ok (GUINT64_FROM_BE bytes)

/-! ## Integer family: character and boolean formatting, formatted lengths -/

/-- The routine `integer_repr_len`: the constant it returns for every value. -/
def integer_repr_len : Nat := 11

/-- The routine `uinteger_repr_len`. -/
def uinteger_repr_len : Nat := 10

/-- The routine `char_repr_len`. -/
def char_repr_len : Nat := 7

/-- The routine `ipxnet_repr_len`. -/
def ipxnet_repr_len : Nat := 2 + 8

/-- The routine `integer64_repr_len`. -/
def integer64_repr_len : Nat := 20

/-- The routine `uinteger64_repr_len`. -/
def uinteger64_repr_len : Nat := 20

/-- The routine `boolean_repr_len`. -/
def boolean_repr_len : Nat := 1

/-- The escape that `char_to_repr` writes after the backslash for a value that is not
printable: the `switch` on the stored `uinteger`. -/
def char_escape (uinteger field_display : Nat) : List Char :=
  if uinteger = 0 then ['0']
  else if uinteger = 7 then ['a']
  else if uinteger = 8 then ['b']
  else if uinteger = 12 then ['f']
  else if uinteger = 10 then ['n']
  else if uinteger = 13 then ['r']
  else if uinteger = 9 then ['t']
  else if uinteger = 11 then ['v']
  else if field_display = BASE_HEX then 'x' :: guint8_to_hex uinteger
  else
    [Char.ofNat (((uinteger >>> 6) &&& 0x7) + '0'.toNat),
     Char.ofNat (((uinteger >>> 3) &&& 0x7) + '0'.toNat),
     Char.ofNat (((uinteger >>> 0) &&& 0x7) + '0'.toNat)]

/-- The routine `char_to_repr` on the stored `uinteger`: the text written to `buf`.  The macro
`g_ascii_isprint` reads its argument as a `guchar`, and `(char)` keeps the low byte. -/
def char_to_repr (uinteger field_display : Nat) : List Char :=
  QUOTE ::
    ((if g_ascii_isprint (uinteger % 256) then
        (if uinteger = BACKSLASH.toNat ∨ uinteger = QUOTE.toNat then [BACKSLASH] else []) ++
          [Char.ofNat (uinteger % 256)]
      else BACKSLASH :: char_escape uinteger field_display) ++ [QUOTE])

/-- The routine `boolean_to_repr` on the stored `uinteger64`. -/
def boolean_to_repr (uinteger64 : Nat) : List Char :=
  [if uinteger64 ≠ 0 then '1' else '0']

/-- The `len_string_repr` entry of the descriptors that `ftype_register_integers` registers:
the constant the entry returns.  `none` for FT_EUI64, whose constant `EUI64_STR_LEN` is
declared in a file absent here, and for the kinds that other files register. -/
def len_string_repr : ftenum → Option Nat
  | .FT_CHAR => some char_repr_len
  | .FT_UINT8 | .FT_UINT16 | .FT_UINT24 | .FT_UINT32 | .FT_FRAMENUM => some uinteger_repr_len
  | .FT_UINT40 | .FT_UINT48 | .FT_UINT56 | .FT_UINT64 => some uinteger64_repr_len
  | .FT_INT8 | .FT_INT16 | .FT_INT24 | .FT_INT32 => some integer_repr_len
  | .FT_INT40 | .FT_INT48 | .FT_INT56 | .FT_INT64 => some integer64_repr_len
  | .FT_BOOLEAN => some boolean_repr_len
  | .FT_IPXNET => some ipxnet_repr_len
  | _ => none

/-- The `val_to_string_repr` entry of the same descriptors on a value held in the union member
the kind uses: `val_to_string_repr` for the width kinds, and the entries of the character
kind, the boolean, the IPX network number and the frame number. -/
def val_to_string_repr_registered (ft : ftenum) (v : fvalue_value) (field_display : Nat) :
    Option (List Char) :=
  match ft, v with
  | .FT_CHAR, .uinteger u => some (char_to_repr u field_display)
  | .FT_BOOLEAN, .uinteger64 u => some (boolean_to_repr u)
  | .FT_IPXNET, .uinteger u => some (ipxnet_to_repr ft u)
  | .FT_FRAMENUM, .uinteger u => some (uinteger_to_repr ft u field_display)
  | _, _ => val_to_string_repr ft v field_display

/-- The values a member of the storage union can hold: `guint32`, `gint32`, `guint64`,
`gint64`. -/
def fvalue_value.inStorage : fvalue_value → Bool
  | .uinteger v => decide (v ≤ G_MAXUINT32)
  | .sinteger v => decide (G_MININT32 ≤ v ∧ v ≤ G_MAXINT32)
  | .uinteger64 v => decide (v ≤ G_MAXUINT64)
  | .sinteger64 v => decide (G_MININT64 ≤ v ∧ v ≤ G_MAXINT64)

/-- The number of hex digits the formatters write after `0x` for an unsigned width kind: twice
the byte width for the kinds of up to four bytes (`guint8_to_hex`, `word_to_hex`, both of
them, `dword_to_hex`) and sixteen for every kind stored in 64 bits (`qword_to_hex`). -/
def hexDigitsOf (ft : ftenum) : Nat :=
  if wire_size ft ≤ 4 then 2 * wire_size ft else 16

/-! ## Instrumented routines: values computed and characters inspected -/

/-- The products `digit * 10` that the loop `for (i = 0; i < scale; i++) digit *= 10;` of
`get_nsecs` computes, each as an exact integer before it is stored in the `int`. -/
def times_ten_values : Nat → Int → List Int
  | 0, _ => []
  | i + 1, digit => digit * 10 :: times_ten_values i (toSigned 32 (digit * 10))

/-- The values that the `while` loop of `get_nsecs` computes in `int` arithmetic, in the order
of the computation and each as an exact integer before it is stored: the products of the
scaling loop and the sums `val + digit`.  The arguments are those of `get_nsecs_loop`. -/
def get_nsecs_loop_values : List Char → Int → Int → List Int
  | [], _, _ => []
  | c :: rest, scale, val =>
    if ¬ g_ascii_isdigit c then []
    else
      let digit : Int := (c.toNat : Int) - ('0'.toNat : Int)
      if digit ≠ 0 then
        if scale < 0 then []
        else
          times_ten_values scale.toNat digit ++
            (val + times_ten scale.toNat digit) ::
              get_nsecs_loop_values rest (scale + 1)
                (toSigned 32 (val + times_ten scale.toNat digit))
      else get_nsecs_loop_values rest (scale + 1) val

/-- The values that `get_nsecs` computes on the text at `startp` (see
`get_nsecs_loop_values`). -/
def get_nsecs_values (startp : List Char) : List Int :=
  get_nsecs_loop_values startp.reverse (9 - (startp.length : Int)) 0

/-- The indices of the characters that the tail of `parse_charconst` inspects: `*cp` after
`cp++`, and `*(cp + 1)` when `*cp` is the quote. -/
def charconstCloseReads (s : List Char) (cp : Nat) : List Nat :=
  let cp := cp + 1
  if cAt s cp ≠ QUOTE then [cp] else [cp, cp + 1]

/-- The indices that the octal case inspects, in the order of `charconstOctal`; `cp` is the
index of the first digit. -/
def charconstOctalReads (s : List Char) (cp : Nat) : List Nat :=
  match octDigitValue (cAt s cp) with
  | none => [cp]
  | some v1 =>
    if cAt s (cp + 1) ≠ QUOTE then
      let cp := cp + 1
      match octDigitValue (cAt s cp) with
      | none => [cp - 1, cp]
      | some d2 =>
        let v2 := (v1 <<< 3) ||| d2
        if cAt s (cp + 1) ≠ QUOTE then
          let cp := cp + 1
          match octDigitValue (cAt s cp) with
          | none => [cp - 2, cp - 1, cp]
          | some d3 =>
            let v3 := (v2 <<< 3) ||| d3
            if v3 > 0xFF then [cp - 2, cp - 1, cp]
            else [cp - 2, cp - 1, cp] ++ charconstCloseReads s cp
        else if v2 > 0xFF then [cp - 1, cp, cp + 1]
        else [cp - 1, cp, cp + 1] ++ charconstCloseReads s cp
    else if v1 > 0xFF then [cp, cp + 1]
    else [cp, cp + 1] ++ charconstCloseReads s cp

/-- The indices that the hex case inspects, in the order of `charconstHex`; `cp` is the index
of the `x`. -/
def charconstHexReads (s : List Char) (cp : Nat) : List Nat :=
  let cp := cp + 1
  match hexDigitValue (cAt s cp) with
  | none => [cp]
  | some _ =>
    let cp := cp + 1
    if cAt s cp ≠ QUOTE then
      match hexDigitValue (cAt s cp) with
      | none => [cp - 1, cp]
      | some _ => [cp - 1, cp] ++ charconstCloseReads s cp
    else [cp - 1, cp] ++ charconstCloseReads s cp

/-- The indices of the characters that `parse_charconst` inspects, in the order of
`parse_charconst`. -/
def parse_charconst_reads (s : List Char) : List Nat :=
  let cp := 1
  if cAt s cp = BACKSLASH then
    let cp := cp + 1
    let c := cAt s cp
    if c = NUL then [cp - 1, cp]
    else if c = 'a' ∨ c = 'b' ∨ c = 'f' ∨ c = 'n' ∨ c = 'r' ∨ c = 't' ∨ c = 'v' ∨ c = QUOTE ∨
        c = BACKSLASH ∨ c = DQUOTE then [cp - 1, cp] ++ charconstCloseReads s cp
    else if c = 'x' then [cp - 1, cp] ++ charconstHexReads s cp
    else [cp - 1, cp] ++ charconstOctalReads s cp
  else
    let value := (cAt s cp).toNat
    if ¬ g_ascii_isprint value then [cp] else [cp] ++ charconstCloseReads s cp

/-! ## Predicates used to state the theorems -/

/-- What the scanner needs to know of a character that starts a numeral without sign. -/
structure PlainDigit (c : Char) (d : Nat) : Prop where
  value : digitValue c = d
  not_space : isspace c = false
  not_minus : c ≠ '-'
  not_plus : c ≠ '+'
  not_quote : c ≠ QUOTE

/-- The shape of a text that is one whole numeral without a sign, denoting `n`. -/
structure WholeNumeral (s : List Char) (n : Nat) : Prop where
  not_quote : cAt s 0 ≠ QUOTE
  no_minus : '-' ∉ s
  ne_nil : s ≠ []
  subject : scanSubject s = ⟨false, n, s.length⟩

/-! # Theorems -/

/-! ## Character constants: escapes -/

theorem hexDigitValue_lt {c : Char} {v : Nat} (h : hexDigitValue c = some v) : v < 16 := by
  unfold hexDigitValue at h
  simp only [Char.reduceToNat] at h
  split_ifs at h
  all_goals
    simp only [Option.some.injEq, reduceCtorEq] at h
    omega

theorem octDigitValue_lt {c : Char} {v : Nat} (h : octDigitValue c = some v) : v < 8 := by
  unfold octDigitValue at h
  simp only [Char.reduceToNat] at h
  split_ifs at h
  all_goals
    simp only [Option.some.injEq, reduceCtorEq] at h
    omega

theorem hexDigitValue_ne {c k : Char} {v : Nat} (h : hexDigitValue c = some v)
    (hk : hexDigitValue k = none) : c ≠ k := by
  rintro rfl
  rw [hk] at h
  cases h

theorem octDigitValue_ne {c k : Char} {v : Nat} (h : octDigitValue c = some v)
    (hk : octDigitValue k = none) : c ≠ k := by
  rintro rfl
  rw [hk] at h
  cases h

theorem shift4_or (a b : Nat) (hb : b < 16) : (a <<< 4) ||| b = 16 * a + b := by
  have h := Nat.mul_add_lt_is_or (i := 4) (b := b) (by simpa using hb) a
  rw [Nat.shiftLeft_eq, Nat.mul_comm a]
  exact h.symm

theorem shift3_or (a b : Nat) (hb : b < 8) : (a <<< 3) ||| b = 8 * a + b := by
  have h := Nat.mul_add_lt_is_or (i := 3) (b := b) (by simpa using hb) a
  rw [Nat.shiftLeft_eq, Nat.mul_comm a]
  exact h.symm

/-- A hex escape of two hex digits parses to the number the two digits denote. -/
theorem parse_charconst_hex2 (h1 h2 : Char) (v1 v2 : Nat)
    (e1 : hexDigitValue h1 = some v1) (e2 : hexDigitValue h2 = some v2) :
    parse_charconst [QUOTE, BACKSLASH, 'x', h1, h2, QUOTE] = .ok (16 * v1 + v2) := by
  have hq : h2 ≠ QUOTE := hexDigitValue_ne e2 (by decide)
  simp [parse_charconst, charconstHex, charconstClose, cAt, e1, e2, hq,
    shift4_or _ _ (hexDigitValue_lt e2), show 'x' ≠ NUL by decide, show 'x' ≠ QUOTE by decide,
    show 'x' ≠ BACKSLASH by decide, show 'x' ≠ DQUOTE by decide]

/-- The escape switch reaches its default case on an octal digit. -/
theorem parse_charconst_octal (o : Char) (w : Nat) (t : List Char)
    (e : octDigitValue o = some w) :
    parse_charconst (QUOTE :: BACKSLASH :: o :: t)
      = charconstOctal (QUOTE :: BACKSLASH :: o :: t) 2 := by
  simp [parse_charconst, cAt,
    octDigitValue_ne e (show octDigitValue NUL = none by decide),
    octDigitValue_ne e (show octDigitValue 'a' = none by decide),
    octDigitValue_ne e (show octDigitValue 'b' = none by decide),
    octDigitValue_ne e (show octDigitValue 'f' = none by decide),
    octDigitValue_ne e (show octDigitValue 'n' = none by decide),
    octDigitValue_ne e (show octDigitValue 'r' = none by decide),
    octDigitValue_ne e (show octDigitValue 't' = none by decide),
    octDigitValue_ne e (show octDigitValue 'v' = none by decide),
    octDigitValue_ne e (show octDigitValue 'x' = none by decide),
    octDigitValue_ne e (show octDigitValue QUOTE = none by decide),
    octDigitValue_ne e (show octDigitValue BACKSLASH = none by decide),
    octDigitValue_ne e (show octDigitValue DQUOTE = none by decide)]

/-- An octal escape of three digits with a value of at most 255 parses to that value. -/
theorem parse_charconst_oct3 (o1 o2 o3 : Char) (w1 w2 w3 : Nat)
    (e1 : octDigitValue o1 = some w1) (e2 : octDigitValue o2 = some w2)
    (e3 : octDigitValue o3 = some w3) (hle : 64 * w1 + 8 * w2 + w3 ≤ 255) :
    parse_charconst [QUOTE, BACKSLASH, o1, o2, o3, QUOTE] = .ok (64 * w1 + 8 * w2 + w3) := by
  have q2 : o2 ≠ QUOTE := octDigitValue_ne e2 (by decide)
  have q3 : o3 ≠ QUOTE := octDigitValue_ne e3 (by decide)
  have hv : 8 * (8 * w1 + w2) + w3 = 64 * w1 + 8 * w2 + w3 := by ring
  rw [parse_charconst_octal o1 w1 _ e1]
  simp [charconstOctal, charconstClose, cAt, e1, e2, e3, q2, q3,
    shift3_or _ _ (octDigitValue_lt e2), shift3_or _ _ (octDigitValue_lt e3), hv]
  omega

/-- An octal escape of two digits parses to the number the two digits denote. -/
theorem parse_charconst_oct2 (o1 o2 : Char) (w1 w2 : Nat)
    (e1 : octDigitValue o1 = some w1) (e2 : octDigitValue o2 = some w2) :
    parse_charconst [QUOTE, BACKSLASH, o1, o2, QUOTE] = .ok (8 * w1 + w2) := by
  have q2 : o2 ≠ QUOTE := octDigitValue_ne e2 (by decide)
  have b1 := octDigitValue_lt e1
  have b2 := octDigitValue_lt e2
  rw [parse_charconst_octal o1 w1 _ e1]
  simp [charconstOctal, charconstClose, cAt, e1, e2, q2, shift3_or _ _ b2]
  omega

/-- An octal escape of one digit parses to the digit. -/
theorem parse_charconst_oct1 (o1 : Char) (w1 : Nat) (e1 : octDigitValue o1 = some w1) :
    parse_charconst [QUOTE, BACKSLASH, o1, QUOTE] = .ok w1 := by
  have b1 := octDigitValue_lt e1
  rw [parse_charconst_octal o1 w1 _ e1]
  simp [charconstOctal, charconstClose, cAt, e1]
  omega

/-- Every two-digit hex spelling and every octal spelling of a byte parses to the byte. -/
theorem charconst_numeric_escapes (b : Nat) (hb : b ≤ 255) :
    (∀ h1 h2 v1 v2, hexDigitValue h1 = some v1 → hexDigitValue h2 = some v2 →
        16 * v1 + v2 = b → parse_charconst [QUOTE, BACKSLASH, 'x', h1, h2, QUOTE] = .ok b)
    ∧ (∀ o1 o2 o3 w1 w2 w3, octDigitValue o1 = some w1 → octDigitValue o2 = some w2 →
        octDigitValue o3 = some w3 → 64 * w1 + 8 * w2 + w3 = b →
        parse_charconst [QUOTE, BACKSLASH, o1, o2, o3, QUOTE] = .ok b)
    ∧ (∀ o1 o2 w1 w2, octDigitValue o1 = some w1 → octDigitValue o2 = some w2 →
        8 * w1 + w2 = b → parse_charconst [QUOTE, BACKSLASH, o1, o2, QUOTE] = .ok b)
    ∧ (∀ o1 w1, octDigitValue o1 = some w1 → w1 = b →
        parse_charconst [QUOTE, BACKSLASH, o1, QUOTE] = .ok b) := by
  refine ⟨?_, ?_, ?_, ?_⟩
  · intro h1 h2 v1 v2 e1 e2 hv
    rw [← hv]
    exact parse_charconst_hex2 h1 h2 v1 v2 e1 e2
  · intro o1 o2 o3 w1 w2 w3 e1 e2 e3 hv
    rw [← hv]
    exact parse_charconst_oct3 o1 o2 o3 w1 w2 w3 e1 e2 e3 (by omega)
  · intro o1 o2 w1 w2 e1 e2 hv
    rw [← hv]
    exact parse_charconst_oct2 o1 o2 w1 w2 e1 e2
  · intro o1 w1 e1 hv
    rw [← hv]
    exact parse_charconst_oct1 o1 w1 e1

/-! ## Numerals and the subject sequence -/

theorem decChar_plain {d : Nat} (hd : d < 10) : PlainDigit (decChar d) d := by
  interval_cases d <;> exact ⟨by decide, by decide, by decide, by decide, by decide⟩

theorem hexChar_plain {d : Nat} (hd : d < 16) : PlainDigit (hexChar d) d := by
  interval_cases d <;> exact ⟨by decide, by decide, by decide, by decide, by decide⟩

theorem decChar_ne_zero {d : Nat} (hd : d < 10) (h0 : d ≠ 0) : decChar d ≠ '0' := by
  interval_cases d <;> first | exact absurd rfl h0 | decide

/-- The number a run of digits denotes in `base`, continuing from `acc`. -/
theorem scanDigits_append (base : Nat) (ds rest : List Char)
    (hds : ∀ c ∈ ds, digitValue c < base) (acc n : Nat) :
    scanDigits base (ds ++ rest) acc n
      = scanDigits base rest (ds.foldl (fun a c => a * base + digitValue c) acc)
          (n + ds.length) := by
  induction ds generalizing acc n with
  | nil => simp
  | cons c cs ih =>
    have hc : digitValue c < base := hds c (List.mem_cons_self _ _)
    have hcs : ∀ x ∈ cs, digitValue x < base := fun x hx => hds x (List.mem_cons_of_mem _ hx)
    rw [List.cons_append, scanDigits, if_pos hc, ih hcs, List.foldl_cons, List.length_cons]
    congr 1
    omega

/-- A run of digits that ends the text is read whole. -/
theorem scanDigits_all (base : Nat) (ds : List Char) (hds : ∀ c ∈ ds, digitValue c < base) :
    scanDigits base ds 0 0
      = (ds.foldl (fun a c => a * base + digitValue c) 0, ds.length) := by
  have h := scanDigits_append base ds [] hds 0 0
  simpa [scanDigits] using h

/-- The decimal numeral: its digits, its value, its first digit. -/
theorem decimalAux_spec (fuel : Nat) : ∀ n : Nat, n < fuel →
    (∀ c ∈ decimalAux fuel n, ∃ d, d < 10 ∧ c = decChar d)
    ∧ (decimalAux fuel n).foldl (fun a c => a * 10 + digitValue c) 0 = n
    ∧ (∃ d t, decimalAux fuel n = decChar d :: t ∧ d < 10 ∧ (n ≠ 0 → d ≠ 0)) := by
  induction fuel with
  | zero => intro n h; omega
  | succ fuel ih =>
    intro n hn
    unfold decimalAux
    by_cases h10 : n < 10
    · simp only [h10, if_true]
      refine ⟨?_, ?_, ?_⟩
      · intro c hc
        exact ⟨n, h10, by simpa using hc⟩
      · simp [(decChar_plain h10).value]
      · exact ⟨n, [], rfl, h10, fun h => h⟩
    · simp only [h10, if_false]
      have hlt : n / 10 < fuel := by omega
      obtain ⟨hd, hv, d, t, ht, hd10, hd0⟩ := ih (n / 10) hlt
      refine ⟨?_, ?_, ?_⟩
      · intro c hc
        rcases List.mem_append.mp hc with h | h
        · exact hd c h
        · exact ⟨n % 10, Nat.mod_lt _ (by omega), by simpa using h⟩
      · rw [List.foldl_append, hv]
        simp [(decChar_plain (Nat.mod_lt n (by omega : 10 > 0))).value]
        omega
      · refine ⟨d, t ++ [decChar (n % 10)], by rw [ht]; rfl, hd10, fun _ => hd0 (by omega)⟩

theorem decimal_digits (n : Nat) : ∀ c ∈ decimal n, ∃ d, d < 10 ∧ c = decChar d :=
  (decimalAux_spec (n + 1) n (by omega)).1

theorem decimal_value (n : Nat) :
    (decimal n).foldl (fun a c => a * 10 + digitValue c) 0 = n :=
  (decimalAux_spec (n + 1) n (by omega)).2.1

theorem decimal_head (n : Nat) :
    ∃ d t, decimal n = decChar d :: t ∧ d < 10 ∧ (n ≠ 0 → d ≠ 0) :=
  (decimalAux_spec (n + 1) n (by omega)).2.2

theorem decimal_scan (n : Nat) : scanDigits 10 (decimal n) 0 0 = (n, (decimal n).length) := by
  rw [scanDigits_all 10 (decimal n), decimal_value]
  intro c hc
  obtain ⟨d, hd, rfl⟩ := decimal_digits n c hc
  rw [(decChar_plain hd).value]
  exact hd

theorem decimal_no_minus (n : Nat) : '-' ∉ decimal n := by
  intro h
  obtain ⟨d, hd, e⟩ := decimal_digits n _ h
  exact (decChar_plain hd).not_minus e.symm

theorem scanSubject_plain (c : Char) (t : List Char) (d : Nat) (hp : PlainDigit c d)
    (h0 : c ≠ '0') (hds : ∀ x ∈ c :: t, digitValue x < 10) :
    scanSubject (c :: t)
      = ⟨false, (c :: t).foldl (fun a x => a * 10 + digitValue x) 0, (c :: t).length⟩ := by
  have hs := scanDigits_all 10 (c :: t) hds
  unfold scanSubject
  simp only [List.takeWhile_cons, hp.not_space, Bool.false_eq_true, if_false, List.length_nil,
    List.drop_zero, List.head?_cons, Option.some.injEq, hp.not_minus, hp.not_plus, or_self,
    cAt, List.getD_cons_zero, h0, false_and, decide_False, hs, Nat.zero_add, subjectOf]
  simp

theorem scanSubject_minus (c : Char) (t : List Char)
    (h0 : c ≠ '0') (hds : ∀ x ∈ c :: t, digitValue x < 10) :
    scanSubject ('-' :: c :: t)
      = ⟨true, (c :: t).foldl (fun a x => a * 10 + digitValue x) 0, 1 + (c :: t).length⟩ := by
  have hs := scanDigits_all 10 (c :: t) hds
  unfold scanSubject
  simp only [List.takeWhile_cons, show isspace '-' = false by decide, Bool.false_eq_true,
    if_false, List.length_nil,
    List.drop_zero, List.head?_cons, true_or, if_true, List.drop_succ_cons,
    cAt, List.getD_cons_zero, h0, false_and, decide_False, hs, Nat.zero_add, subjectOf]
  simp

theorem scanSubject_hex (H : List Char) (hne : H ≠ [])
    (hH : ∀ x ∈ H, digitValue x < 16) :
    scanSubject ('0' :: 'x' :: H)
      = ⟨false, H.foldl (fun a x => a * 16 + digitValue x) 0, 2 + H.length⟩ := by
  have hs := scanDigits_all 16 H hH
  obtain ⟨h, t, rfl⟩ := List.exists_cons_of_ne_nil hne
  have hh : digitValue h < 16 := hH h (List.mem_cons_self _ _)
  unfold scanSubject
  simp only [List.takeWhile_cons, show isspace '0' = false by decide, Bool.false_eq_true,
    if_false, List.length_nil, List.drop_zero, List.head?_cons, Option.some.injEq,
    show ('0' = '-') = False by decide, show ('0' = '+') = False by decide, or_self,
    cAt, List.getD_cons_zero, List.getD_cons_succ, hh, true_or, and_self, decide_True, if_true,
    List.drop_succ_cons, hs, Nat.zero_add, subjectOf]
  simp

theorem scanSubject_decimal (n : Nat) :
    scanSubject (decimal n) = ⟨false, n, (decimal n).length⟩ := by
  by_cases hn : n = 0
  · subst hn
    decide
  · obtain ⟨d, t, ht, hd, hd0⟩ := decimal_head n
    have hds : ∀ x ∈ decimal n, digitValue x < 10 := by
      intro c hc
      obtain ⟨d, hd, rfl⟩ := decimal_digits n c hc
      rw [(decChar_plain hd).value]
      exact hd
    have hv := decimal_value n
    rw [ht] at hds hv ⊢
    rw [scanSubject_plain _ t d (decChar_plain hd) (decChar_ne_zero hd (hd0 hn)) hds, hv]

theorem scanSubject_minus_decimal (n : Nat) (hn : n ≠ 0) :
    scanSubject ('-' :: decimal n) = ⟨true, n, 1 + (decimal n).length⟩ := by
  obtain ⟨d, t, ht, hd, hd0⟩ := decimal_head n
  have hds : ∀ x ∈ decimal n, digitValue x < 10 := by
    intro c hc
    obtain ⟨d, hd, rfl⟩ := decimal_digits n c hc
    rw [(decChar_plain hd).value]
    exact hd
  have hv := decimal_value n
  rw [ht] at hds hv ⊢
  rw [scanSubject_minus _ t (decChar_ne_zero hd (hd0 hn)) hds, hv]

theorem hexFixed_digits (w : Nat) : ∀ v : Nat, ∀ c ∈ hexFixed w v, ∃ d, d < 16 ∧ c = hexChar d := by
  induction w with
  | zero => intro v c hc; simp [hexFixed] at hc
  | succ w ih =>
    intro v c hc
    unfold hexFixed at hc
    rcases List.mem_append.mp hc with h | h
    · exact ih _ c h
    · exact ⟨v % 16, Nat.mod_lt _ (by omega), by simpa using h⟩

theorem hexFixed_length (w : Nat) : ∀ v : Nat, (hexFixed w v).length = w := by
  induction w with
  | zero => intro v; rfl
  | succ w ih => intro v; simp [hexFixed, ih]

theorem hexFixed_value (w : Nat) : ∀ v acc : Nat,
    (hexFixed w v).foldl (fun a c => a * 16 + digitValue c) acc = acc * 16 ^ w + v % 16 ^ w := by
  induction w with
  | zero => intro v acc; simp [hexFixed, Nat.mod_one]
  | succ w ih =>
    intro v acc
    unfold hexFixed
    rw [List.foldl_append, ih]
    simp only [List.foldl_cons, List.foldl_nil,
      (hexChar_plain (Nat.mod_lt v (by omega : 16 > 0))).value]
    have h := @Nat.mod_mul 16 (16 ^ w) v
    rw [pow_succ, Nat.mul_comm (16 ^ w) 16, h]
    ring

theorem hexFixed_scan_digits (w v : Nat) : ∀ x ∈ hexFixed w v, digitValue x < 16 := by
  intro c hc
  obtain ⟨d, hd, rfl⟩ := hexFixed_digits w v c hc
  rw [(hexChar_plain hd).value]
  exact hd

theorem hexFixed_no_minus (w v : Nat) : '-' ∉ hexFixed w v := by
  intro h
  obtain ⟨d, hd, e⟩ := hexFixed_digits w v _ h
  exact (hexChar_plain hd).not_minus e.symm

theorem cAt_length (s : List Char) : cAt s s.length = NUL := by
  unfold cAt
  rw [List.getD_eq_default]
  exact Nat.le_refl _

theorem decimal_ne_nil (n : Nat) : decimal n ≠ [] := by
  obtain ⟨d, t, ht, -, -⟩ := decimal_head n
  rw [ht]
  exact List.cons_ne_nil _ _

theorem decimal_not_quote (n : Nat) : cAt (decimal n) 0 ≠ QUOTE := by
  obtain ⟨d, t, ht, hd, -⟩ := decimal_head n
  rw [ht]
  exact (decChar_plain hd).not_quote

theorem decimal_whole (n : Nat) : WholeNumeral (decimal n) n :=
  ⟨decimal_not_quote n, decimal_no_minus n, decimal_ne_nil n, scanSubject_decimal n⟩

theorem hex_whole (H : List Char) (hne : H ≠ []) (hH : ∀ x ∈ H, digitValue x < 16)
    (hm : '-' ∉ H) :
    WholeNumeral ('0' :: 'x' :: H) (H.foldl (fun a x => a * 16 + digitValue x) 0) := by
  refine ⟨show '0' ≠ QUOTE by decide, ?_, List.cons_ne_nil _ _, ?_⟩
  · intro h
    rcases List.mem_cons.mp h with h | h
    · exact absurd h (by decide)
    · rcases List.mem_cons.mp h with h | h
      · exact absurd h (by decide)
      · exact hm h
  · rw [scanSubject_hex H hne hH]
    simp only [List.length_cons, Subject.mk.injEq, true_and]
    omega

theorem strtou_whole {s : List Char} {n : Nat} (h : WholeNumeral s n) (bits : Nat)
    (hn : n ≤ umaxOf bits) : strtou bits s = ⟨n, s.length, false⟩ := by
  have hl : s.length ≠ 0 := fun e => h.ne_nil (List.length_eq_zero.mp e)
  unfold strtou
  simp [h.subject, hl, Nat.not_lt.mpr hn]

theorem strtos_whole {s : List Char} {n : Nat} (h : WholeNumeral s n) (bits : Nat)
    (hn : (n : Int) ≤ smaxOf bits) : strtos bits s = ⟨(n : Int), s.length, false⟩ := by
  have hl : s.length ≠ 0 := fun e => h.ne_nil (List.length_eq_zero.mp e)
  unfold strtos
  simp [h.subject, hl, Int.not_lt.mpr hn]

theorem strtos_minus_decimal (bits n : Nat) (hn : n ≠ 0) (hmin : sminOf bits ≤ -(n : Int)) :
    strtos bits ('-' :: decimal n) = ⟨-(n : Int), ('-' :: decimal n).length, false⟩ := by
  unfold strtos
  simp [scanSubject_minus_decimal n hn, Int.not_lt.mpr hmin, Nat.add_comm]

theorem strchr_iff (s : List Char) (c : Char) : strchr s c = true ↔ c ∈ s := by
  simp [strchr]

/-! ## Parsing a whole numeral -/

theorem umaxOf_ge (lbits : Nat) (h : 32 ≤ lbits) : 4294967295 ≤ umaxOf lbits := by
  have h2 : 2 ^ 32 ≤ 2 ^ lbits := Nat.pow_le_pow_right (by omega) h
  unfold umaxOf
  omega

theorem smaxOf_ge (lbits : Nat) (h : 32 ≤ lbits) : (2147483647 : Int) ≤ smaxOf lbits := by
  have h2 : 2 ^ 31 ≤ 2 ^ (lbits - 1) := Nat.pow_le_pow_right (by omega) (by omega)
  have h3 : ((2 ^ (lbits - 1) : Nat) : Int) = (2 : Int) ^ (lbits - 1) := by push_cast; rfl
  unfold smaxOf
  omega

theorem sminOf_le (lbits : Nat) (h : 32 ≤ lbits) : sminOf lbits ≤ (-2147483648 : Int) := by
  have h2 : 2 ^ 31 ≤ 2 ^ (lbits - 1) := Nat.pow_le_pow_right (by omega) (by omega)
  have h3 : ((2 ^ (lbits - 1) : Nat) : Int) = (2 : Int) ^ (lbits - 1) := by push_cast; rfl
  unfold sminOf
  omega

theorem toSigned32_id (v : Int) (h1 : -2147483648 ≤ v) (h2 : v ≤ 2147483647) :
    toSigned 32 v = v := by
  unfold toSigned
  norm_num
  omega

theorem toSigned64_id (v : Int) (h1 : -9223372036854775808 ≤ v)
    (h2 : v ≤ 9223372036854775807) : toSigned 64 (toUnsigned 64 v) = v := by
  unfold toSigned toUnsigned
  norm_num
  omega

theorem uint_from_unparsed_whole {s : List Char} {n : Nat} (h : WholeNumeral s n)
    (lbits max : Nat) (hl : 32 ≤ lbits) (hmax : n ≤ max) (h32 : n ≤ 4294967295) :
    uint_from_unparsed lbits s max = .ok n := by
  have hu : n ≤ umaxOf lbits := le_trans h32 (umaxOf_ge lbits hl)
  have hlen : s.length ≠ 0 := fun e => h.ne_nil (List.length_eq_zero.mp e)
  have hm : strchr s '-' = false := by simp [strchr, h.no_minus]
  unfold uint_from_unparsed
  simp only [h.not_quote, if_false, hm, Bool.false_eq_true, false_and, strtoul,
    strtou_whole h lbits hu, hlen, cAt_length, ne_eq, not_true_eq_false, or_self,
    Nat.not_lt.mpr hmax]
  congr 1
  omega

theorem uint64_from_unparsed_whole {s : List Char} {n : Nat} (h : WholeNumeral s n)
    (max : Nat) (hmax : n ≤ max) (h64 : n ≤ 18446744073709551615) :
    _uint64_from_unparsed s max = .ok n := by
  have hu : n ≤ umaxOf 64 := h64
  have hlen : s.length ≠ 0 := fun e => h.ne_nil (List.length_eq_zero.mp e)
  have hm : strchr s '-' = false := by simp [strchr, h.no_minus]
  unfold _uint64_from_unparsed
  simp only [hm, Bool.false_eq_true, false_and, if_false, g_ascii_strtoull,
    strtou_whole h 64 hu, hlen, cAt_length, ne_eq, not_true_eq_false, or_self,
    Nat.not_lt.mpr hmax]

theorem sint_from_unparsed_whole {s : List Char} {n : Nat} (h : WholeNumeral s n)
    (lbits : Nat) (max min : Int) (hl : 32 ≤ lbits) (hmax : (n : Int) ≤ max)
    (hmin : min ≤ (n : Int)) (h32 : n ≤ 2147483647) :
    sint_from_unparsed lbits s max min = .ok (n : Int) := by
  have hu : n ≤ umaxOf lbits := le_trans (by omega) (umaxOf_ge lbits hl)
  have hs : (n : Int) ≤ smaxOf lbits := le_trans (by omega) (smaxOf_ge lbits hl)
  have hlen : s.length ≠ 0 := fun e => h.ne_nil (List.length_eq_zero.mp e)
  have hg : ¬ ((n : Int) > G_MAXINT32) := by
    unfold G_MAXINT32
    omega
  unfold sint_from_unparsed
  simp only [h.not_quote, if_false, strtoul, strtou_whole h lbits hu, hg, and_false, strtol,
    strtos_whole h lbits hs, hlen, cAt_length, ne_eq, not_true_eq_false, or_self,
    Bool.false_eq_true, Int.not_lt.mpr hmax, Int.not_lt.mpr hmin, gt_iff_lt]
  rw [toSigned32_id _ (by omega) (by omega)]

theorem sint_from_unparsed_minus (n lbits : Nat) (max min : Int) (hl : 32 ≤ lbits)
    (hn : n ≠ 0) (hmax : -(n : Int) ≤ max) (hmin : min ≤ -(n : Int)) (h32 : n ≤ 2147483648) :
    sint_from_unparsed lbits ('-' :: decimal n) max min = .ok (-(n : Int)) := by
  have hs : sminOf lbits ≤ -(n : Int) := le_trans (sminOf_le lbits hl) (by omega)
  have hm : strchr ('-' :: decimal n) '-' = true := by simp [strchr]
  have hq : cAt ('-' :: decimal n) 0 ≠ QUOTE := show '-' ≠ QUOTE by decide
  have he : cAt ('-' :: decimal n) ((decimal n).length + 1) = NUL := cAt_length _
  unfold sint_from_unparsed
  simp only [hq, if_false, hm,
    not_true_eq_false, false_and, strtol, strtos_minus_decimal lbits n hn hs, he,
    List.length_cons, Nat.succ_ne_zero, ne_eq, not_true_eq_false, or_self, Bool.false_eq_true,
    Int.not_lt.mpr hmax, Int.not_lt.mpr hmin, gt_iff_lt]
  rw [toSigned32_id _ (by omega) (by omega)]

theorem sint64_from_unparsed_whole {s : List Char} {n : Nat} (h : WholeNumeral s n)
    (max min : Int) (hmax : (n : Int) ≤ max)
    (hmin : min ≤ (n : Int)) (h64 : n ≤ 9223372036854775807) :
    _sint64_from_unparsed s max min = .ok (n : Int) := by
  have hu : n ≤ umaxOf 64 := le_trans h64 (by decide)
  have hs : (n : Int) ≤ smaxOf 64 := by
    have : smaxOf 64 = 9223372036854775807 := by decide
    omega
  have hlen : s.length ≠ 0 := fun e => h.ne_nil (List.length_eq_zero.mp e)
  have hg : ¬ ((n : Int) > G_MAXINT64) := by
    unfold G_MAXINT64
    omega
  unfold _sint64_from_unparsed
  simp only [g_ascii_strtoull, strtou_whole h 64 hu, hg, and_false, if_false, g_ascii_strtoll,
    strtos_whole h 64 hs, hlen, cAt_length, ne_eq, not_true_eq_false, or_self,
    Bool.false_eq_true, Int.not_lt.mpr hmax, Int.not_lt.mpr hmin, gt_iff_lt]
  rw [toSigned64_id _ (by omega) (by omega)]

theorem sint64_from_unparsed_minus (n : Nat) (max min : Int)
    (hn : n ≠ 0) (hmax : -(n : Int) ≤ max) (hmin : min ≤ -(n : Int))
    (h64 : n ≤ 9223372036854775808) :
    _sint64_from_unparsed ('-' :: decimal n) max min = .ok (-(n : Int)) := by
  have hs : sminOf 64 ≤ -(n : Int) := by
    have : sminOf 64 = -9223372036854775808 := by decide
    omega
  have hm : strchr ('-' :: decimal n) '-' = true := by simp [strchr]
  have he : cAt ('-' :: decimal n) ((decimal n).length + 1) = NUL := cAt_length _
  unfold _sint64_from_unparsed
  simp only [hm, not_true_eq_false, false_and, if_false, g_ascii_strtoll,
    strtos_minus_decimal 64 n hn hs, he,
    List.length_cons, Nat.succ_ne_zero, ne_eq, not_true_eq_false, or_self, Bool.false_eq_true,
    Int.not_lt.mpr hmax, Int.not_lt.mpr hmin, gt_iff_lt]
  rw [toSigned64_id _ (by omega) (by omega)]

/-! ## Formatted texts are whole numerals -/

theorem mask_shift (v : Nat) : (v &&& 0x00ff0000) >>> 16 = (v / 65536) % 256 := by
  have e1 : (0x00ff0000 : Nat) = (2 ^ 8 - 1) <<< 16 := by decide
  have e2 : v / 65536 = v >>> 16 := by rw [Nat.shiftRight_eq_div_pow]
  have e3 : (256 : Nat) = 2 ^ 8 := by norm_num
  rw [e1, e2, e3]
  apply Nat.eq_of_testBit_eq
  intro i
  simp only [Nat.testBit_shiftRight, Nat.testBit_and, Nat.testBit_shiftLeft,
    Nat.testBit_two_pow_sub_one, Nat.testBit_mod_two_pow]
  have h1 : 16 + i ≥ 16 := by omega
  have h2 : 16 + i - 16 = i := by omega
  simp only [h1, h2, decide_True, Bool.true_and]
  exact Bool.and_comm _ _

theorem mask_low (v : Nat) : v &&& 0x0000ffff = v % 65536 := by
  have h := Nat.and_pow_two_sub_one_eq_mod v 16
  simpa using h

/-- The fixed-width hex rendering after `0x` is a whole numeral of the low bits. -/
theorem hexFixed_whole (w v : Nat) (hw : 0 < w) :
    WholeNumeral ('0' :: 'x' :: hexFixed w v) (v % 16 ^ w) := by
  have hne : hexFixed w v ≠ [] := by
    intro e
    have := hexFixed_length w v
    rw [e] at this
    simp at this
    omega
  have h := hex_whole (hexFixed w v) hne (hexFixed_scan_digits w v) (hexFixed_no_minus w v)
  rw [hexFixed_value] at h
  simpa using h

/-- The six hex digits of the 24-bit kind after `0x` are a whole numeral of the low 24 bits. -/
theorem hex24_whole (v : Nat) :
    WholeNumeral
      ('0' :: 'x' :: (guint8_to_hex ((v &&& 0x00ff0000) >>> 16) ++ word_to_hex (v &&& 0x0000ffff)))
      (v % 16777216) := by
  have hne : guint8_to_hex ((v &&& 0x00ff0000) >>> 16) ++ word_to_hex (v &&& 0x0000ffff) ≠ [] := by
    intro e
    have := congrArg List.length e
    simp [guint8_to_hex, word_to_hex, hexFixed_length] at this
  have hd : ∀ x ∈ guint8_to_hex ((v &&& 0x00ff0000) >>> 16) ++ word_to_hex (v &&& 0x0000ffff),
      digitValue x < 16 := by
    intro x hx
    rcases List.mem_append.mp hx with h | h
    · exact hexFixed_scan_digits _ _ x h
    · exact hexFixed_scan_digits _ _ x h
  have hm : '-' ∉ guint8_to_hex ((v &&& 0x00ff0000) >>> 16) ++ word_to_hex (v &&& 0x0000ffff) := by
    intro hx
    rcases List.mem_append.mp hx with h | h
    · exact hexFixed_no_minus _ _ h
    · exact hexFixed_no_minus _ _ h
  have h := hex_whole _ hne hd hm
  have hv : (guint8_to_hex ((v &&& 0x00ff0000) >>> 16) ++ word_to_hex (v &&& 0x0000ffff)).foldl
      (fun a x => a * 16 + digitValue x) 0 = v % 16777216 := by
    rw [List.foldl_append]
    unfold guint8_to_hex word_to_hex
    rw [hexFixed_value, hexFixed_value, mask_shift, mask_low]
    norm_num
    omega
  rw [hv] at h
  exact h

theorem uinteger_to_repr_whole (ft : ftenum) (v field_display : Nat)
    (hv : v ≤ 4294967295)
    (h8 : ft = .FT_UINT8 → v ≤ 255) (h16 : ft = .FT_UINT16 → v ≤ 65535)
    (h24 : ft = .FT_UINT24 → v ≤ 16777215) :
    WholeNumeral (uinteger_to_repr ft v field_display) v := by
  unfold uinteger_to_repr
  split_ifs with hx
  · have w8 : v ≤ 255 → WholeNumeral ('0' :: 'x' :: guint8_to_hex v) v := by
      intro hb
      have h := hexFixed_whole 2 v (by omega)
      rw [Nat.mod_eq_of_lt (by omega)] at h
      exact h
    have w16 : v ≤ 65535 → WholeNumeral ('0' :: 'x' :: word_to_hex v) v := by
      intro hb
      have h := hexFixed_whole 4 v (by omega)
      rw [Nat.mod_eq_of_lt (by omega)] at h
      exact h
    have w24 : v ≤ 16777215 → WholeNumeral ('0' :: 'x' ::
        (guint8_to_hex ((v &&& 0x00ff0000) >>> 16) ++ word_to_hex (v &&& 0x0000ffff))) v := by
      intro hb
      have h := hex24_whole v
      rw [Nat.mod_eq_of_lt (by omega)] at h
      exact h
    have w32 : WholeNumeral ('0' :: 'x' :: dword_to_hex v) v := by
      have h := hexFixed_whole 8 v (by omega)
      rw [Nat.mod_eq_of_lt (by omega)] at h
      exact h
    cases ft <;> first
      | exact w8 (h8 rfl)
      | exact w16 (h16 rfl)
      | exact w24 (h24 rfl)
      | exact w32
  · unfold guint32_to_str_buf
    rw [Nat.mod_eq_of_lt (by omega)]
    exact decimal_whole v

theorem uinteger64_to_repr_whole (v field_display : Nat) (hv : v ≤ 18446744073709551615) :
    WholeNumeral (uinteger64_to_repr v field_display) v := by
  unfold uinteger64_to_repr
  split_ifs with hx
  · have h := hexFixed_whole 16 v (by omega)
    rw [Nat.mod_eq_of_lt (by omega)] at h
    exact h
  · unfold guint64_to_str_buf
    rw [Nat.mod_eq_of_lt (by omega)]
    exact decimal_whole v

theorem toUnsigned32_natCast (n : Nat) (h : n ≤ 4294967295) : toUnsigned 32 (n : Int) = n := by
  unfold toUnsigned
  norm_num
  omega

theorem toUnsigned64_natCast (n : Nat) (h : n ≤ 18446744073709551615) :
    toUnsigned 64 (n : Int) = n := by
  unfold toUnsigned
  norm_num
  omega

/-- The text `integer_to_repr` writes for a 32-bit signed value is read back by
`sint_from_unparsed` under every bound pair that admits the value. -/
theorem sint_roundtrip (lbits : Nat) (hl : 32 ≤ lbits) (v max min : Int)
    (hmin : min ≤ v) (hmax : v ≤ max) (h1 : -2147483648 ≤ v) (h2 : v ≤ 2147483647) :
    sint_from_unparsed lbits (integer_to_repr v) max min = .ok v := by
  unfold integer_to_repr
  by_cases hneg : v < 0
  · obtain ⟨n, rfl⟩ := Int.exists_eq_neg_ofNat (le_of_lt hneg)
    have hn : n ≠ 0 := by omega
    rw [if_pos hneg, neg_neg, toUnsigned32_natCast n (by omega)]
    unfold guint32_to_str_buf
    rw [Nat.mod_eq_of_lt (by omega)]
    exact sint_from_unparsed_minus n lbits max min hl hn hmax hmin (by omega)
  · obtain ⟨n, rfl⟩ := Int.eq_ofNat_of_zero_le (not_lt.mp hneg)
    rw [if_neg hneg, toUnsigned32_natCast n (by omega)]
    unfold guint32_to_str_buf
    rw [Nat.mod_eq_of_lt (by omega)]
    exact sint_from_unparsed_whole (decimal_whole n) lbits max min hl hmax hmin (by omega)

/-- The text `integer64_to_repr` writes for a 64-bit signed value is read back by
`_sint64_from_unparsed` under every bound pair that admits the value. -/
theorem sint64_roundtrip (v max min : Int)
    (hmin : min ≤ v) (hmax : v ≤ max) (h1 : -9223372036854775808 ≤ v)
    (h2 : v ≤ 9223372036854775807) :
    _sint64_from_unparsed (integer64_to_repr v) max min = .ok v := by
  unfold integer64_to_repr
  by_cases hneg : v < 0
  · obtain ⟨n, rfl⟩ := Int.exists_eq_neg_ofNat (le_of_lt hneg)
    have hn : n ≠ 0 := by omega
    rw [if_pos hneg, neg_neg, toUnsigned64_natCast n (by omega)]
    unfold guint64_to_str_buf
    rw [Nat.mod_eq_of_lt (by omega)]
    exact sint64_from_unparsed_minus n max min hn hmax hmin (by omega)
  · obtain ⟨n, rfl⟩ := Int.eq_ofNat_of_zero_le (not_lt.mp hneg)
    rw [if_neg hneg, toUnsigned64_natCast n (by omega)]
    unfold guint64_to_str_buf
    rw [Nat.mod_eq_of_lt (by omega)]
    exact sint64_from_unparsed_whole (decimal_whole n) max min hmax hmin (by omega)

/-! ## Facts about the subject sequence of an arbitrary text -/

theorem subjectOf_cases (neg : Bool) (start : Nat) (d : Nat × Nat) :
    subjectOf neg start d = ⟨false, 0, 0⟩ ∨ (subjectOf neg start d).endp ≠ 0 := by
  unfold subjectOf
  split_ifs with h
  · exact Or.inl rfl
  · right
    simp only
    omega

theorem subjectOf_neg (neg : Bool) (start : Nat) (d : Nat × Nat)
    (h : (subjectOf neg start d).neg = true) : neg = true := by
  unfold subjectOf at h
  by_cases h0 : d.2 = 0
  · rw [if_pos h0] at h
    cases h
  · rw [if_neg h0] at h
    exact h

theorem scanSubject_cases (s : List Char) :
    scanSubject s = ⟨false, 0, 0⟩ ∨ (scanSubject s).endp ≠ 0 := by
  unfold scanSubject
  exact subjectOf_cases _ _ _

theorem scanSubject_neg_mem (s : List Char) (h : (scanSubject s).neg = true) : '-' ∈ s := by
  unfold scanSubject at h
  have h2 := subjectOf_neg _ _ _ h
  simp only [decide_eq_true_eq] at h2
  exact List.mem_of_mem_drop (List.mem_of_mem_head? h2)

theorem scanSubject_quote (s : List Char) (h : cAt s 0 = QUOTE) :
    scanSubject s = ⟨false, 0, 0⟩ := by
  cases s with
  | nil => exact absurd h (by decide)
  | cons c t =>
    have hc : c = QUOTE := h
    subst hc
    unfold scanSubject
    simp [List.takeWhile_cons, show isspace QUOTE = false by decide, cAt,
      show QUOTE ≠ '-' by decide, show QUOTE ≠ '+' by decide, show QUOTE ≠ '0' by decide,
      scanDigits, show ¬ digitValue QUOTE < 10 by decide, subjectOf]

theorem scanSubject_mag_pos (s : List Char) (h : 0 < (scanSubject s).mag) :
    (scanSubject s).endp ≠ 0 ∧ cAt s 0 ≠ QUOTE := by
  constructor
  · rcases scanSubject_cases s with e | e
    · rw [e] at h
      exact absurd h (by decide)
    · exact e
  · intro hq
    rw [scanSubject_quote s hq] at h
    exact absurd h (by decide)

theorem smaxOf_nonneg (bits : Nat) : 0 ≤ smaxOf bits := by
  have h : 0 < 2 ^ (bits - 1) := Nat.pow_pos (by omega)
  have h3 : ((2 ^ (bits - 1) : Nat) : Int) = (2 : Int) ^ (bits - 1) := by push_cast; rfl
  unfold smaxOf
  omega

theorem sminOf_neg (bits : Nat) : sminOf bits < 0 := by
  have h : 0 < 2 ^ (bits - 1) := Nat.pow_pos (by omega)
  have h3 : ((2 ^ (bits - 1) : Nat) : Int) = (2 : Int) ^ (bits - 1) := by push_cast; rfl
  unfold sminOf
  omega

/-- A signed conversion is negative exactly when the subject has a minus sign and a
magnitude other than zero. -/
theorem strtos_neg_iff (bits : Nat) (s : List Char) :
    (strtos bits s).value < 0 ↔ (scanSubject s).neg = true ∧ 0 < (scanSubject s).mag := by
  have hmax := smaxOf_nonneg bits
  have hmin := sminOf_neg bits
  unfold strtos
  simp only
  rcases scanSubject_cases s with e | e
  · rw [e]
    simp
  · cases hn : (scanSubject s).neg
    · simp only [e, if_false, Bool.false_eq_true, false_and, iff_false, not_lt]
      split_ifs <;> simp only <;> omega
    · simp only [e, if_false, if_true, true_and]
      split_ifs <;> simp only <;> omega

/-! ## Range of a successful parse -/

theorem map_eq_ok {α β : Type} {f : α → β} {r : Except String α} {x : β}
    (h : r.map f = .ok x) : ∃ v, r = .ok v ∧ x = f v := by
  cases r with
  | error e => cases h
  | ok v =>
    refine ⟨v, rfl, ?_⟩
    simp only [Except.map, Except.ok.injEq] at h
    exact h.symm

theorem uint_from_unparsed_le {lbits max v : Nat} {s : List Char}
    (h : uint_from_unparsed lbits s max = .ok v) : v ≤ max := by
  unfold uint_from_unparsed at h
  simp only at h
  split at h
  · cases h
  · rename_i value hp
    by_cases hb : value > max
    · rw [if_pos hb] at h
      cases h
    · rw [if_neg hb] at h
      simp only [Except.ok.injEq] at h
      have := Nat.mod_le value (2 ^ 32)
      omega

theorem uint64_from_unparsed_le {max v : Nat} {s : List Char}
    (h : _uint64_from_unparsed s max = .ok v) : v ≤ max := by
  unfold _uint64_from_unparsed at h
  simp only at h
  split_ifs at h with h1 h2 h3 h4
  simp only [Except.ok.injEq] at h
  omega

theorem sint_from_unparsed_range {lbits : Nat} {max min v : Int} {s : List Char}
    (hmax : max ≤ 2147483647) (hmin : -2147483648 ≤ min)
    (h : sint_from_unparsed lbits s max min = .ok v) : min ≤ v ∧ v ≤ max := by
  unfold sint_from_unparsed at h
  simp only at h
  split at h
  · cases h
  · rename_i value hp
    by_cases hb : value > max
    · rw [if_pos hb] at h
      cases h
    · rw [if_neg hb] at h
      by_cases hs : value < min
      · rw [if_pos hs] at h
        cases h
      · rw [if_neg hs] at h
        simp only [Except.ok.injEq] at h
        rw [toSigned32_id value (by omega) (by omega)] at h
        omega

theorem sint64_from_unparsed_range {max min v : Int} {s : List Char}
    (hmax : max ≤ 9223372036854775807) (hmin : -9223372036854775808 ≤ min)
    (h : _sint64_from_unparsed s max min = .ok v) : min ≤ v ∧ v ≤ max := by
  unfold _sint64_from_unparsed at h
  simp only at h
  split_ifs at h with h1 h2 h3 h4 h5
  simp only [Except.ok.injEq] at h
  rw [toSigned64_id _ (by omega) (by omega)] at h
  omega

/-! ## Rejected literals -/

/-- A whole numeral above the bound is reported as too big, with the bound in the message. -/
theorem uint_too_big_core (lbits : Nat) (s : List Char) (n max : Nat)
    (hsub : scanSubject s = ⟨false, n, s.length⟩) (hrep : n ≤ umaxOf lbits) (hbig : max < n) :
    uint_from_unparsed lbits s max = .error (msgTooBig s (decimal max)) := by
  have hpos : 0 < (scanSubject s).mag := by rw [hsub]; exact Nat.lt_of_le_of_lt (Nat.zero_le _) hbig
  obtain ⟨hend, hq⟩ := scanSubject_mag_pos s hpos
  have hlen : s.length ≠ 0 := by rw [hsub] at hend; exact hend
  have hnn : ¬ ((strtol lbits s).value < 0) := by
    rw [strtol, strtos_neg_iff, hsub]
    simp
  have hu : strtoul lbits s = ⟨n, s.length, false⟩ := by
    unfold strtoul strtou
    simp [hsub, hlen, Nat.not_lt.mpr hrep]
  unfold uint_from_unparsed
  simp only [hq, if_false, hnn, and_false, hu, hlen, cAt_length, ne_eq, not_true_eq_false,
    or_self, Bool.false_eq_true, gt_iff_lt, hbig, if_true]

/-- The kinds of width 8, 16, 24 and 32 parse through `uint_from_unparsed` with the bound
`2 ^ W - 1`. -/
theorem uint_kind_bound (ft : ftenum)
    (hft : ft ∈ [ftenum.FT_UINT8, .FT_UINT16, .FT_UINT24, .FT_UINT32]) :
    ∃ max, 2 ^ widthBits ft - 1 = max
      ∧ ∀ lbits s, val_from_unparsed lbits ft s
          = some ((uint_from_unparsed lbits s max).map .uinteger) := by
  simp only [List.mem_cons, List.mem_singleton, List.not_mem_nil, or_false] at hft
  rcases hft with rfl | rfl | rfl | rfl
  · exact ⟨255, by decide, fun _ _ => rfl⟩
  · exact ⟨65535, by decide, fun _ _ => rfl⟩
  · exact ⟨16777215, by decide, fun _ _ => rfl⟩
  · exact ⟨4294967295, by decide, fun _ _ => rfl⟩

/-! ## Type registry: bindings are kept -/

/-- A call of `ftype_register` keeps every binding the table already has. -/
theorem ftype_register_keeps (type_list : type_list_t) (ftype : ftenum) (ft : ftype_t)
    (tag : ftenum) (d : ftype_t) (h : type_list tag = some d) :
    (ftype_register type_list ftype ft).table tag = some d := by
  unfold ftype_register
  by_cases h1 : ftype ≠ ft.ftype
  · rw [if_pos h1]
    exact h
  · rw [if_neg h1]
    by_cases h2 : type_list ftype ≠ none
    · rw [if_pos h2]
      exact h
    · rw [if_neg h2]
      have hne : tag ≠ ftype := by
        rintro rfl
        exact h2 (by rw [h]; exact Option.some_ne_none d)
      simp only [register_result.table, if_neg hne]
      exact h

/-- A sequence of calls of `ftype_register` keeps every binding the table already has. -/
theorem ftype_register_all_keeps (regs : List (ftenum × ftype_t)) :
    ∀ (type_list : type_list_t) (tag : ftenum) (d : ftype_t), type_list tag = some d →
      (ftype_register_all type_list regs).table tag = some d := by
  induction regs with
  | nil => intro type_list tag d h; exact h
  | cons r rest ih =>
    intro type_list tag d h
    obtain ⟨ftype, ft⟩ := r
    have hk := ftype_register_keeps type_list ftype ft tag d h
    unfold ftype_register_all
    cases hr : ftype_register type_list ftype ft with
    | aborted t =>
      rw [hr] at hk
      exact hk
    | registered t =>
      rw [hr] at hk
      exact ih t tag d hk

/-! ## Slice engine: one node and a list of nodes -/

theorem slice_append_eq (fv : slice_source) (slice_data : slice_data_t)
    (start_offset length : Int) :
    slice_append fv slice_data start_offset length
      = match slice_span_checked start_offset length with
        | .aborts => .aborts
        | .returns none => .returns { slice_data with slice_failure := true }
        | .returns (some span) =>
          .returns { slice_data with bytes := slice_data.bytes ++ source_bytes fv span } := by
  unfold slice_append slice_span_checked
  by_cases h : start_offset ≥ 0 ∧ length > 0
  · simp only [if_pos h]
    rfl
  · simp only [if_neg h]

/-- On a slice without recorded failure `slice_func` appends the bytes of the span that
`slice_span` resolves, records the failure it reports, or aborts with it. -/
theorem slice_func_eq_span (fv : slice_source) (drnode : drange_node)
    (slice_data : slice_data_t) (h : slice_data.slice_failure = false) :
    slice_func fv drnode slice_data
      = match slice_span fv drnode with
        | .aborts => .aborts
        | .returns none => .returns { slice_data with slice_failure := true }
        | .returns (some span) =>
          .returns { slice_data with bytes := slice_data.bytes ++ source_bytes fv span } := by
  obtain ⟨bytes, failed⟩ := slice_data
  simp only at h
  subst h
  unfold slice_func slice_span
  simp only [Bool.false_eq_true, if_false, slice_append_eq]
  cases drnode.ending <;> simp only <;> split_ifs <;> rfl

/-- When every node resolves to a span, the loop appends the bytes of the spans in node
order and records no failure. -/
theorem slice_foreach_spans (fv : slice_source) (d_range : List drange_node) :
    ∀ (spans : List (Int × Int)) (bytes : List Nat),
      d_range.map (slice_span fv) = spans.map (fun span => Outcome.returns (some span)) →
      slice_foreach fv d_range { bytes := bytes, slice_failure := false }
        = .returns { bytes := bytes ++ (spans.map (source_bytes fv)).flatten,
                     slice_failure := false } := by
  induction d_range with
  | nil =>
    intro spans bytes h
    cases spans with
    | nil => simp [slice_foreach]
    | cons p ps => simp at h
  | cons drnode rest ih =>
    intro spans bytes h
    cases spans with
    | nil => simp at h
    | cons p ps =>
      simp only [List.map_cons, List.cons.injEq] at h
      obtain ⟨hp, hrest⟩ := h
      unfold slice_foreach
      rw [slice_func_eq_span fv drnode _ rfl, hp]
      simp only
      rw [ih ps _ hrest]
      simp [List.append_assoc]

/-- A source of 2147483649 bytes: the start of the node {start: -1, ToEnd} resolves to
2147483648, which a C `int` holds as a negative number. -/
theorem slice_span_beyond_int (fv : slice_source) (h : fv.data.length = 2147483649) :
    slice_span fv ⟨-1, 0, 0, .DRANGE_NODE_END_T_TO_THE_END⟩ = .returns none := by
  simp only [slice_span, fvalue_length, h]
  norm_num [toSigned]

/-! ## Character constants as literals -/

/-- A printable character other than the backslash between two quotes is a character
constant with the value of the character. -/
theorem parse_charconst_plain (c : Char) (hp : g_ascii_isprint c.toNat = true)
    (hb : c ≠ BACKSLASH) : parse_charconst [QUOTE, c, QUOTE] = .ok c.toNat := by
  simp [parse_charconst, charconstClose, cAt, hb, hp]

theorem isprint_le {v : Nat} (hp : g_ascii_isprint v = true) : v ≤ 126 := by
  simp only [g_ascii_isprint, decide_eq_true_eq] at hp
  exact hp.2

theorem uint_from_unparsed_plain (lbits max : Nat) (c : Char)
    (hp : g_ascii_isprint c.toNat = true) (hb : c ≠ BACKSLASH) (hmax : 255 ≤ max) :
    uint_from_unparsed lbits [QUOTE, c, QUOTE] max = .ok c.toNat := by
  have hle := isprint_le hp
  have hq : cAt [QUOTE, c, QUOTE] 0 = QUOTE := rfl
  unfold uint_from_unparsed
  simp only [hq, if_true, parse_charconst_plain c hp hb]
  rw [if_neg (by omega)]
  congr 1
  omega

theorem sint_from_unparsed_plain (lbits : Nat) (max min : Int) (c : Char)
    (hp : g_ascii_isprint c.toNat = true) (hb : c ≠ BACKSLASH) (hmax : 127 ≤ max)
    (hmin : min ≤ 0) :
    sint_from_unparsed lbits [QUOTE, c, QUOTE] max min = .ok (c.toNat : Int) := by
  have hle := isprint_le hp
  have hq : cAt [QUOTE, c, QUOTE] 0 = QUOTE := rfl
  have h8 : toSigned 8 (c.toNat : Int) = (c.toNat : Int) := by
    unfold toSigned
    norm_num
    omega
  unfold sint_from_unparsed
  simp only [hq, if_true, parse_charconst_plain c hp hb, h8]
  rw [if_neg (by omega), if_neg (by omega), toSigned32_id _ (by omega) (by omega)]

/-- The routines of the 64-bit accumulator have no character-constant branch: a text that
begins with a quote has no numeral at its start. -/
theorem uint64_from_unparsed_quote (s : List Char) (max : Nat) (hq : cAt s 0 = QUOTE) :
    _uint64_from_unparsed s max = .error (msgNotValidNumber s) := by
  have hsub := scanSubject_quote s hq
  have h1 : g_ascii_strtoll s = ⟨0, 0, false⟩ := by
    simp [g_ascii_strtoll, strtos, hsub]
  have h2 : g_ascii_strtoull s = ⟨0, 0, false⟩ := by
    simp [g_ascii_strtoull, strtou, hsub]
  unfold _uint64_from_unparsed
  simp [h1, h2]

theorem sint64_from_unparsed_quote (s : List Char) (max min : Int) (hq : cAt s 0 = QUOTE) :
    _sint64_from_unparsed s max min = .error (msgNotValidNumber s) := by
  have hsub := scanSubject_quote s hq
  have h1 : g_ascii_strtoll s = ⟨0, 0, false⟩ := by
    simp [g_ascii_strtoll, strtos, hsub]
  have h2 : g_ascii_strtoull s = ⟨0, 0, false⟩ := by
    simp [g_ascii_strtoull, strtou, hsub]
  unfold _sint64_from_unparsed
  simp [h1, h2, G_MAXINT64]

/-! ## Relative time: the nanoseconds -/

theorem isdigit_value {c : Char} (h : g_ascii_isdigit c = true) :
    (c.toNat : Int) - ('0'.toNat : Int) = (digitValue c : Int) ∧ digitValue c ≤ 9 := by
  simp only [g_ascii_isdigit, Char.reduceToNat, decide_eq_true_eq] at h
  unfold digitValue
  simp only [Char.reduceToNat]
  rw [if_pos h]
  omega

theorem times_ten_eq (i : Nat) : ∀ d : Int, 0 ≤ d → d * 10 ^ i ≤ 2147483647 →
    times_ten i d = d * 10 ^ i := by
  induction i with
  | zero => intro d _ _; simp [times_ten]
  | succ i ih =>
    intro d h0 hle
    have hp : (1 : Int) ≤ 10 ^ i := one_le_pow₀ (by norm_num)
    have e : d * 10 ^ (i + 1) = d * 10 * 10 ^ i := by ring
    have hd : d * 10 ≤ d * 10 * 10 ^ i := le_mul_of_one_le_right (by omega) hp
    unfold times_ten
    rw [toSigned32_id (d * 10) (by omega) (by omega), ih (d * 10) (by omega) (by omega), e]

/-- The number that a run of decimal digits, last digit first, denotes. -/
theorem get_nsecs_loop_digits (r : List Char) : ∀ (k : Nat) (val : Int),
    (∀ c ∈ r, g_ascii_isdigit c = true) → k + r.length ≤ 9 → 0 ≤ val → val < 10 ^ k →
    get_nsecs_loop r (k : Int) val
      = some (val + ((r.foldr (fun c acc => digitValue c + 10 * acc) 0 : Nat) : Int) * 10 ^ k) := by
  induction r with
  | nil => intro k val _ _ _ _; simp [get_nsecs_loop]
  | cons c rest ih =>
    intro k val hd hk h0 hv
    have hc := isdigit_value (hd c (List.mem_cons_self _ _))
    have hrest : ∀ x ∈ rest, g_ascii_isdigit x = true :=
      fun x hx => hd x (List.mem_cons_of_mem _ hx)
    have hk8 : k ≤ 8 := by simp only [List.length_cons] at hk; omega
    have hP0 : (0 : Int) < 10 ^ k := pow_pos (by norm_num) k
    have hP8 : (10 : Int) ^ k ≤ 10 ^ 8 := pow_le_pow_right₀ (by norm_num) hk8
    have hdk : (digitValue c : Int) * 10 ^ k ≤ 9 * 10 ^ k :=
      mul_le_mul_of_nonneg_right (by omega) (le_of_lt hP0)
    have hdk0 : 0 ≤ (digitValue c : Int) * 10 ^ k :=
      mul_nonneg (by omega) (le_of_lt hP0)
    have hsucc : (10 : Int) ^ (k + 1) = 10 * 10 ^ k := by ring
    have hnew : val + (digitValue c : Int) * 10 ^ k < 10 ^ (k + 1) := by
      rw [hsucc]; omega
    have hres : ∀ v : Int, v = val + (digitValue c : Int) * 10 ^ k →
        get_nsecs_loop rest ((k : Int) + 1) v
          = some (val + ((digitValue c + 10 * rest.foldr
              (fun c acc => digitValue c + 10 * acc) 0 : Nat) : Int) * 10 ^ k) := by
      intro v hveq
      have := ih (k + 1) v hrest (by simp only [List.length_cons] at hk; omega)
        (by omega) (by omega)
      rw [show ((k : Int) + 1) = ((k + 1 : Nat) : Int) by push_cast; rfl, this, hveq, hsucc]
      congr 1
      push_cast
      ring
    unfold get_nsecs_loop
    simp only [hd c (List.mem_cons_self _ _), not_true_eq_false, if_false, hc.1,
      List.foldr_cons]
    by_cases hz : (digitValue c : Int) = 0
    · rw [if_neg (not_not.mpr hz)]
      exact hres val (by rw [hz]; ring)
    · rw [if_pos hz, if_neg (by omega), Int.toNat_ofNat,
        times_ten_eq k _ (by omega) (by omega), toSigned32_id _ (by omega) (by omega)]
      exact hres _ rfl

theorem digitsValue_eq_foldr (d : List Char) :
    d.reverse.foldr (fun c acc => digitValue c + 10 * acc) 0 = digitsValue d := by
  unfold digitsValue
  rw [List.foldr_reverse]
  congr 1
  funext a c
  omega

theorem two_pow_split (b : Nat) (hb : 1 ≤ b) : (2 : Int) ^ b = 2 * 2 ^ (b - 1) := by
  obtain ⟨m, rfl⟩ : ∃ m, b = m + 1 := ⟨b - 1, by omega⟩
  simp only [Nat.add_sub_cancel]
  ring

theorem toSigned_range (b : Nat) (hb : 1 ≤ b) (v : Int) :
    sminOf b ≤ toSigned b v ∧ toSigned b v ≤ smaxOf b := by
  have hP : (0 : Int) < 2 ^ (b - 1) := pow_pos (by norm_num) _
  have h2 := two_pow_split b hb
  have hm0 := Int.emod_nonneg (v + 2 ^ (b - 1)) (show (2 : Int) ^ b ≠ 0 by omega)
  have hm1 := Int.emod_lt_of_pos (v + 2 ^ (b - 1)) (show (0 : Int) < 2 ^ b by omega)
  unfold toSigned sminOf smaxOf
  constructor <;> omega

theorem toSigned_id (b : Nat) (hb : 1 ≤ b) (v : Int) (h1 : sminOf b ≤ v) (h2 : v ≤ smaxOf b) :
    toSigned b v = v := by
  have hs := two_pow_split b hb
  unfold sminOf at h1
  unfold smaxOf at h2
  unfold toSigned
  rw [Int.emod_eq_of_lt (by omega) (by omega)]
  omega

/-- Whatever the text, the nanoseconds that `get_nsecs` returns are below one second. -/
theorem get_nsecs_loop_bound (r : List Char) : ∀ (scale val n : Int),
    scale + r.length = 9 → 0 ≤ val → (scale ≤ 0 → val = 0) →
    (∀ k : Nat, scale = k → val < 10 ^ k) →
    get_nsecs_loop r scale val = some n → 0 ≤ n ∧ n < 1000000000 := by
  induction r with
  | nil =>
    intro scale val n hs h0 _ hk h
    simp only [get_nsecs_loop, Option.some.injEq] at h
    subst h
    have := hk 9 (by simpa using hs)
    exact ⟨h0, by norm_num at this; exact this⟩
  | cons c rest ih =>
    intro scale val n hs h0 hneg hk h
    simp only [List.length_cons, Nat.cast_add, Nat.cast_one] at hs
    unfold get_nsecs_loop at h
    by_cases hd : g_ascii_isdigit c = true
    · have hc := isdigit_value hd
      simp only [hd, not_true_eq_false, if_false, hc.1] at h
      have hstep : ∀ v : Int, 0 ≤ v → (scale + 1 ≤ 0 → v = 0) →
          (∀ k : Nat, scale + 1 = k → v < 10 ^ k) →
          get_nsecs_loop rest (scale + 1) v = some n → 0 ≤ n ∧ n < 1000000000 :=
        fun v hv0 hvneg hvk hv => ih (scale + 1) v n (by omega) hv0 hvneg hvk hv
      by_cases hz : (digitValue c : Int) = 0
      · rw [if_neg (not_not.mpr hz)] at h
        refine hstep val h0 (fun hle => hneg (by omega)) ?_ h
        intro k hk1
        by_cases hsc : scale ≤ 0
        · rw [hneg hsc]
          exact pow_pos (by norm_num) k
        · obtain ⟨j, rfl⟩ : ∃ j, k = j + 1 := ⟨k - 1, by omega⟩
          have hj := hk j (by omega)
          have hP : (0 : Int) < 10 ^ j := pow_pos (by norm_num) j
          rw [pow_succ]
          omega
      · rw [if_pos hz] at h
        by_cases hsc : scale < 0
        · rw [if_pos hsc] at h
          cases h
        · rw [if_neg hsc] at h
          obtain ⟨j, rfl⟩ := Int.eq_ofNat_of_zero_le (not_lt.mp hsc)
          have hj8 : j ≤ 8 := by omega
          have hvj := hk j rfl
          have hP0 : (0 : Int) < 10 ^ j := pow_pos (by norm_num) j
          have hP8 : (10 : Int) ^ j ≤ 10 ^ 8 := pow_le_pow_right₀ (by norm_num) hj8
          have hdk : (digitValue c : Int) * 10 ^ j ≤ 9 * 10 ^ j :=
            mul_le_mul_of_nonneg_right (by omega) (le_of_lt hP0)
          have hdk0 : 0 ≤ (digitValue c : Int) * 10 ^ j :=
            mul_nonneg (by omega) (le_of_lt hP0)
          rw [Int.toNat_ofNat, times_ten_eq j _ (by omega) (by omega),
            toSigned32_id _ (by omega) (by omega)] at h
          refine hstep _ (by omega) (fun hle => by omega) ?_ h
          intro k hk1
          have hkj : k = j + 1 := by omega
          subst hkj
          rw [pow_succ]
          omega
    · simp only [hd, not_false_eq_true, if_true] at h
      cases h

theorem get_nsecs_bound (s : List Char) (n : Int) (h : get_nsecs s = some n) :
    0 ≤ n ∧ n < 1000000000 := by
  unfold get_nsecs at h
  refine get_nsecs_loop_bound s.reverse _ 0 n (by simp) (le_refl _) (fun _ => rfl) ?_ h
  intro k _
  exact pow_pos (by norm_num) k

/-! ## Relative time: the stored fields -/

theorem zero_in_range (b : Nat) : sminOf b ≤ 0 ∧ (0 : Int) ≤ smaxOf b :=
  ⟨le_of_lt (sminOf_neg b), smaxOf_nonneg b⟩

/-- The fields that the body of `relative_val_from_unparsed` stores fit their C types, and
the nanoseconds are below one second. -/
theorem relative_val_parse_range (lbits tbits : Nat) (htb : 1 ≤ tbits) (curptr : List Char)
    (x : nstime_t) (h : relative_val_parse lbits tbits curptr = some x) :
    (sminOf tbits ≤ x.secs ∧ x.secs ≤ smaxOf tbits) ∧ (0 ≤ x.nsecs ∧ x.nsecs < 1000000000) := by
  unfold relative_val_parse at h
  simp only at h
  split at h
  · cases h
  · rename_i secs rest hsec
    have hsecs : sminOf tbits ≤ secs ∧ secs ≤ smaxOf tbits := by
      by_cases h1 : cAt curptr 0 ≠ '.'
      · rw [if_pos h1] at hsec
        split_ifs at hsec with h2
        all_goals
          simp only [Option.some.injEq, Prod.mk.injEq] at hsec
          rw [← hsec.1]
          exact toSigned_range tbits htb _
      · rw [if_neg h1] at hsec
        simp only [Option.some.injEq, Prod.mk.injEq] at hsec
        rw [← hsec.1]
        exact zero_in_range tbits
    by_cases hn : cAt rest 0 ≠ NUL
    · rw [if_pos hn] at h
      cases hg : get_nsecs rest with
      | none => rw [hg] at h; cases h
      | some nsecs =>
        rw [hg] at h
        simp only [Option.some.injEq] at h
        subst h
        exact ⟨hsecs, get_nsecs_bound rest nsecs hg⟩
    · rw [if_neg hn] at h
      simp only [Option.some.injEq] at h
      subst h
      exact ⟨hsecs, le_refl _, by norm_num⟩

/-- The `parse_literal` routines of the widths 8, 16, 24 and 32, signed and unsigned, accept
the character-constant form: a printable character other than the backslash between two
quotes parses to its byte value.  The routines of the widths 40, 48, 56 and 64 have no
character-constant branch and reject every text that begins with a quote as not a valid
number. -/
theorem charconst_literal_by_width (lbits : Nat) (c : Char)
    (hp : g_ascii_isprint c.toNat = true) (hb : c ≠ BACKSLASH) :
    (∀ ft ∈ [ftenum.FT_UINT8, .FT_UINT16, .FT_UINT24, .FT_UINT32],
        val_from_unparsed lbits ft [QUOTE, c, QUOTE] = some (.ok (.uinteger c.toNat)))
    ∧ (∀ ft ∈ [ftenum.FT_INT8, .FT_INT16, .FT_INT24, .FT_INT32],
        val_from_unparsed lbits ft [QUOTE, c, QUOTE] = some (.ok (.sinteger c.toNat)))
    ∧ (∀ ft ∈ [ftenum.FT_UINT40, .FT_UINT48, .FT_UINT56, .FT_UINT64,
               .FT_INT40, .FT_INT48, .FT_INT56, .FT_INT64],
        ∀ s, cAt s 0 = QUOTE →
          val_from_unparsed lbits ft s = some (.error (msgNotValidNumber s))) := by
  refine ⟨?_, ?_, ?_⟩
  · intro ft hft
    obtain ⟨max, hmax, hparse⟩ := uint_kind_bound ft hft
    have h255 : 255 ≤ max := by
      simp only [List.mem_cons, List.mem_singleton, List.not_mem_nil, or_false] at hft
      rcases hft with rfl | rfl | rfl | rfl <;> rw [← hmax] <;> decide
    rw [hparse, uint_from_unparsed_plain lbits max c hp hb h255]
    rfl
  · intro ft hft
    simp only [List.mem_cons, List.mem_singleton, List.not_mem_nil, or_false] at hft
    rcases hft with rfl | rfl | rfl | rfl
    · simp only [val_from_unparsed, sint8_from_unparsed]
      rw [sint_from_unparsed_plain lbits _ _ c hp hb (by decide) (by decide)]
      rfl
    · simp only [val_from_unparsed, sint16_from_unparsed]
      rw [sint_from_unparsed_plain lbits _ _ c hp hb (by decide) (by decide)]
      rfl
    · simp only [val_from_unparsed, sint24_from_unparsed]
      rw [sint_from_unparsed_plain lbits _ _ c hp hb (by decide) (by decide)]
      rfl
    · simp only [val_from_unparsed, sint32_from_unparsed]
      rw [sint_from_unparsed_plain lbits _ _ c hp hb (by decide) (by decide)]
      rfl
  · intro ft hft s hq
    simp only [List.mem_cons, List.mem_singleton, List.not_mem_nil, or_false] at hft
    rcases hft with rfl | rfl | rfl | rfl | rfl | rfl | rfl | rfl <;>
      simp only [val_from_unparsed, uint40_from_unparsed, uint48_from_unparsed,
        uint56_from_unparsed, uint64_from_unparsed, sint40_from_unparsed,
        sint48_from_unparsed, sint56_from_unparsed, sint64_from_unparsed,
        uint64_from_unparsed_quote s _ hq, sint64_from_unparsed_quote s _ _ hq] <;> rfl

/-! ## Character kind: formatted constants -/

/-- The text of a character depends on the display mode only through the test for hex. -/
theorem char_to_repr_display (c field_display : Nat) :
    char_to_repr c field_display
      = char_to_repr c (if field_display = BASE_HEX then BASE_HEX else BASE_DEC) := by
  unfold char_to_repr char_escape
  by_cases h : field_display = BASE_HEX
  · simp [h]
  · simp [h, show BASE_DEC ≠ BASE_HEX by decide]

set_option maxRecDepth 100000 in
/-- Every byte formatted with hex display parses back to itself. -/
theorem char_roundtrip_hex :
    ∀ c < 256, parse_charconst (char_to_repr c BASE_HEX) = .ok c := by decide

set_option maxRecDepth 100000 in
/-- Every byte formatted without hex display parses back to itself. -/
theorem char_roundtrip_dec :
    ∀ c < 256, parse_charconst (char_to_repr c BASE_DEC) = .ok c := by decide

/-- The formatted character parses back in every display mode. -/
theorem char_roundtrip (c field_display : Nat) (hc : c < 256) :
    parse_charconst (char_to_repr c field_display) = .ok c := by
  rw [char_to_repr_display]
  split_ifs
  · exact char_roundtrip_hex c hc
  · exact char_roundtrip_dec c hc

/-! ## Lengths of the formatted texts -/

theorem decimalAux_length_le (fuel : Nat) : ∀ n k : Nat, n < fuel → 1 ≤ k → n < 10 ^ k →
    (decimalAux fuel n).length ≤ k := by
  induction fuel with
  | zero => intro n k h; omega
  | succ fuel ih =>
    intro n k hf hk hn
    unfold decimalAux
    split_ifs with h10
    · simpa using hk
    · obtain ⟨m, rfl⟩ : ∃ m, k = m + 1 := ⟨k - 1, by omega⟩
      have hm : 1 ≤ m := by
        rcases Nat.eq_zero_or_pos m with h0 | h0
        · subst h0
          simp at hn
          omega
        · exact h0
      have hdiv : n / 10 < 10 ^ m := by
        rw [pow_succ] at hn
        exact Nat.div_lt_of_lt_mul (by rw [Nat.mul_comm]; exact hn)
      have := ih (n / 10) m (by omega) hm hdiv
      simp only [List.length_append, List.length_singleton]
      omega

theorem decimal_length_le (n k : Nat) (hk : 1 ≤ k) (hn : n < 10 ^ k) :
    (decimal n).length ≤ k :=
  decimalAux_length_le (n + 1) n k (by omega) hk hn

theorem guint32_to_str_buf_length (u : Nat) : (guint32_to_str_buf u).length ≤ 10 := by
  unfold guint32_to_str_buf
  have h : u % 2 ^ 32 < 2 ^ 32 := Nat.mod_lt _ (by norm_num)
  exact decimal_length_le _ 10 (by norm_num) (by omega)

theorem guint64_to_str_buf_length (u : Nat) : (guint64_to_str_buf u).length ≤ 20 := by
  unfold guint64_to_str_buf
  have h : u % 2 ^ 64 < 2 ^ 64 := Nat.mod_lt _ (by norm_num)
  exact decimal_length_le _ 20 (by norm_num) (by omega)

theorem integer_to_repr_length (i : Int) : (integer_to_repr i).length ≤ 11 := by
  unfold integer_to_repr
  split_ifs
  · have := guint32_to_str_buf_length (toUnsigned 32 (-i))
    simp only [List.length_cons]
    omega
  · have := guint32_to_str_buf_length (toUnsigned 32 i)
    omega

theorem uinteger_to_repr_length (ft : ftenum) (u field_display : Nat) :
    (uinteger_to_repr ft u field_display).length ≤ 10 := by
  unfold uinteger_to_repr
  split_ifs
  · cases ft <;>
      simp [guint8_to_hex, word_to_hex, dword_to_hex, hexFixed_length]
  · exact guint32_to_str_buf_length u

theorem integer64_to_repr_length (i : Int) (h1 : G_MININT64 ≤ i) (h2 : i ≤ G_MAXINT64) :
    (integer64_to_repr i).length ≤ 20 := by
  unfold G_MININT64 at h1
  unfold G_MAXINT64 at h2
  unfold integer64_to_repr
  split_ifs with hneg
  · have hu : toUnsigned 64 (-i) % 2 ^ 64 < 10 ^ 19 := by
      unfold toUnsigned
      have e : (-i) % 2 ^ 64 = -i := Int.emod_eq_of_lt (by omega) (by omega)
      rw [e]
      have : ((-i).toNat : Int) = -i := Int.toNat_of_nonneg (by omega)
      have hlt : (-i).toNat < 2 ^ 64 := by omega
      rw [Nat.mod_eq_of_lt hlt]
      omega
    have := decimal_length_le _ 19 (by norm_num) hu
    simp only [guint64_to_str_buf, List.length_cons]
    omega
  · exact guint64_to_str_buf_length _

theorem uinteger64_to_repr_length (u field_display : Nat) :
    (uinteger64_to_repr u field_display).length ≤ 20 := by
  unfold uinteger64_to_repr
  split_ifs
  · simp [qword_to_hex, hexFixed_length]
  · exact guint64_to_str_buf_length u

theorem char_escape_length (u field_display : Nat) :
    (char_escape u field_display).length ≤ 3 := by
  unfold char_escape
  split_ifs
  all_goals first
    | exact (by decide : (1 : Nat) ≤ 3)
    | exact le_refl _

theorem char_to_repr_length (u field_display : Nat) :
    (char_to_repr u field_display).length ≤ 6 := by
  have he := char_escape_length u field_display
  unfold char_to_repr
  simp only [List.length_cons, List.length_append, List.length_singleton, List.length_nil]
  split_ifs
  all_goals simp only [List.length_cons, List.length_append, List.length_singleton,
    List.length_nil]
  all_goals omega

/-! ## Hex digits of the unsigned kinds -/

theorem hexFixed_mod (w : Nat) : ∀ v : Nat, hexFixed w (v % 16 ^ w) = hexFixed w v := by
  induction w with
  | zero => intro v; rfl
  | succ w ih =>
    intro v
    unfold hexFixed
    have h1 : v % 16 ^ (w + 1) / 16 = v / 16 % 16 ^ w := by
      rw [pow_succ, Nat.mul_comm, Nat.mod_mul_right_div_self]
    have h2 : v % 16 ^ (w + 1) % 16 = v % 16 := by
      rw [pow_succ, Nat.mul_comm]
      exact Nat.mod_mul_right_mod v 16 (16 ^ w)
    rw [h1, h2, ih]

theorem hexFixed_add (a b : Nat) : ∀ v : Nat,
    hexFixed (a + b) v = hexFixed a (v / 16 ^ b) ++ hexFixed b v := by
  induction b with
  | zero => intro v; simp [hexFixed]
  | succ b ih =>
    intro v
    show hexFixed (a + b) (v / 16) ++ [hexChar (v % 16)]
      = hexFixed a (v / 16 ^ (b + 1)) ++ (hexFixed b (v / 16) ++ [hexChar (v % 16)])
    rw [ih (v / 16), Nat.div_div_eq_div_mul, pow_succ, Nat.mul_comm 16 (16 ^ b),
      List.append_assoc]

/-- The two hex routines of the 24-bit kind write the six low hex digits. -/
theorem hex24_digits (v : Nat) :
    guint8_to_hex ((v &&& 0x00ff0000) >>> 16) ++ word_to_hex (v &&& 0x0000ffff)
      = hexFixed 6 v := by
  unfold guint8_to_hex word_to_hex
  rw [mask_shift, mask_low]
  have h1 := hexFixed_mod 2 (v / 65536)
  have h2 := hexFixed_mod 4 v
  norm_num at h1 h2
  rw [h1, h2]
  have h3 := hexFixed_add 2 4 v
  norm_num at h3
  exact h3.symm

/-! ## Nanoseconds of a run longer than nine digits -/

theorem isdigit_zero_iff {c : Char} (h : g_ascii_isdigit c = true) :
    (digitValue c : Int) = 0 ↔ c = '0' := by
  have hv := isdigit_value h
  simp only [g_ascii_isdigit, Char.reduceToNat, decide_eq_true_eq] at h
  constructor
  · intro h0
    apply Char.ext
    apply UInt32.ext
    have : c.toNat = 48 := by
      have := hv.1
      simp only [Char.reduceToNat] at this
      omega
    exact this
  · intro hc
    subst hc
    decide

/-- The digits past nanosecond precision, which the loop meets first: they all have to be
`0`, and then the loop goes on with the same value. -/
theorem get_nsecs_loop_past (r rest : List Char) : ∀ (scale val : Int),
    (∀ c ∈ r, g_ascii_isdigit c = true) → scale + r.length ≤ 0 →
    get_nsecs_loop (r ++ rest) scale val
      = if ∀ c ∈ r, c = '0' then get_nsecs_loop rest (scale + r.length) val else none := by
  induction r with
  | nil => intro scale val _ _; simp
  | cons c r ih =>
    intro scale val hd hs
    have hc := hd c (List.mem_cons_self _ _)
    have hv := isdigit_value hc
    have hz := isdigit_zero_iff hc
    have hr : ∀ x ∈ r, g_ascii_isdigit x = true := fun x hx => hd x (List.mem_cons_of_mem _ hx)
    simp only [List.length_cons, Nat.cast_add, Nat.cast_one] at hs
    rw [List.cons_append, get_nsecs_loop]
    simp only [hc, not_true_eq_false, if_false, hv.1]
    by_cases h0 : (digitValue c : Int) = 0
    · have hc0 : c = '0' := hz.mp h0
      rw [if_neg (not_not.mpr h0), ih (scale + 1) val hr (by omega)]
      simp only [List.length_cons, Nat.cast_add, Nat.cast_one, List.mem_cons, forall_eq_or_imp,
        hc0, true_and]
      rw [show scale + 1 + (r.length : Int) = scale + ((r.length : Int) + 1) by ring]
    · have hc0 : c ≠ '0' := fun h => h0 (hz.mpr h)
      rw [if_pos h0, if_pos (by omega)]
      simp [hc0]

theorem get_nsecs_loop_some_digits (r : List Char) : ∀ (scale val n : Int),
    get_nsecs_loop r scale val = some n → ∀ c ∈ r, g_ascii_isdigit c = true := by
  induction r with
  | nil => intro _ _ _ _ c hc; simp at hc
  | cons x r ih =>
    intro scale val n h c hc
    unfold get_nsecs_loop at h
    by_cases hx : g_ascii_isdigit x = true
    · rcases List.mem_cons.mp hc with e | e
      · rw [e]; exact hx
      · simp only [hx, not_true_eq_false, if_false] at h
        split_ifs at h
        · exact ih _ _ _ h c e
        · exact ih _ _ _ h c e
    · simp [hx] at h

/-- A text that `get_nsecs` accepts consists of digits. -/
theorem get_nsecs_some_digits (s : List Char) (n : Int) (h : get_nsecs s = some n) :
    ∀ c ∈ s, g_ascii_isdigit c = true := by
  intro c hc
  unfold get_nsecs at h
  exact get_nsecs_loop_some_digits _ _ _ _ h c (List.mem_reverse.mpr hc)

/-- The nanoseconds of a run of more than nine digits. -/
theorem get_nsecs_long (d : List Char) (hd : ∀ c ∈ d, g_ascii_isdigit c = true)
    (hN : 9 < d.length) :
    get_nsecs d
      = if ∀ c ∈ d.drop 9, c = '0' then some ((digitsValue (d.take 9) : Nat) : Int) else none := by
  have hsplit : d.reverse = (d.drop 9).reverse ++ (d.take 9).reverse := by
    rw [← List.reverse_append, List.take_append_drop]
  have hlen : ((d.drop 9).reverse.length : Int) = (d.length : Int) - 9 := by
    rw [List.length_reverse, List.length_drop]
    omega
  have hpast : ∀ c ∈ (d.drop 9).reverse, g_ascii_isdigit c = true :=
    fun c hc => hd c (List.mem_of_mem_drop (List.mem_reverse.mp hc))
  have hfirst : ∀ c ∈ (d.take 9).reverse, g_ascii_isdigit c = true :=
    fun c hc => hd c (List.mem_of_mem_take (List.mem_reverse.mp hc))
  unfold get_nsecs
  rw [hsplit, get_nsecs_loop_past _ _ _ _ hpast (by rw [hlen]; omega), hlen]
  have hscale : (9 : Int) - (d.length : Int) + ((d.length : Int) - 9) = ((0 : Nat) : Int) := by
    simp
  rw [hscale, get_nsecs_loop_digits _ 0 0 hfirst
    (by rw [List.length_reverse, List.length_take]; omega) (le_refl _) (by norm_num),
    digitsValue_eq_foldr]
  simp only [List.mem_reverse, zero_add, pow_zero, mul_one]

/-! ## Absolute time: the text after the matched layout -/

theorem absolute_nsecs_nil (has_seconds : Bool) : absolute_nsecs has_seconds [] = some 0 := by
  simp [absolute_nsecs, cAt]

theorem absolute_nsecs_some (has_seconds : Bool) (r : List Char) (n : Int)
    (hr : NUL ∉ r) (hne : r ≠ []) (h : absolute_nsecs has_seconds r = some n) :
    has_seconds = true ∧ ∃ d, r = '.' :: d ∧ d ≠ [] ∧ get_nsecs d = some n := by
  obtain ⟨c, d, rfl⟩ := List.exists_cons_of_ne_nil hne
  have hc : c ≠ NUL := fun e => hr (by rw [e]; exact List.mem_cons_self _ _)
  have h0 : cAt (c :: d) 0 = c := rfl
  unfold absolute_nsecs at h
  rw [h0, if_pos hc] at h
  have hd1 : List.drop 1 (c :: d) = d := rfl
  simp only [hd1] at h
  by_cases h1 : c ≠ '.' ∨ ¬ has_seconds = true
  · rw [if_pos h1] at h
    exact absurd h (by simp)
  · rw [if_neg h1] at h
    simp only [not_or, not_not] at h1
    by_cases h2 : ¬ g_ascii_isdigit (cAt d 0) = true
    · rw [if_pos h2] at h
      exact absurd h (by simp)
    · rw [if_neg h2] at h
      refine ⟨h1.2, d, by rw [h1.1], ?_, h⟩
      intro e
      subst e
      exact h2 (by decide)

theorem absolute_nsecs_dot (d : List Char) (n : Int) (hd : d ≠ [])
    (h : get_nsecs d = some n) : absolute_nsecs true ('.' :: d) = some n := by
  obtain ⟨c, t, rfl⟩ := List.exists_cons_of_ne_nil hd
  have hc := get_nsecs_some_digits _ n h c (List.mem_cons_self _ _)
  have h0 : cAt ('.' :: c :: t) 0 = '.' := rfl
  have h1 : cAt (List.drop 1 ('.' :: c :: t)) 0 = c := rfl
  unfold absolute_nsecs
  simp only [h0, h1, hc]
  simpa [NUL] using h

/-! ## Character constants: the range of the value -/

theorem charconstClose_ok {s : List Char} {cp v w : Nat}
    (h : charconstClose s cp v = .ok w) : w = v := by
  unfold charconstClose at h
  simp only at h
  split_ifs at h
  simp only [Except.ok.injEq] at h
  exact h.symm

theorem charconstHex_le {s : List Char} {cp w : Nat}
    (h : charconstHex s cp = .ok w) : w ≤ 255 := by
  unfold charconstHex at h
  simp only at h
  cases e1 : hexDigitValue (cAt s (cp + 1)) with
  | none => rw [e1] at h; simp at h
  | some v1 =>
    have b1 := hexDigitValue_lt e1
    rw [e1] at h
    simp only at h
    split_ifs at h
    · cases e2 : hexDigitValue (cAt s (cp + 1 + 1)) with
      | none => rw [e2] at h; simp at h
      | some d2 =>
        have b2 := hexDigitValue_lt e2
        rw [e2] at h
        simp only at h
        have := charconstClose_ok h
        rw [shift4_or _ _ b2] at this
        omega
    · have := charconstClose_ok h
      omega

theorem charconstOctal_le {s : List Char} {cp w : Nat}
    (h : charconstOctal s cp = .ok w) : w ≤ 255 := by
  unfold charconstOctal at h
  cases e1 : octDigitValue (cAt s cp) with
  | none => rw [e1] at h; simp at h
  | some v1 =>
    rw [e1] at h
    simp only at h
    by_cases hq1 : cAt s (cp + 1) ≠ QUOTE
    · rw [if_pos hq1] at h
      cases e2 : octDigitValue (cAt s (cp + 1)) with
      | none => rw [e2] at h; simp at h
      | some d2 =>
        rw [e2] at h
        simp only at h
        by_cases hq2 : cAt s (cp + 1 + 1) ≠ QUOTE
        · rw [if_pos hq2] at h
          cases e3 : octDigitValue (cAt s (cp + 1 + 1)) with
          | none => rw [e3] at h; simp at h
          | some d3 =>
            rw [e3] at h
            simp only at h
            by_cases hb : (v1 <<< 3 ||| d2) <<< 3 ||| d3 > 255
            · rw [if_pos hb] at h
              cases h
            · rw [if_neg hb] at h
              have := charconstClose_ok h
              omega
        · rw [if_neg hq2] at h
          by_cases hb : v1 <<< 3 ||| d2 > 255
          · rw [if_pos hb] at h
            cases h
          · rw [if_neg hb] at h
            have := charconstClose_ok h
            omega
    · rw [if_neg hq1] at h
      by_cases hb : v1 > 255
      · rw [if_pos hb] at h
        cases h
      · rw [if_neg hb] at h
        have := charconstClose_ok h
        omega

theorem ite_ok_le {p : Prop} [Decidable p] {a b : Except String Nat} {w : Nat}
    (h : (if p then a else b) = .ok w) (ha : a = .ok w → w ≤ 255) (hb : b = .ok w → w ≤ 255) :
    w ≤ 255 := by
  by_cases hp : p
  · rw [if_pos hp] at h
    exact ha h
  · rw [if_neg hp] at h
    exact hb h

theorem charconstClose_le {s : List Char} {cp v w : Nat} (hv : v ≤ 255)
    (h : charconstClose s cp v = .ok w) : w ≤ 255 := by
  rw [charconstClose_ok h]
  exact hv

/-- Every value that `parse_charconst` yields is a byte. -/
theorem parse_charconst_le {s : List Char} {w : Nat} (h : parse_charconst s = .ok w) :
    w ≤ 255 := by
  unfold parse_charconst at h
  dsimp only at h
  by_cases hb : cAt s 1 = BACKSLASH
  · rw [if_pos hb] at h
    refine ite_ok_le h (fun h => by cases h) (fun h => ?_)
    refine ite_ok_le h (charconstClose_le (by norm_num)) (fun h => ?_)
    refine ite_ok_le h (charconstClose_le (by norm_num)) (fun h => ?_)
    refine ite_ok_le h (charconstClose_le (by norm_num)) (fun h => ?_)
    refine ite_ok_le h (charconstClose_le (by norm_num)) (fun h => ?_)
    refine ite_ok_le h (charconstClose_le (by norm_num)) (fun h => ?_)
    refine ite_ok_le h (charconstClose_le (by norm_num)) (fun h => ?_)
    refine ite_ok_le h (charconstClose_le (by norm_num)) (fun h => ?_)
    refine ite_ok_le h (charconstClose_le (by norm_num)) (fun h => ?_)
    refine ite_ok_le h (charconstClose_le (by norm_num)) (fun h => ?_)
    refine ite_ok_le h (charconstClose_le (by norm_num)) (fun h => ?_)
    exact ite_ok_le h charconstHex_le charconstOctal_le
  · rw [if_neg hb] at h
    by_cases hp : g_ascii_isprint (cAt s 1).toNat = true
    · have hnp : ¬ ¬ g_ascii_isprint (cAt s 1).toNat = true := not_not.mpr hp
      rw [if_neg hnp] at h
      have hc := charconstClose_ok h
      have hle := isprint_le hp
      omega
    · rw [if_pos hp] at h
      cases h

theorem toSigned8_byte (b : Nat) (hb : b ≤ 255) :
    toSigned 8 (b : Int) = if 128 ≤ b then (b : Int) - 256 else (b : Int) := by
  unfold toSigned
  norm_num
  split_ifs <;> omega

theorem uint_from_unparsed_charconst (lbits max : Nat) (s : List Char) (b : Nat)
    (hq : cAt s 0 = QUOTE) (h : parse_charconst s = .ok b) (hmax : 255 ≤ max) :
    uint_from_unparsed lbits s max = .ok b := by
  have hb := parse_charconst_le h
  unfold uint_from_unparsed
  simp only [hq, if_true, h]
  rw [if_neg (by omega), Nat.mod_eq_of_lt (by omega)]

theorem sint_from_unparsed_charconst (lbits : Nat) (max min : Int) (s : List Char) (b : Nat)
    (hq : cAt s 0 = QUOTE) (h : parse_charconst s = .ok b) (hmax : 127 ≤ max)
    (hmin : min ≤ -128) (hmax32 : max ≤ 2147483647) (hmin32 : -2147483648 ≤ min) :
    sint_from_unparsed lbits s max min
      = .ok (if 128 ≤ b then (b : Int) - 256 else (b : Int)) := by
  have hb := parse_charconst_le h
  have h8 := toSigned8_byte b hb
  have hr : -128 ≤ toSigned 8 (b : Int) ∧ toSigned 8 (b : Int) ≤ 127 := by
    rw [h8]
    split_ifs <;> omega
  unfold sint_from_unparsed
  simp only [hq, if_true, h]
  rw [if_neg (by omega), if_neg (by omega), toSigned32_id _ (by omega) (by omega), h8]

/-! ## Nanoseconds: the values of the computation -/

theorem times_ten_values_bound (i : Nat) : ∀ d : Int, 0 ≤ d → d * 10 ^ i ≤ 999999999 →
    ∀ x ∈ times_ten_values i d, 0 ≤ x ∧ x ≤ 999999999 := by
  induction i with
  | zero => intro d _ _ x hx; simp [times_ten_values] at hx
  | succ i ih =>
    intro d h0 hle x hx
    have hp : (1 : Int) ≤ 10 ^ i := one_le_pow₀ (by norm_num)
    have hsucc : d * 10 ^ (i + 1) = d * 10 * 10 ^ i := by ring
    rw [hsucc] at hle
    have h10 : d * 10 ≤ d * 10 * 10 ^ i := le_mul_of_one_le_right (by omega) hp
    unfold times_ten_values at hx
    rcases List.mem_cons.mp hx with e | e
    · subst e
      omega
    · rw [toSigned32_id _ (by omega) (by omega)] at e
      exact ih (d * 10) (by omega) hle x e

theorem get_nsecs_loop_values_bound (r : List Char) : ∀ (scale val : Int),
    scale + r.length = 9 → 0 ≤ val → (scale ≤ 0 → val = 0) →
    (∀ k : Nat, scale = k → val < 10 ^ k) →
    ∀ x ∈ get_nsecs_loop_values r scale val, 0 ≤ x ∧ x ≤ 999999999 := by
  induction r with
  | nil => intro _ _ _ _ _ _ x hx; simp [get_nsecs_loop_values] at hx
  | cons c rest ih =>
    intro scale val hs h0 hneg hk x hx
    simp only [List.length_cons, Nat.cast_add, Nat.cast_one] at hs
    unfold get_nsecs_loop_values at hx
    by_cases hd : g_ascii_isdigit c = true
    · have hc := isdigit_value hd
      simp only [hd, not_true_eq_false, if_false, hc.1] at hx
      by_cases hz : (digitValue c : Int) = 0
      · rw [if_neg (not_not.mpr hz)] at hx
        refine ih (scale + 1) val (by omega) h0 (fun hle => hneg (by omega)) ?_ x hx
        intro k hk1
        by_cases hsc : scale ≤ 0
        · rw [hneg hsc]
          exact pow_pos (by norm_num) k
        · obtain ⟨j, rfl⟩ : ∃ j, k = j + 1 := ⟨k - 1, by omega⟩
          have hj := hk j (by omega)
          have hP : (0 : Int) < 10 ^ j := pow_pos (by norm_num) j
          rw [pow_succ]
          omega
      · rw [if_pos hz] at hx
        by_cases hsc : scale < 0
        · rw [if_pos hsc] at hx
          simp at hx
        · rw [if_neg hsc] at hx
          obtain ⟨j, rfl⟩ := Int.eq_ofNat_of_zero_le (not_lt.mp hsc)
          have hj8 : j ≤ 8 := by omega
          have hvj := hk j rfl
          have hP0 : (0 : Int) < 10 ^ j := pow_pos (by norm_num) j
          have hP8 : (10 : Int) ^ j ≤ 10 ^ 8 := pow_le_pow_right₀ (by norm_num) hj8
          have hdk : (digitValue c : Int) * 10 ^ j ≤ 9 * 10 ^ j :=
            mul_le_mul_of_nonneg_right (by omega) (le_of_lt hP0)
          have hdk0 : 0 ≤ (digitValue c : Int) * 10 ^ j :=
            mul_nonneg (by omega) (le_of_lt hP0)
          rw [Int.toNat_ofNat, times_ten_eq j _ (by omega) (by omega),
            toSigned32_id _ (by omega) (by omega)] at hx
          rcases List.mem_append.mp hx with e | e
          · exact times_ten_values_bound j _ (by omega) (by omega) x e
          · rcases List.mem_cons.mp e with e1 | e1
            · subst e1
              omega
            · refine ih ((j : Int) + 1) _ (by omega) (by omega) (fun hle => by omega) ?_ x e1
              intro k hk1
              have hkj : k = j + 1 := by omega
              subst hkj
              rw [pow_succ]
              omega
    · simp only [hd, not_false_eq_true, if_true] at hx
      simp at hx

/-- No value that `get_nsecs` computes leaves the range of the nanoseconds. -/
theorem get_nsecs_values_bound (s : List Char) :
    ∀ x ∈ get_nsecs_values s, 0 ≤ x ∧ x ≤ 999999999 := by
  unfold get_nsecs_values
  refine get_nsecs_loop_values_bound s.reverse _ 0 (by simp) (le_refl _) (fun _ => rfl) ?_
  intro k _
  exact pow_pos (by norm_num) k

theorem absolute_nsecs_bound (has_seconds : Bool) (r : List Char) (n : Int)
    (h : absolute_nsecs has_seconds r = some n) : 0 ≤ n ∧ n < 1000000000 := by
  unfold absolute_nsecs at h
  dsimp only at h
  by_cases h0 : cAt r 0 ≠ NUL
  · rw [if_pos h0] at h
    by_cases h1 : cAt r 0 ≠ '.' ∨ ¬ has_seconds = true
    · rw [if_pos h1] at h
      cases h
    · rw [if_neg h1] at h
      by_cases h2 : ¬ g_ascii_isdigit (cAt (List.drop 1 r) 0) = true
      · rw [if_pos h2] at h
        cases h
      · rw [if_neg h2] at h
        exact get_nsecs_bound _ n h
  · rw [if_neg h0] at h
    simp only [Option.some.injEq] at h
    subst h
    norm_num

theorem absolute_ok_nsecs (strptime : strptime_t) (mktime : tm → Int) (s : List Char)
    (v : nstime_t) (h : absolute_val_from_string strptime mktime s = .ok v) :
    ∃ has_seconds r, absolute_nsecs has_seconds r = some v.nsecs := by
  unfold absolute_val_from_string at h
  by_cases hlen : s.length < 8
  · rw [if_pos hlen] at h
    cases h
  · rw [if_neg hlen] at h
    rcases hm : absolute_match strptime s with ⟨_ | r, hs, t⟩
    · rw [hm] at h
      cases h
    · rw [hm] at h
      dsimp only at h
      cases hn : absolute_nsecs hs r with
      | none =>
        rw [hn] at h
        cases h
      | some n =>
        rw [hn] at h
        dsimp only at h
        by_cases hk : mktime { t with tm_isdst := -1 } = -1
        · rw [if_pos hk] at h
          cases h
        · rw [if_neg hk] at h
          simp only [Except.ok.injEq] at h
          exact ⟨hs, r, by rw [hn, ← h]⟩

/-! ## Character constants: the characters inspected -/

theorem cAt_ne_NUL_lt {s : List Char} {i : Nat} (h : cAt s i ≠ NUL) : i < s.length := by
  by_contra hge
  exact h (List.getD_eq_default s NUL (by omega))

theorem cAt_eq_lt {s : List Char} {i : Nat} {c : Char} (h : cAt s i = c) (hc : c ≠ NUL) :
    i < s.length :=
  cAt_ne_NUL_lt (by rw [h]; exact hc)

theorem charconstCloseReads_le (s : List Char) (cp : Nat) (h : cp < s.length) :
    ∀ i ∈ charconstCloseReads s cp, i ≤ s.length := by
  intro i hi
  unfold charconstCloseReads at hi
  dsimp only at hi
  by_cases hq : cAt s (cp + 1) ≠ QUOTE
  · rw [if_pos hq] at hi
    simp at hi
    omega
  · rw [if_neg hq] at hi
    have := cAt_eq_lt (not_not.mp hq) (by decide)
    simp at hi
    omega

theorem charconstHexReads_le (s : List Char) (cp : Nat) (h : cp < s.length) :
    ∀ i ∈ charconstHexReads s cp, i ≤ s.length := by
  intro i hi
  unfold charconstHexReads at hi
  dsimp only at hi
  cases e1 : hexDigitValue (cAt s (cp + 1)) with
  | none =>
    rw [e1] at hi
    simp at hi
    omega
  | some v1 =>
    rw [e1] at hi
    dsimp only at hi
    have h1 : cp + 1 < s.length :=
      cAt_ne_NUL_lt (hexDigitValue_ne e1 (show hexDigitValue NUL = none by decide))
    by_cases hq : cAt s (cp + 1 + 1) ≠ QUOTE
    · rw [if_pos hq] at hi
      cases e2 : hexDigitValue (cAt s (cp + 1 + 1)) with
      | none =>
        rw [e2] at hi
        simp at hi
        omega
      | some d2 =>
        rw [e2] at hi
        dsimp only at hi
        have h2 : cp + 1 + 1 < s.length :=
          cAt_ne_NUL_lt (hexDigitValue_ne e2 (show hexDigitValue NUL = none by decide))
        rcases List.mem_append.mp hi with m | m
        · simp at m
          omega
        · exact charconstCloseReads_le s _ h2 i m
    · rw [if_neg hq] at hi
      have h2 : cp + 1 + 1 < s.length := cAt_eq_lt (not_not.mp hq) (by decide)
      rcases List.mem_append.mp hi with m | m
      · simp at m
        omega
      · exact charconstCloseReads_le s _ h2 i m

theorem charconstOctalReads_le (s : List Char) (cp : Nat) (h : cp < s.length) :
    ∀ i ∈ charconstOctalReads s cp, i ≤ s.length := by
  intro i hi
  unfold charconstOctalReads at hi
  cases e1 : octDigitValue (cAt s cp) with
  | none =>
    rw [e1] at hi
    simp at hi
    omega
  | some v1 =>
    rw [e1] at hi
    dsimp only at hi
    by_cases hq1 : cAt s (cp + 1) ≠ QUOTE
    · rw [if_pos hq1] at hi
      cases e2 : octDigitValue (cAt s (cp + 1)) with
      | none =>
        rw [e2] at hi
        simp at hi
        omega
      | some d2 =>
        rw [e2] at hi
        dsimp only at hi
        have h2 : cp + 1 < s.length :=
          cAt_ne_NUL_lt (octDigitValue_ne e2 (show octDigitValue NUL = none by decide))
        by_cases hq2 : cAt s (cp + 1 + 1) ≠ QUOTE
        · rw [if_pos hq2] at hi
          cases e3 : octDigitValue (cAt s (cp + 1 + 1)) with
          | none =>
            rw [e3] at hi
            simp at hi
            omega
          | some d3 =>
            rw [e3] at hi
            dsimp only at hi
            have h3 : cp + 1 + 1 < s.length :=
              cAt_ne_NUL_lt (octDigitValue_ne e3 (show octDigitValue NUL = none by decide))
            by_cases hb : (v1 <<< 3 ||| d2) <<< 3 ||| d3 > 255
            · rw [if_pos hb] at hi
              simp at hi
              omega
            · rw [if_neg hb] at hi
              rcases List.mem_append.mp hi with m | m
              · simp at m
                omega
              · exact charconstCloseReads_le s _ h3 i m
        · rw [if_neg hq2] at hi
          by_cases hb : v1 <<< 3 ||| d2 > 255
          · rw [if_pos hb] at hi
            simp at hi
            omega
          · rw [if_neg hb] at hi
            rcases List.mem_append.mp hi with m | m
            · simp at m
              omega
            · exact charconstCloseReads_le s _ h2 i m
    · rw [if_neg hq1] at hi
      by_cases hb : v1 > 255
      · rw [if_pos hb] at hi
        simp at hi
        omega
      · rw [if_neg hb] at hi
        rcases List.mem_append.mp hi with m | m
        · simp at m
          omega
        · exact charconstCloseReads_le s _ h i m

/-- Every character that `parse_charconst` inspects lies at or before the terminator. -/
theorem parse_charconst_reads_le (s : List Char) (hq : cAt s 0 = QUOTE) :
    ∀ i ∈ parse_charconst_reads s, i ≤ s.length := by
  have h0 : 0 < s.length := cAt_eq_lt hq (by decide)
  intro i hi
  unfold parse_charconst_reads at hi
  dsimp only at hi
  by_cases hb : cAt s 1 = BACKSLASH
  · rw [if_pos hb] at hi
    have h1 : 1 < s.length := cAt_eq_lt hb (by decide)
    by_cases hn : cAt s (1 + 1) = NUL
    · rw [if_pos hn] at hi
      simp at hi
      omega
    · rw [if_neg hn] at hi
      have h2 : 1 + 1 < s.length := cAt_ne_NUL_lt hn
      split_ifs at hi
      all_goals
        rcases List.mem_append.mp hi with m | m
        · simp at m
          omega
        · first
          | exact charconstCloseReads_le s _ h2 i m
          | exact charconstHexReads_le s _ h2 i m
          | exact charconstOctalReads_le s _ h2 i m
  · rw [if_neg hb] at hi
    by_cases hp : g_ascii_isprint (cAt s 1).toNat = true
    · rw [if_neg (not_not.mpr hp)] at hi
      have h1 : 1 < s.length := by
        apply cAt_ne_NUL_lt
        intro e
        rw [e] at hp
        exact absurd hp (by decide)
      rcases List.mem_append.mp hi with m | m
      · simp at m
        omega
      · exact charconstCloseReads_le s _ h1 i m
    · rw [if_pos hp] at hi
      simp at hi
      omega

/-! ## Absolute time: the layout that matched -/

theorem absolute_match_aux (strptime : strptime_t) (s : List Char)
    (a1 : Option (List Char) × tm) :
    (let a2 := try_layout strptime s layout_iso8601 a1
     let a3 := try_layout strptime s layout_seconds a2
     let has_seconds := a3.1.isSome
     let a4 := try_layout strptime s layout_minutes a3
     let a5 := try_layout strptime s layout_hours a4
     let a6 := try_layout strptime s layout_date a5
     (a6.1, has_seconds, a6.2)) =
      match
        (match a1 with
          | (some curptr, t) => (some (layout_month_name, curptr), t)
          | (none, t) =>
            first_matching_layout strptime s
              [layout_iso8601, layout_seconds, layout_minutes, layout_hours, layout_date] t) with
      | (some (layout, curptr), t) => (some curptr, layout_has_seconds layout, t)
      | (none, t) => (none, false, t) := by
  have hiso : layout_has_seconds layout_iso8601 = true := by decide
  have hsec : layout_has_seconds layout_seconds = true := by decide
  have hmon : layout_has_seconds layout_month_name = true := by decide
  have hmin : layout_has_seconds layout_minutes = false := by decide
  have hhrs : layout_has_seconds layout_hours = false := by decide
  have hdat : layout_has_seconds layout_date = false := by decide
  rcases a1 with ⟨_ | r1, t1⟩
  · simp only [try_layout, first_matching_layout, Option.isNone_none, if_true]
    rcases h2 : strptime s layout_iso8601 t1 with ⟨_ | r2, t2⟩
    · simp only [Option.isNone_none, if_true]
      rcases h3 : strptime s layout_seconds t2 with ⟨_ | r3, t3⟩
      · simp only [Option.isNone_none, if_true]
        rcases h4 : strptime s layout_minutes t3 with ⟨_ | r4, t4⟩
        · simp only [Option.isNone_none, if_true]
          rcases h5 : strptime s layout_hours t4 with ⟨_ | r5, t5⟩
          · simp only [Option.isNone_none, if_true]
            rcases h6 : strptime s layout_date t5 with ⟨_ | r6, t6⟩
            · simp
            · simp [hdat]
          · simp [hhrs]
        · simp [hmin]
      · simp [hsec]
    · simp [hiso]
  · simp [try_layout, hmon]

theorem absolute_match_matched_layout (strptime : strptime_t) (s : List Char) :
    absolute_match strptime s =
      match absolute_matched_layout strptime s with
      | (some (layout, curptr), t) => (some curptr, layout_has_seconds layout, t)
      | (none, t) => (none, false, t) := by
  unfold absolute_match absolute_matched_layout
  exact absolute_match_aux strptime s _
theorem first_matching_layout_mem (strptime : strptime_t) (s : List Char)
    (layouts : List (List Char)) (t0 : tm) (layout r : List Char) (t : tm)
    (h : first_matching_layout strptime s layouts t0 = (some (layout, r), t)) :
    layout ∈ layouts := by
  induction layouts generalizing t0 with
  | nil => simp [first_matching_layout] at h
  | cons l rest ih =>
    unfold first_matching_layout at h
    rcases h1 : strptime s l t0 with ⟨_ | r1, t1⟩
    · rw [h1] at h
      exact List.mem_cons_of_mem _ (ih t1 h)
    · rw [h1] at h
      simp only [Prod.mk.injEq, Option.some.injEq] at h
      rw [← h.1.1]
      exact List.mem_cons_self _ _

theorem absolute_matched_layout_mem (strptime : strptime_t) (s layout r : List Char) (t : tm)
    (h : absolute_matched_layout strptime s = (some (layout, r), t)) :
    layout ∈ [layout_month_name, layout_iso8601, layout_seconds, layout_minutes, layout_hours,
      layout_date] := by
  unfold absolute_matched_layout at h
  simp only [] at h
  split at h
  · simp only [Prod.mk.injEq, Option.some.injEq] at h
    rw [← h.1.1]
    exact List.mem_cons_self _ _
  · exact List.mem_cons_of_mem _ (first_matching_layout_mem strptime s _ _ layout r t h)

/-! ## Settled claims -/

/-- C1 (refuted by the code): `fvalue_slice` never returns NULL and never looks at
`slice_failure`.  On a source of ten bytes with the nodes `0:2` (succeeds) and `5:10`
(exceeds the length, fails), the failure is recorded and the caller still receives a
byte-buffer value, holding the two bytes of the node that succeeded before the failing one. -/
theorem fvalue_slice_returns_partial_result :
    slice_foreach ⟨[0, 1, 2, 3, 4, 5, 6, 7, 8, 9]⟩
        [⟨0, 2, 0, .DRANGE_NODE_END_T_LENGTH⟩, ⟨5, 10, 0, .DRANGE_NODE_END_T_LENGTH⟩]
        { bytes := [], slice_failure := false }
      = .returns { bytes := [0, 1], slice_failure := true }
    ∧ fvalue_slice ⟨[0, 1, 2, 3, 4, 5, 6, 7, 8, 9]⟩
        [⟨0, 2, 0, .DRANGE_NODE_END_T_LENGTH⟩, ⟨5, 10, 0, .DRANGE_NODE_END_T_LENGTH⟩]
      = .returns (some (.FT_BYTES, [0, 1]))
    ∧ ∀ (fv : slice_source) (d_range : List drange_node),
        fvalue_slice fv d_range ≠ .returns none := by
  refine ⟨by decide, by decide, ?_⟩
  intro fv d_range h
  unfold fvalue_slice at h
  split at h <;> simp at h

/-- C2: for every unsigned integer kind UINT8 .. UINT64, every value `v` from 0 to the
kind's maximum `2 ^ W - 1` and every display mode (decimal, BASE_HEX and BASE_HEX_DEC among
them), the kind's format function writes a text that the kind's `parse_literal` reads back
as exactly `v`, wherever `long` has at least 32 bits. -/
theorem uint_format_parse_roundtrip (lbits : Nat) (hl : 32 ≤ lbits) (ft : ftenum)
    (hft : ft ∈ unsignedKinds) (v : Nat) (hv : v ≤ 2 ^ widthBits ft - 1)
    (field_display : Nat) :
    ∃ text, val_to_string_repr ft (store ft v) field_display = some text
      ∧ val_from_unparsed lbits ft text = some (.ok (store ft v)) := by
  simp only [unsignedKinds, List.mem_cons, List.mem_singleton, List.not_mem_nil, or_false]
    at hft
  rcases hft with rfl | rfl | rfl | rfl | rfl | rfl | rfl | rfl
  · have hv : v ≤ 255 := hv
    refine ⟨_, rfl, ?_⟩
    have h := uinteger_to_repr_whole .FT_UINT8 v field_display (by omega) (fun _ => hv)
      (fun e => by cases e) (fun e => by cases e)
    simp [val_from_unparsed, uint8_from_unparsed, store, Except.map,
      uint_from_unparsed_whole h lbits G_MAXUINT8 hl hv (by omega)]
  · have hv : v ≤ 65535 := hv
    refine ⟨_, rfl, ?_⟩
    have h := uinteger_to_repr_whole .FT_UINT16 v field_display (by omega)
      (fun e => by cases e) (fun _ => hv) (fun e => by cases e)
    simp [val_from_unparsed, uint16_from_unparsed, store, Except.map,
      uint_from_unparsed_whole h lbits G_MAXUINT16 hl hv (by omega)]
  · have hv : v ≤ 16777215 := hv
    refine ⟨_, rfl, ?_⟩
    have h := uinteger_to_repr_whole .FT_UINT24 v field_display (by omega)
      (fun e => by cases e) (fun e => by cases e) (fun _ => hv)
    simp [val_from_unparsed, uint24_from_unparsed, store, Except.map,
      uint_from_unparsed_whole h lbits 0xFFFFFF hl hv (by omega)]
  · have hv : v ≤ 4294967295 := hv
    refine ⟨_, rfl, ?_⟩
    have h := uinteger_to_repr_whole .FT_UINT32 v field_display hv
      (fun e => by cases e) (fun e => by cases e) (fun e => by cases e)
    simp [val_from_unparsed, uint32_from_unparsed, store, Except.map,
      uint_from_unparsed_whole h lbits G_MAXUINT32 hl hv hv]
  · have hv : v ≤ 1099511627775 := hv
    refine ⟨_, rfl, ?_⟩
    have h := uinteger64_to_repr_whole v field_display (by omega)
    simp [val_from_unparsed, uint40_from_unparsed, store, Except.map,
      uint64_from_unparsed_whole h 0xFFFFFFFFFF hv (by omega)]
  · have hv : v ≤ 281474976710655 := hv
    refine ⟨_, rfl, ?_⟩
    have h := uinteger64_to_repr_whole v field_display (by omega)
    simp [val_from_unparsed, uint48_from_unparsed, store, Except.map,
      uint64_from_unparsed_whole h 0xFFFFFFFFFFFF hv (by omega)]
  · have hv : v ≤ 72057594037927935 := hv
    refine ⟨_, rfl, ?_⟩
    have h := uinteger64_to_repr_whole v field_display (by omega)
    simp [val_from_unparsed, uint56_from_unparsed, store, Except.map,
      uint64_from_unparsed_whole h 0xFFFFFFFFFFFFFF hv (by omega)]
  · have hv : v ≤ 18446744073709551615 := hv
    refine ⟨_, rfl, ?_⟩
    have h := uinteger64_to_repr_whole v field_display hv
    simp [val_from_unparsed, uint64_from_unparsed, store, Except.map,
      uint64_from_unparsed_whole h G_MAXUINT64 hv hv]

/-- C2 at the 24-bit kind in hex display: 0xabcdef is written as `0xabcdef` and read back. -/
theorem uint_format_parse_roundtrip_witness :
    ∃ text, val_to_string_repr .FT_UINT24 (store .FT_UINT24 (11259375 : Nat)) BASE_HEX = some text
      ∧ val_from_unparsed 64 .FT_UINT24 text = some (.ok (store .FT_UINT24 (11259375 : Nat))) :=
  uint_format_parse_roundtrip 64 (by decide) .FT_UINT24 (by decide) 11259375 (by decide) BASE_HEX

/-- C3: for every signed integer kind INT8 .. INT64 and every value `v` of the kind's range
`[-2 ^ (W - 1), 2 ^ (W - 1) - 1]`, the minimum of the width included, the decimal text that
`integer_to_repr` / `integer64_to_repr` writes is read back by the kind's `parse_literal`
as exactly `v`, wherever `long` has at least 32 bits. -/
theorem sint_format_parse_roundtrip (lbits : Nat) (hl : 32 ≤ lbits) (ft : ftenum)
    (hft : ft ∈ signedKinds) (v : Int) (hlo : -(2 ^ (widthBits ft - 1)) ≤ v)
    (hhi : v ≤ 2 ^ (widthBits ft - 1) - 1) (field_display : Nat) :
    ∃ text, val_to_string_repr ft (store ft v) field_display = some text
      ∧ val_from_unparsed lbits ft text = some (.ok (store ft v)) := by
  simp only [signedKinds, List.mem_cons, List.mem_singleton, List.not_mem_nil, or_false]
    at hft
  rcases hft with rfl | rfl | rfl | rfl | rfl | rfl | rfl | rfl
  · have hlo : -128 ≤ v := hlo
    have hhi : v ≤ 127 := hhi
    refine ⟨_, rfl, ?_⟩
    simp [val_from_unparsed, sint8_from_unparsed, store, Except.map,
      sint_roundtrip lbits hl v G_MAXINT8 G_MININT8 hlo hhi (by omega) (by omega)]
  · have hlo : -32768 ≤ v := hlo
    have hhi : v ≤ 32767 := hhi
    refine ⟨_, rfl, ?_⟩
    simp [val_from_unparsed, sint16_from_unparsed, store, Except.map,
      sint_roundtrip lbits hl v G_MAXINT16 G_MININT16 hlo hhi (by omega) (by omega)]
  · have hlo : -8388608 ≤ v := hlo
    have hhi : v ≤ 8388607 := hhi
    refine ⟨_, rfl, ?_⟩
    simp [val_from_unparsed, sint24_from_unparsed, store, Except.map,
      sint_roundtrip lbits hl v 0x7FFFFF (-0x800000) hlo hhi (by omega) (by omega)]
  · have hlo : -2147483648 ≤ v := hlo
    have hhi : v ≤ 2147483647 := hhi
    refine ⟨_, rfl, ?_⟩
    simp [val_from_unparsed, sint32_from_unparsed, store, Except.map,
      sint_roundtrip lbits hl v G_MAXINT32 G_MININT32 hlo hhi hlo hhi]
  · have hlo : -549755813888 ≤ v := hlo
    have hhi : v ≤ 549755813887 := hhi
    refine ⟨_, rfl, ?_⟩
    simp [val_from_unparsed, sint40_from_unparsed, store, Except.map,
      sint64_roundtrip v 0x7FFFFFFFFF (-0x8000000000) hlo hhi (by omega) (by omega)]
  · have hlo : -140737488355328 ≤ v := hlo
    have hhi : v ≤ 140737488355327 := hhi
    refine ⟨_, rfl, ?_⟩
    simp [val_from_unparsed, sint48_from_unparsed, store, Except.map,
      sint64_roundtrip v 0x7FFFFFFFFFFF (-0x800000000000) hlo hhi (by omega) (by omega)]
  · have hlo : -36028797018963968 ≤ v := hlo
    have hhi : v ≤ 36028797018963967 := hhi
    refine ⟨_, rfl, ?_⟩
    simp [val_from_unparsed, sint56_from_unparsed, store, Except.map,
      sint64_roundtrip v 0x7FFFFFFFFFFFFF (-0x80000000000000) hlo hhi (by omega) (by omega)]
  · have hlo : -9223372036854775808 ≤ v := hlo
    have hhi : v ≤ 9223372036854775807 := hhi
    refine ⟨_, rfl, ?_⟩
    simp [val_from_unparsed, sint64_from_unparsed, store, Except.map,
      sint64_roundtrip v G_MAXINT64 G_MININT64 hlo hhi hlo hhi]

/-- C3 at the minimum of the 32-bit kind: -2147483648 is written and read back. -/
theorem sint_format_parse_roundtrip_witness :
    ∃ text, val_to_string_repr .FT_INT32 (store .FT_INT32 (-2147483648)) BASE_DEC = some text
      ∧ val_from_unparsed 64 .FT_INT32 text = some (.ok (store .FT_INT32 (-2147483648))) :=
  sint_format_parse_roundtrip 64 (by decide) .FT_INT32 (by decide) (-2147483648) (by decide)
    (by decide) BASE_DEC

/-- C4: whenever `parse_literal` of an integer kind of width W = 8 .. 64 succeeds, on any
text (numeric literal or character constant), the stored value lies in `[0, 2 ^ W - 1]` for
an unsigned kind and in `[-2 ^ (W - 1), 2 ^ (W - 1) - 1]` for a signed kind. -/
theorem parse_literal_in_range (lbits : Nat) (ft : ftenum) (s : List Char) (x : fvalue_value)
    (h : val_from_unparsed lbits ft s = some (.ok x)) :
    (ft ∈ unsignedKinds → 0 ≤ x.toInt ∧ x.toInt ≤ 2 ^ widthBits ft - 1)
    ∧ (ft ∈ signedKinds → -(2 ^ (widthBits ft - 1)) ≤ x.toInt
        ∧ x.toInt ≤ 2 ^ (widthBits ft - 1) - 1) := by
  constructor
  · intro hft
    simp only [unsignedKinds, List.mem_cons, List.mem_singleton, List.not_mem_nil, or_false]
      at hft
    rcases hft with rfl | rfl | rfl | rfl | rfl | rfl | rfl | rfl <;>
      simp only [val_from_unparsed, Option.some.injEq] at h <;>
      obtain ⟨v, hv, rfl⟩ := map_eq_ok h
    · have := uint_from_unparsed_le hv
      have e : (2 : Int) ^ widthBits .FT_UINT8 - 1 = 255 := by decide
      simp only [fvalue_value.toInt, e, G_MAXUINT8] at *
      omega
    · have := uint_from_unparsed_le hv
      have e : (2 : Int) ^ widthBits .FT_UINT16 - 1 = 65535 := by decide
      simp only [fvalue_value.toInt, e, G_MAXUINT16] at *
      omega
    · have := uint_from_unparsed_le hv
      have e : (2 : Int) ^ widthBits .FT_UINT24 - 1 = 16777215 := by decide
      simp only [fvalue_value.toInt, e] at *
      omega
    · have := uint_from_unparsed_le hv
      have e : (2 : Int) ^ widthBits .FT_UINT32 - 1 = 4294967295 := by decide
      simp only [fvalue_value.toInt, e, G_MAXUINT32] at *
      omega
    · have := uint64_from_unparsed_le hv
      have e : (2 : Int) ^ widthBits .FT_UINT40 - 1 = 1099511627775 := by decide
      simp only [fvalue_value.toInt, e] at *
      omega
    · have := uint64_from_unparsed_le hv
      have e : (2 : Int) ^ widthBits .FT_UINT48 - 1 = 281474976710655 := by decide
      simp only [fvalue_value.toInt, e] at *
      omega
    · have := uint64_from_unparsed_le hv
      have e : (2 : Int) ^ widthBits .FT_UINT56 - 1 = 72057594037927935 := by decide
      simp only [fvalue_value.toInt, e] at *
      omega
    · have := uint64_from_unparsed_le hv
      have e : (2 : Int) ^ widthBits .FT_UINT64 - 1 = 18446744073709551615 := by decide
      simp only [fvalue_value.toInt, e, G_MAXUINT64] at *
      omega
  · intro hft
    simp only [signedKinds, List.mem_cons, List.mem_singleton, List.not_mem_nil, or_false]
      at hft
    rcases hft with rfl | rfl | rfl | rfl | rfl | rfl | rfl | rfl <;>
      simp only [val_from_unparsed, Option.some.injEq] at h <;>
      obtain ⟨v, hv, rfl⟩ := map_eq_ok h
    · exact sint_from_unparsed_range (by decide) (by decide) hv
    · exact sint_from_unparsed_range (by decide) (by decide) hv
    · exact sint_from_unparsed_range (by decide) (by decide) hv
    · exact sint_from_unparsed_range (by decide) (by decide) hv
    · exact sint64_from_unparsed_range (by decide) (by decide) hv
    · exact sint64_from_unparsed_range (by decide) (by decide) hv
    · exact sint64_from_unparsed_range (by decide) (by decide) hv
    · exact sint64_from_unparsed_range (by decide) (by decide) hv

/-- C4 at the 8-bit signed kind on the character constant `'\xff'`, stored as -1. -/
theorem parse_literal_in_range_witness :
    val_from_unparsed 64 .FT_INT8 [QUOTE, BACKSLASH, 'x', 'f', 'f', QUOTE]
        = some (.ok (.sinteger (-1)))
    ∧ (-(2 ^ (widthBits .FT_INT8 - 1)) ≤ (fvalue_value.sinteger (-1)).toInt
        ∧ (fvalue_value.sinteger (-1)).toInt ≤ 2 ^ (widthBits .FT_INT8 - 1) - 1) :=
  ⟨by decide,
   (parse_literal_in_range 64 .FT_INT8 [QUOTE, BACKSLASH, 'x', 'f', 'f', QUOTE]
      (.sinteger (-1)) (by decide)).2 (by decide)⟩

/-- C5: for every unsigned kind of width 8, 16, 24 or 32, with maximum `M = 2 ^ W - 1`, and
every text `s` that is one whole numeral without minus sign denoting a number `n` that
`strtoul` can represent, `n > M` makes `parse_literal` fail with the message
`"s" too big for this field, maximum M.` -/
theorem uint_too_big (lbits : Nat) (ft : ftenum)
    (hft : ft ∈ [ftenum.FT_UINT8, .FT_UINT16, .FT_UINT24, .FT_UINT32])
    (s : List Char) (n : Nat) (hsub : scanSubject s = ⟨false, n, s.length⟩)
    (hrep : n ≤ umaxOf lbits) (hbig : 2 ^ widthBits ft - 1 < n) :
    val_from_unparsed lbits ft s
      = some (.error (msgTooBig s (decimal (2 ^ widthBits ft - 1)))) := by
  obtain ⟨max, hmax, hparse⟩ := uint_kind_bound ft hft
  rw [hmax] at hbig ⊢
  rw [hparse, uint_too_big_core lbits s n max hsub hrep hbig]
  rfl

/-- C5 at the 8-bit unsigned kind on `256`: too big, maximum 255. -/
theorem uint_too_big_witness :
    val_from_unparsed 64 .FT_UINT8 ['2', '5', '6']
      = some (.error "\"256\" too big for this field, maximum 255.") :=
  (uint_too_big 64 .FT_UINT8 (by decide) ['2', '5', '6'] 256 (by decide) (by decide)
    (by decide)).trans (by decide)

/-- C6: a text that `strtol` converts to a negative number contains a `-`; every unsigned
kind of width 8, 16, 24 or 32 rejects it with `"s" too small for this field, minimum 0.`,
the kinds of width 40 to 64 reject it with the underflow message, and so no unsigned kind
accepts it. -/
theorem uint_rejects_negative (lbits : Nat) (s : List Char)
    (h : (strtol lbits s).value < 0) :
    '-' ∈ s
    ∧ (∀ ft ∈ [ftenum.FT_UINT8, .FT_UINT16, .FT_UINT24, .FT_UINT32],
        val_from_unparsed lbits ft s = some (.error (msgTooSmallMin0 s)))
    ∧ (∀ ft ∈ [ftenum.FT_UINT40, .FT_UINT48, .FT_UINT56, .FT_UINT64],
        val_from_unparsed lbits ft s = some (.error (msgUnderflow s)))
    ∧ (∀ ft ∈ unsignedKinds, ∃ e, val_from_unparsed lbits ft s = some (.error e)) := by
  have hsub := (strtos_neg_iff lbits s).mp h
  have hmem : '-' ∈ s := scanSubject_neg_mem s hsub.1
  have hq : cAt s 0 ≠ QUOTE := (scanSubject_mag_pos s hsub.2).2
  have hc : strchr s '-' = true := (strchr_iff s '-').mpr hmem
  have h64 : (g_ascii_strtoll s).value < 0 := (strtos_neg_iff 64 s).mpr hsub
  have h32 : ∀ max, uint_from_unparsed lbits s max = .error (msgTooSmallMin0 s) := by
    intro max
    unfold uint_from_unparsed
    simp only [hq, if_false, hc, h, and_self, if_true]
  have h40 : ∀ max, _uint64_from_unparsed s max = .error (msgUnderflow s) := by
    intro max
    unfold _uint64_from_unparsed
    simp only [hc, h64, and_self, if_true]
  have ha : ∀ ft ∈ [ftenum.FT_UINT8, .FT_UINT16, .FT_UINT24, .FT_UINT32],
      val_from_unparsed lbits ft s = some (.error (msgTooSmallMin0 s)) := by
    intro ft hft
    obtain ⟨max, -, hparse⟩ := uint_kind_bound ft hft
    rw [hparse, h32]
    rfl
  have hb : ∀ ft ∈ [ftenum.FT_UINT40, .FT_UINT48, .FT_UINT56, .FT_UINT64],
      val_from_unparsed lbits ft s = some (.error (msgUnderflow s)) := by
    intro ft hft
    simp only [List.mem_cons, List.mem_singleton, List.not_mem_nil, or_false] at hft
    rcases hft with rfl | rfl | rfl | rfl <;>
      simp only [val_from_unparsed, uint40_from_unparsed, uint48_from_unparsed,
        uint56_from_unparsed, uint64_from_unparsed, h40] <;> rfl
  refine ⟨hmem, ha, hb, ?_⟩
  intro ft hft
  simp only [unsignedKinds, List.mem_cons, List.mem_singleton, List.not_mem_nil, or_false]
    at hft
  rcases hft with rfl | rfl | rfl | rfl | rfl | rfl | rfl | rfl
  · exact ⟨_, ha _ (by decide)⟩
  · exact ⟨_, ha _ (by decide)⟩
  · exact ⟨_, ha _ (by decide)⟩
  · exact ⟨_, ha _ (by decide)⟩
  · exact ⟨_, hb _ (by decide)⟩
  · exact ⟨_, hb _ (by decide)⟩
  · exact ⟨_, hb _ (by decide)⟩
  · exact ⟨_, hb _ (by decide)⟩

/-- C6 at the 8-bit unsigned kind on `-1`: too small, minimum 0. -/
theorem uint_rejects_negative_witness :
    val_from_unparsed 64 .FT_UINT8 ['-', '1']
      = some (.error "\"-1\" too small for this field, minimum 0.") :=
  ((uint_rejects_negative 64 ['-', '1'] (by decide)).2.1 .FT_UINT8 (by decide)).trans
    (by decide)

/-- C7: for every signed kind of width 8, 16, 24 or 32 and every text without `-` whose
numeral has a magnitude above 2147483647, `parse_literal` fails with
`"s" causes an integer overflow.`, wherever `long` has at least 32 bits. -/
theorem sint_rejects_overflow (lbits : Nat) (hl : 32 ≤ lbits) (ft : ftenum)
    (hft : ft ∈ [ftenum.FT_INT8, .FT_INT16, .FT_INT24, .FT_INT32])
    (s : List Char) (hm : '-' ∉ s) (hmag : 2147483647 < (scanSubject s).mag) :
    val_from_unparsed lbits ft s = some (.error (msgOverflow s)) := by
  obtain ⟨hend, hq⟩ := scanSubject_mag_pos s (by omega)
  have hc : strchr s '-' = false := by simp [strchr, hm]
  have hneg : (scanSubject s).neg = false := by
    cases hn : (scanSubject s).neg
    · rfl
    · exact absurd (scanSubject_neg_mem s hn) hm
  have hu := umaxOf_ge lbits hl
  have hv : ((strtoul lbits s).value : Int) > G_MAXINT32 := by
    unfold strtoul strtou G_MAXINT32
    simp only [hend, if_false, hneg, Bool.false_eq_true]
    split_ifs <;> simp only <;> omega
  have hcore : ∀ max min, sint_from_unparsed lbits s max min = .error (msgOverflow s) := by
    intro max min
    unfold sint_from_unparsed
    simp only [hq, if_false, hc, Bool.false_eq_true, not_false_eq_true, hv, and_self, if_true]
  simp only [List.mem_cons, List.mem_singleton, List.not_mem_nil, or_false] at hft
  rcases hft with rfl | rfl | rfl | rfl <;>
    simp only [val_from_unparsed, sint8_from_unparsed, sint16_from_unparsed,
      sint24_from_unparsed, sint32_from_unparsed, hcore] <;> rfl

/-- C7 at the 32-bit signed kind on `2147483648`: an overflow error. -/
theorem sint_rejects_overflow_witness :
    val_from_unparsed 64 .FT_INT32 ['2', '1', '4', '7', '4', '8', '3', '6', '4', '8']
      = some (.error "\"2147483648\" causes an integer overflow.") :=
  (sint_rejects_overflow 64 (by decide) .FT_INT32 (by decide)
    ['2', '1', '4', '7', '4', '8', '3', '6', '4', '8'] (by decide) (by decide)).trans (by decide)

/-- C8 as stated fails where `long` has 64 bits: the 32-bit signed kind rejects
`-2147483649`, but `strtol` represents the number, so the error comes from the range check
and names the minimum; it is not the underflow message. -/
theorem sint32_below_min_not_underflow :
    val_from_unparsed 64 .FT_INT32 ['-', '2', '1', '4', '7', '4', '8', '3', '6', '4', '9']
      = some (.error "\"-2147483649\" too small for this field, minimum -2147483648.")
    ∧ val_from_unparsed 64 .FT_INT32 ['-', '2', '1', '4', '7', '4', '8', '3', '6', '4', '9']
      ≠ some (.error (msgUnderflow ['-', '2', '1', '4', '7', '4', '8', '3', '6', '4', '9'])) := by
  constructor <;> decide

/-- C8 (amended): the 32-bit signed kind rejects `-2147483649` on every platform.  Where
`long` has 32 bits `strtol` underflows and the error is `causes an integer underflow`; where
`long` is wider the error is `too small for this field, minimum -2147483648.` -/
theorem sint32_below_min (lbits : Nat) (hl : 32 ≤ lbits) :
    val_from_unparsed lbits .FT_INT32 ['-', '2', '1', '4', '7', '4', '8', '3', '6', '4', '9']
      = some (.error
          (if lbits = 32 then
            msgUnderflow ['-', '2', '1', '4', '7', '4', '8', '3', '6', '4', '9']
           else
            msgTooSmall ['-', '2', '1', '4', '7', '4', '8', '3', '6', '4', '9']
              (decimalInt G_MININT32))) := by
  by_cases h32 : lbits = 32
  · subst h32
    decide
  · have hsub : scanSubject ['-', '2', '1', '4', '7', '4', '8', '3', '6', '4', '9']
        = ⟨true, 2147483649, 11⟩ := by decide
    have h2 : 2 ^ 32 ≤ 2 ^ (lbits - 1) := Nat.pow_le_pow_right (by omega) (by omega)
    have h3 : ((2 ^ (lbits - 1) : Nat) : Int) = (2 : Int) ^ (lbits - 1) := by push_cast; rfl
    have hmin : ¬ (-((2147483649 : Nat) : Int) < sminOf lbits) := by
      unfold sminOf
      omega
    have hs : strtol lbits ['-', '2', '1', '4', '7', '4', '8', '3', '6', '4', '9']
        = ⟨-2147483649, 11, false⟩ := by
      unfold strtol strtos
      simp only [hsub, if_true, if_false, hmin]
      simp
    have hc : strchr ['-', '2', '1', '4', '7', '4', '8', '3', '6', '4', '9'] '-' = true := by
      decide
    have hq : cAt ['-', '2', '1', '4', '7', '4', '8', '3', '6', '4', '9'] 0 ≠ QUOTE := by
      decide
    have he : cAt ['-', '2', '1', '4', '7', '4', '8', '3', '6', '4', '9'] 11 = NUL := by
      decide
    simp only [val_from_unparsed, sint32_from_unparsed, sint_from_unparsed, hs, if_neg h32,
      hc, hq, he, not_true_eq_false, false_and, if_false, ne_eq, or_self,
      Bool.false_eq_true, show (11 = 0) = False by decide]
    decide

/-- C8 (amended) where `long` has 32 bits: the underflow message. -/
theorem sint32_below_min_witness :
    val_from_unparsed 32 .FT_INT32 ['-', '2', '1', '4', '7', '4', '8', '3', '6', '4', '9']
      = some (.error "\"-2147483649\" causes an integer underflow.") :=
  (sint32_below_min 32 (by decide)).trans (by decide)

/-- C9: for every byte with a named escape, the named form, every two-digit hex spelling
(the lower-case one that `hexFixed 2` writes among them) and every octal spelling of one to
three digits of that byte are accepted by `parse_charconst` and give the same value, the
byte itself. -/
theorem charconst_escape_forms_agree :
    ∀ p ∈ namedEscapes,
      parse_charconst [QUOTE, BACKSLASH, p.1, QUOTE] = .ok p.2
      ∧ parse_charconst (QUOTE :: BACKSLASH :: 'x' :: hexFixed 2 p.2 ++ [QUOTE]) = .ok p.2
      ∧ (∀ h1 h2 v1 v2, hexDigitValue h1 = some v1 → hexDigitValue h2 = some v2 →
          16 * v1 + v2 = p.2 →
          parse_charconst [QUOTE, BACKSLASH, 'x', h1, h2, QUOTE] = .ok p.2)
      ∧ (∀ o1 o2 o3 w1 w2 w3, octDigitValue o1 = some w1 → octDigitValue o2 = some w2 →
          octDigitValue o3 = some w3 → 64 * w1 + 8 * w2 + w3 = p.2 →
          parse_charconst [QUOTE, BACKSLASH, o1, o2, o3, QUOTE] = .ok p.2)
      ∧ (∀ o1 o2 w1 w2, octDigitValue o1 = some w1 → octDigitValue o2 = some w2 →
          8 * w1 + w2 = p.2 → parse_charconst [QUOTE, BACKSLASH, o1, o2, QUOTE] = .ok p.2)
      ∧ (∀ o1 w1, octDigitValue o1 = some w1 → w1 = p.2 →
          parse_charconst [QUOTE, BACKSLASH, o1, QUOTE] = .ok p.2) := by
  intro p hp
  have hb : p.2 ≤ 255 := by
    revert p
    decide
  have hnamed : parse_charconst [QUOTE, BACKSLASH, p.1, QUOTE] = .ok p.2
      ∧ parse_charconst (QUOTE :: BACKSLASH :: 'x' :: hexFixed 2 p.2 ++ [QUOTE]) = .ok p.2 := by
    revert p
    decide
  exact ⟨hnamed.1, hnamed.2, charconst_numeric_escapes p.2 hb⟩

/-- C9 at the newline: `'\n'`, `'\x0a'`, `'\x0A'`, `'\012'` and `'\12'` all give 10. -/
theorem charconst_escape_forms_agree_witness :
    parse_charconst [QUOTE, BACKSLASH, 'n', QUOTE] = .ok 10
    ∧ parse_charconst [QUOTE, BACKSLASH, 'x', '0', 'a', QUOTE] = .ok 10
    ∧ parse_charconst [QUOTE, BACKSLASH, 'x', '0', 'A', QUOTE] = .ok 10
    ∧ parse_charconst [QUOTE, BACKSLASH, '0', '1', '2', QUOTE] = .ok 10
    ∧ parse_charconst [QUOTE, BACKSLASH, '1', '2', QUOTE] = .ok 10 :=
  have h := charconst_escape_forms_agree ('n', 10) (by decide)
  ⟨h.1, h.2.1,
   h.2.2.1 '0' 'A' 0 10 (by decide) (by decide) (by decide),
   h.2.2.2.1 '0' '1' '2' 0 1 2 (by decide) (by decide) (by decide) (by decide),
   h.2.2.2.2.1 '1' '2' 1 2 (by decide) (by decide) (by decide)⟩

/-- C10 (refuted by the code): a hex escape of ONE hex digit is never accepted.  After the
digit the pointer already stands on the closing quote, and the common `cp++` moves it past
the quote, so `'\xa'` is reported as too long; no text of the shape quote, backslash, `x`,
one character, quote parses at all.  Two hex digits parse to `16 * h1 + h2`
(`parse_charconst_hex2`). -/
theorem charconst_one_hex_digit_rejected :
    parse_charconst [QUOTE, BACKSLASH, 'x', 'a', QUOTE]
      = .error (msgCharconstTooLong [QUOTE, BACKSLASH, 'x', 'a', QUOTE])
    ∧ ∀ h : Char, ∃ e, parse_charconst [QUOTE, BACKSLASH, 'x', h, QUOTE] = .error e := by
  refine ⟨by decide, ?_⟩
  intro h
  cases e : hexDigitValue h with
  | none =>
    exact ⟨_, by
      simp [parse_charconst, charconstHex, cAt, e, show 'x' ≠ NUL by decide,
        show 'x' ≠ QUOTE by decide, show 'x' ≠ BACKSLASH by decide,
        show 'x' ≠ DQUOTE by decide]
      rfl⟩
  | some v =>
    exact ⟨_, by
      simp [parse_charconst, charconstHex, charconstClose, cAt, e, show 'x' ≠ NUL by decide,
        show 'x' ≠ QUOTE by decide, show 'x' ≠ BACKSLASH by decide,
        show 'x' ≠ DQUOTE by decide, show NUL ≠ QUOTE by decide]
      rfl⟩

/-- C11 (refuted by the code): the routines of the 64-bit accumulator have no
character-constant branch.  The 64-bit unsigned kind and the 40-bit signed kind reject the
constant `'a'` as not a valid number, while the 8-bit unsigned and the 32-bit signed kind,
which parse through `uint_from_unparsed` / `sint_from_unparsed`, give 97. -/
theorem charconst_rejected_by_64bit_kinds :
    val_from_unparsed 64 .FT_UINT64 [QUOTE, 'a', QUOTE]
      = some (.error "\"'a'\" is not a valid number.")
    ∧ val_from_unparsed 64 .FT_INT40 [QUOTE, 'a', QUOTE]
      = some (.error "\"'a'\" is not a valid number.")
    ∧ val_from_unparsed 64 .FT_UINT8 [QUOTE, 'a', QUOTE] = some (.ok (.uinteger 97))
    ∧ val_from_unparsed 64 .FT_INT32 [QUOTE, 'a', QUOTE] = some (.ok (.sinteger 97)) := by
  refine ⟨by decide, by decide, by decide, by decide⟩

/-- C12 as stated fails for a source whose length does not fit a C `int`: with
L = 2147483649 the node {start: -1, ToEnd} resolves its start to `(int) 2147483648`, which
is negative, and is recorded as a slice failure instead of offset L - 1 and length 1. -/
theorem negative_offset_fails_beyond_int :
    slice_span ⟨List.replicate 2147483649 0⟩ ⟨-1, 0, 0, .DRANGE_NODE_END_T_TO_THE_END⟩
      = .returns none
    ∧ slice_span ⟨List.replicate 2147483649 0⟩ ⟨-1, 0, 0, .DRANGE_NODE_END_T_TO_THE_END⟩
      ≠ .returns (some (2147483649 - 1, 1)) :=
  have h := slice_span_beyond_int ⟨List.replicate 2147483649 0⟩ (List.length_replicate _ _)
  ⟨h, fun e => by rw [h] at e; cases e⟩

/-- C12 (amended): for every source of logical length L with 1 <= L <= 2147483647 and every
k with 1 <= k <= L, the node {start: -k, ToEnd} resolves to offset L - k and length k and
appends the last k bytes of the source, and the node {start: 0, ExplicitEnd(-1)} resolves
to offset 0 and length L and appends the whole source. -/
theorem negative_offsets_from_end (fv : slice_source) (slice_data : slice_data_t)
    (hs : slice_data.slice_failure = false) (k : Nat) (length end_offset : Int)
    (hL : fv.data.length ≤ 2147483647) (hk1 : 1 ≤ k) (hk : k ≤ fv.data.length) :
    slice_span fv ⟨-(k : Int), length, end_offset, .DRANGE_NODE_END_T_TO_THE_END⟩
      = .returns (some (((fv.data.length - k : Nat) : Int), (k : Int)))
    ∧ slice_func fv ⟨-(k : Int), length, end_offset, .DRANGE_NODE_END_T_TO_THE_END⟩ slice_data
      = .returns { slice_data with
          bytes := slice_data.bytes ++ fv.data.drop (fv.data.length - k) }
    ∧ slice_span fv ⟨0, length, -1, .DRANGE_NODE_END_T_OFFSET⟩
      = .returns (some (0, (fv.data.length : Int)))
    ∧ slice_func fv ⟨0, length, -1, .DRANGE_NODE_END_T_OFFSET⟩ slice_data
      = .returns { slice_data with bytes := slice_data.bytes ++ fv.data } := by
  have hlen : fvalue_length fv = fv.data.length := by
    unfold fvalue_length
    exact Nat.mod_eq_of_lt (by omega)
  have hsub : ((fv.data.length - k : Nat) : Int) = (fv.data.length : Int) - k := by omega
  have h1 : slice_span fv ⟨-(k : Int), length, end_offset, .DRANGE_NODE_END_T_TO_THE_END⟩
      = .returns (some (((fv.data.length - k : Nat) : Int), (k : Int))) := by
    have e1 : toSigned 32 ((fv.data.length : Int) + -(k : Int)) = (fv.data.length : Int) - k :=
      toSigned32_id _ (by omega) (by omega)
    have e2 : toSigned 32 ((fv.data.length : Int) - ((fv.data.length : Int) - k)) = k :=
      (toSigned32_id _ (by omega) (by omega)).trans (by omega)
    have n1 : -(k : Int) < 0 := by omega
    have n2 : ¬ ((fv.data.length : Int) - k < 0) := by omega
    have n3 : ¬ ((k : Int) ≤ 0) := by omega
    have n4 : (fv.data.length : Int) - k ≥ 0 ∧ (k : Int) > 0 := by omega
    simp only [slice_span, hlen, n1, if_true, e1, e2, n2, and_false, if_false, n3,
      slice_span_checked, n4, and_self, hsub]
  have h2 : slice_span fv ⟨0, length, -1, .DRANGE_NODE_END_T_OFFSET⟩
      = .returns (some (0, (fv.data.length : Int))) := by
    have e1 : toSigned 32 ((fv.data.length : Int) + -1) = (fv.data.length : Int) - 1 :=
      toSigned32_id _ (by omega) (by omega)
    have e2 : toSigned 32 ((fv.data.length : Int) - 1 - 0 + 1) = (fv.data.length : Int) :=
      by rw [toSigned32_id _ (by omega) (by omega)]; omega
    have n2 : ¬ ((fv.data.length : Int) - 1 < 0) := by omega
    have n4 : (0 : Int) ≥ 0 ∧ (fv.data.length : Int) > 0 := by omega
    simp only [slice_span, hlen, lt_self_iff_false, if_false, false_and,
      show ((-1 : Int) < 0) from by decide, if_true, e1, e2, n2, slice_span_checked, n4,
      and_self]
  refine ⟨h1, ?_, h2, ?_⟩
  · rw [slice_func_eq_span fv _ slice_data hs, h1]
    simp only [source_bytes, Int.toNat_ofNat]
    rw [List.take_of_length_le (by simp; omega)]
  · rw [slice_func_eq_span fv _ slice_data hs, h2]
    simp only [source_bytes, Int.toNat_ofNat, Int.toNat_zero, List.drop_zero]
    rw [List.take_of_length_le (Nat.le_refl _)]

/-- C12 (amended) on a source of ten bytes: {start: -3, ToEnd} gives the bytes [7, 10) and
{start: 0, ExplicitEnd(-1)} gives all ten bytes. -/
theorem negative_offsets_from_end_witness :
    slice_func ⟨[0, 1, 2, 3, 4, 5, 6, 7, 8, 9]⟩ ⟨-3, 0, 0, .DRANGE_NODE_END_T_TO_THE_END⟩
        { bytes := [], slice_failure := false }
      = .returns { bytes := [7, 8, 9], slice_failure := false }
    ∧ slice_func ⟨[0, 1, 2, 3, 4, 5, 6, 7, 8, 9]⟩ ⟨0, 0, -1, .DRANGE_NODE_END_T_OFFSET⟩
        { bytes := [], slice_failure := false }
      = .returns { bytes := [0, 1, 2, 3, 4, 5, 6, 7, 8, 9], slice_failure := false } :=
  have h := negative_offsets_from_end ⟨[0, 1, 2, 3, 4, 5, 6, 7, 8, 9]⟩
    { bytes := [], slice_failure := false } rfl 3 0 0 (by decide) (by decide) (by decide)
  ⟨h.2.1, (negative_offsets_from_end ⟨[0, 1, 2, 3, 4, 5, 6, 7, 8, 9]⟩
    { bytes := [], slice_failure := false } rfl 3 0 0 (by decide) (by decide)
    (by decide)).2.2.2⟩

/-- C13 (refuted by the code): the test `start_offset + length > (int) field_length` adds two
C `int`s.  On a source of ten bytes the node {start: 2147483647, FixedLength(1)} has the
true sum 2147483648 > 10, but the `int` sum wraps to -2147483648, no failure is recorded
and the `slice` operation is called with offset 2147483647 and length 1.  The node
{start: 5, FixedLength(10)}, whose sum does not overflow, is recorded as a failure. -/
theorem fixed_length_overflow_not_failure :
    slice_span ⟨[0, 1, 2, 3, 4, 5, 6, 7, 8, 9]⟩ ⟨2147483647, 1, 0, .DRANGE_NODE_END_T_LENGTH⟩
      = .returns (some (2147483647, 1))
    ∧ slice_func ⟨[0, 1, 2, 3, 4, 5, 6, 7, 8, 9]⟩
        ⟨2147483647, 1, 0, .DRANGE_NODE_END_T_LENGTH⟩ { bytes := [], slice_failure := false }
      = .returns { bytes := [], slice_failure := false }
    ∧ slice_span ⟨[0, 1, 2, 3, 4, 5, 6, 7, 8, 9]⟩ ⟨5, 10, 0, .DRANGE_NODE_END_T_LENGTH⟩
      = .returns none := by
  refine ⟨by decide, by decide, by decide⟩

/-- C14 (refuted by the code): only a negative end offset is compared with the start.  On
a source of ten bytes the node {start: 5, ExplicitEnd(2)} passes the only test of its
branch (2 < 10), gets the length 2 - 5 + 1 = -2 and hits the assertion `length > 0`: the
process aborts, no slice failure is recorded.  The same resolved end given as -8 is
recorded as a failure. -/
theorem explicit_end_before_start_aborts :
    slice_span ⟨[0, 1, 2, 3, 4, 5, 6, 7, 8, 9]⟩ ⟨5, 0, 2, .DRANGE_NODE_END_T_OFFSET⟩
      = .aborts
    ∧ slice_func ⟨[0, 1, 2, 3, 4, 5, 6, 7, 8, 9]⟩ ⟨5, 0, 2, .DRANGE_NODE_END_T_OFFSET⟩
        { bytes := [], slice_failure := false }
      = .aborts
    ∧ slice_func ⟨[0, 1, 2, 3, 4, 5, 6, 7, 8, 9]⟩ ⟨5, 0, -8, .DRANGE_NODE_END_T_OFFSET⟩
        { bytes := [], slice_failure := false }
      = .returns { bytes := [], slice_failure := true } := by
  refine ⟨by decide, by decide, by decide⟩

/-- C15: when every node of the SliceSpec resolves to a span (offset and length), in the
order of the nodes, `fvalue_slice` returns a new value of kind FT_BYTES whose content is
the concatenation, in node order, of the bytes `[start_i, start_i + length_i)` of the
source. -/
theorem fvalue_slice_concatenates (fv : slice_source) (d_range : List drange_node)
    (spans : List (Int × Int))
    (h : d_range.map (slice_span fv) = spans.map (fun span => Outcome.returns (some span))) :
    fvalue_slice fv d_range
      = .returns (some (.FT_BYTES, (spans.map (source_bytes fv)).flatten)) := by
  unfold fvalue_slice
  rw [slice_foreach_spans fv d_range spans [] h]
  simp

/-- C15 on a source of ten bytes with the nodes {start: -3, ToEnd} and
{start: 0, FixedLength(2)}: the bytes 7, 8, 9 and then 0, 1. -/
theorem fvalue_slice_concatenates_witness :
    fvalue_slice ⟨[0, 1, 2, 3, 4, 5, 6, 7, 8, 9]⟩
        [⟨-3, 0, 0, .DRANGE_NODE_END_T_TO_THE_END⟩, ⟨0, 2, 0, .DRANGE_NODE_END_T_LENGTH⟩]
      = .returns (some (.FT_BYTES, [7, 8, 9, 0, 1])) :=
  fvalue_slice_concatenates ⟨[0, 1, 2, 3, 4, 5, 6, 7, 8, 9]⟩
    [⟨-3, 0, 0, .DRANGE_NODE_END_T_TO_THE_END⟩, ⟨0, 2, 0, .DRANGE_NODE_END_T_LENGTH⟩]
    [(7, 3), (0, 2)] (by decide)

/-- C16: `bool_cmp_order` compares truthiness in three cases: 0 when both stored values are
zero or both are non-zero (so two different non-zero representations of true are equal),
-1 when the first is zero and the second is not, 1 when the first is non-zero and the
second is zero; in particular compare(false,false) = 0, compare(true,true) = 0,
compare(false,true) < 0 and compare(true,false) > 0. -/
theorem bool_cmp_order_three_cases (a b : Nat) :
    ((a = 0 ↔ b = 0) → bool_cmp_order a b = 0)
    ∧ (a = 0 → b ≠ 0 → bool_cmp_order a b = -1)
    ∧ (a ≠ 0 → b = 0 → bool_cmp_order a b = 1)
    ∧ bool_cmp_order 0 0 = 0 ∧ bool_cmp_order 1 1 = 0
    ∧ bool_cmp_order 0 1 < 0 ∧ bool_cmp_order 1 0 > 0 := by
  refine ⟨?_, ?_, ?_, by decide, by decide, by decide, by decide⟩
  · intro h
    unfold bool_cmp_order
    by_cases ha : a = 0
    · have hb : b = 0 := h.mp ha
      simp [ha, hb]
    · have hb : b ≠ 0 := fun e => ha (h.mpr e)
      simp [ha, hb]
  · intro ha hb
    simp [bool_cmp_order, ha, hb]
  · intro ha hb
    simp [bool_cmp_order, ha, hb]

/-- C16 at the stored values 2 and 1, two representations of true, and at 0 against 7. -/
theorem bool_cmp_order_three_cases_witness :
    bool_cmp_order 2 1 = 0 ∧ bool_cmp_order 0 7 = -1 ∧ bool_cmp_order 7 0 = 1 :=
  ⟨(bool_cmp_order_three_cases 2 1).1 (by decide),
   (bool_cmp_order_three_cases 0 7).2.1 (by decide) (by decide),
   (bool_cmp_order_three_cases 7 0).2.2.1 (by decide) (by decide)⟩

/-- C17: for every run `d` of N decimal digits with N <= 9 (so for 1 <= N <= 9), `get_nsecs`
yields the integer value of `d` times `10 ^ (9 - N)`: the fraction is left-justified into
nanosecond scale and a run of nine digits is taken as it is. -/
theorem get_nsecs_left_justified (d : List Char) (hd : ∀ c ∈ d, g_ascii_isdigit c = true)
    (h9 : d.length ≤ 9) :
    get_nsecs d = some ((digitsValue d : Int) * 10 ^ (9 - d.length)) := by
  have hs : (9 : Int) - (d.length : Int) = ((9 - d.length : Nat) : Int) := by omega
  have hr : ∀ c ∈ d.reverse, g_ascii_isdigit c = true :=
    fun c hc => hd c (List.mem_reverse.mp hc)
  unfold get_nsecs
  rw [hs, get_nsecs_loop_digits d.reverse (9 - d.length) 0 hr
    (by rw [List.length_reverse]; omega) (le_refl _) (pow_pos (by norm_num) _),
    digitsValue_eq_foldr, zero_add]

/-- C17 at the fractions `5` and `123456789`, and the relative time `1.5`. -/
theorem get_nsecs_left_justified_witness :
    get_nsecs ['5'] = some 500000000
    ∧ get_nsecs ['1', '2', '3', '4', '5', '6', '7', '8', '9'] = some 123456789
    ∧ relative_val_from_unparsed 64 64 ['1', '.', '5'] = .ok ⟨1, 500000000⟩ :=
  ⟨(get_nsecs_left_justified ['5'] (by decide) (by decide)).trans (by decide),
   (get_nsecs_left_justified ['1', '2', '3', '4', '5', '6', '7', '8', '9'] (by decide)
      (by decide)).trans (by decide),
   by decide⟩

/-- C18 as stated fails where `long` and `time_t` have 64 bits: the text
`9223372036854775808` parses to the seconds -9223372036854775808 (the conversion of the
`strtoul` result to `time_t`), and with a `-` in front the stored seconds are again
-9223372036854775808, not the negation. -/
theorem relative_sign_at_time_min :
    relative_val_from_unparsed 64 64
        ['9', '2', '2', '3', '3', '7', '2', '0', '3', '6', '8', '5', '4', '7', '7', '5', '8',
         '0', '8']
      = .ok ⟨-9223372036854775808, 0⟩
    ∧ relative_val_from_unparsed 64 64
        ['-', '9', '2', '2', '3', '3', '7', '2', '0', '3', '6', '8', '5', '4', '7', '7', '5',
         '8', '0', '8']
      = .ok ⟨-9223372036854775808, 0⟩
    ∧ relative_val_from_unparsed 64 64
        ['-', '9', '2', '2', '3', '3', '7', '2', '0', '3', '6', '8', '5', '4', '7', '7', '5',
         '8', '0', '8']
      ≠ .ok ⟨-(-9223372036854775808), -0⟩ := by
  refine ⟨by decide, by decide, by decide⟩

/-- C18 (amended): for every relative-time text `t` that does not begin with `-` and parses
to {seconds: s, nanoseconds: n}, where s is not the smallest value of `time_t`, the text
`-` followed by `t` parses to {seconds: -s, nanoseconds: -n}. -/
theorem relative_sign_negates (lbits tbits : Nat) (htb : 1 ≤ tbits) (t : List Char)
    (s n : Int) (ht : cAt t 0 ≠ '-')
    (hp : relative_val_from_unparsed lbits tbits t = .ok ⟨s, n⟩) (hs : s ≠ sminOf tbits) :
    relative_val_from_unparsed lbits tbits ('-' :: t) = .ok ⟨-s, -n⟩ := by
  unfold relative_val_from_unparsed at hp
  simp only [ht, decide_False, Bool.false_eq_true, if_false] at hp
  cases hb : relative_val_parse lbits tbits t with
  | none => rw [hb] at hp; cases hp
  | some x =>
    rw [hb] at hp
    simp only [Except.ok.injEq] at hp
    subst hp
    obtain ⟨⟨hs1, hs2⟩, hn1, hn2⟩ := relative_val_parse_range lbits tbits htb t _ hb
    simp only at hs1 hs2 hn1 hn2
    have hlo : sminOf tbits < s := lt_of_le_of_ne hs1 (Ne.symm hs)
    have hsm : sminOf tbits = -smaxOf tbits - 1 := by
      unfold sminOf smaxOf
      omega
    have e1 : toSigned tbits (-s) = -s := toSigned_id tbits htb _ (by omega) (by omega)
    have e2 : toSigned 32 (-n) = -n := toSigned32_id _ (by omega) (by omega)
    have hq : cAt ('-' :: t) 0 = '-' := rfl
    unfold relative_val_from_unparsed
    simp only [hq, decide_True, if_true, List.drop_succ_cons, List.drop_zero, hb, e1, e2]

/-- C18 (amended) at `0.000000001`: with the sign the stored time is {0, -1}. -/
theorem relative_sign_negates_witness :
    relative_val_from_unparsed 64 64
        ['-', '0', '.', '0', '0', '0', '0', '0', '0', '0', '0', '1']
      = .ok ⟨0, -1⟩ :=
  (relative_sign_negates 64 64 (by decide)
    ['0', '.', '0', '0', '0', '0', '0', '0', '0', '0', '1'] 0 1 (by decide) (by decide)
    (by decide)).trans (by decide)

/-- C19: `ftype_similar_types a b` is true exactly when `same_ftype` maps `a` and `b` to the
same kind; it holds for every pair inside each of the classes {INT8, INT16, INT24, INT32},
{UINT8, UINT16, UINT24, UINT32}, {INT40, INT48, INT56, INT64} and {UINT40, UINT48, UINT56,
UINT64}, fails for every pair taken from two different of them, holds for (INT8, INT32)
and fails for (INT8, UINT8). -/
theorem ftype_similar_types_classes :
    (∀ a b, ftype_similar_types a b = true ↔ same_ftype a = same_ftype b)
    ∧ (∀ cls ∈ integerClasses, ∀ a ∈ cls, ∀ b ∈ cls, ftype_similar_types a b = true)
    ∧ (∀ c1 ∈ integerClasses, ∀ c2 ∈ integerClasses, c1 ≠ c2 →
        ∀ a ∈ c1, ∀ b ∈ c2, ftype_similar_types a b = false)
    ∧ ftype_similar_types .FT_INT8 .FT_INT32 = true
    ∧ ftype_similar_types .FT_INT8 .FT_UINT8 = false := by
  refine ⟨?_, by decide, by decide, by decide, by decide⟩
  intro a b
  simp [ftype_similar_types]

/-- C19 at the pairs (UINT16, UINT24) of one class and (INT64, UINT64) of two classes. -/
theorem ftype_similar_types_classes_witness :
    ftype_similar_types .FT_UINT16 .FT_UINT24 = true
    ∧ ftype_similar_types .FT_INT64 .FT_UINT64 = false :=
  ⟨ftype_similar_types_classes.2.1
      [.FT_UINT8, .FT_UINT16, .FT_UINT24, .FT_UINT32] (by decide) .FT_UINT16 (by decide)
      .FT_UINT24 (by decide),
   ftype_similar_types_classes.2.2.1
      [.FT_INT40, .FT_INT48, .FT_INT56, .FT_INT64] (by decide)
      [.FT_UINT40, .FT_UINT48, .FT_UINT56, .FT_UINT64] (by decide) (by decide)
      .FT_INT64 (by decide) .FT_UINT64 (by decide)⟩

/-- C20: `ftype_register(tag, descriptor)` aborts when the slot of `tag` is already bound or
when the descriptor's tag differs from `tag`, and the table is then as it was; otherwise it
binds the slot of `tag` to the descriptor and leaves every other slot as it was.  Hence
over any sequence of registrations, from any table, a bound slot keeps its descriptor: it
is never overwritten and no tag is ever bound to a second descriptor. -/
theorem ftype_register_once (type_list : type_list_t) (ftype : ftenum) (ft : ftype_t) :
    ((type_list ftype ≠ none ∨ ft.ftype ≠ ftype) →
        ftype_register type_list ftype ft = .aborted type_list)
    ∧ (type_list ftype = none → ft.ftype = ftype →
        ∃ t1, ftype_register type_list ftype ft = .registered t1
          ∧ t1 ftype = some ft ∧ ∀ tag, tag ≠ ftype → t1 tag = type_list tag)
    ∧ (∀ (regs : List (ftenum × ftype_t)) (tag : ftenum) (d : ftype_t),
        type_list tag = some d → (ftype_register_all type_list regs).table tag = some d) := by
  refine ⟨?_, ?_, ?_⟩
  · intro h
    unfold ftype_register
    by_cases h1 : ftype ≠ ft.ftype
    · rw [if_pos h1]
    · rw [if_neg h1]
      have h2 : type_list ftype ≠ none := by
        rcases h with h | h
        · exact h
        · exact absurd (not_not.mp h1).symm h
      rw [if_pos h2]
  · intro hfree htag
    refine ⟨fun t => if t = ftype then some ft else type_list t, ?_, ?_, ?_⟩
    · unfold ftype_register
      rw [if_neg (not_not.mpr htag.symm), if_neg (not_not.mpr hfree)]
    · simp
    · intro tag hne
      simp [hne]
  · intro regs tag d h
    exact ftype_register_all_keeps regs type_list tag d h

/-- C20 on the table that holds the descriptor of the 8-bit unsigned kind and nothing else:
a second registration of that tag aborts and leaves the table as it was, and a later
registration of another kind keeps the binding. -/
theorem ftype_register_once_witness :
    ftype_register
        (fun t => if t = .FT_UINT8 then
          some ⟨.FT_UINT8, "FT_UINT8", "Unsigned integer, 1 byte", 1⟩ else none)
        .FT_UINT8 ⟨.FT_UINT8, "FT_UINT8", "Unsigned integer, 1 byte", 1⟩
      = .aborted (fun t => if t = .FT_UINT8 then
          some ⟨.FT_UINT8, "FT_UINT8", "Unsigned integer, 1 byte", 1⟩ else none)
    ∧ (ftype_register_all
        (fun t => if t = .FT_UINT8 then
          some ⟨.FT_UINT8, "FT_UINT8", "Unsigned integer, 1 byte", 1⟩ else none)
        [(.FT_UINT16, ⟨.FT_UINT16, "FT_UINT16", "Unsigned integer, 2 bytes", 2⟩)]).table
          .FT_UINT8
      = some ⟨.FT_UINT8, "FT_UINT8", "Unsigned integer, 1 byte", 1⟩ :=
  ⟨(ftype_register_once _ .FT_UINT8 _).1 (Or.inl (by decide)),
   (ftype_register_once _ .FT_UINT8 ⟨.FT_UINT8, "FT_UINT8", "Unsigned integer, 1 byte", 1⟩).2.2
      _ .FT_UINT8 _ (by decide)⟩

/-- C21: a typed accessor aborts on a value whose tag is outside its storage class, whatever
entries the descriptor holds and whatever value is to be stored: `fvalue_get_sinteger` and
`fvalue_set_sinteger` for every tag other than INT8/INT16/INT24/INT32, `fvalue_get_sinteger64`
and `fvalue_set_sinteger64` for every tag other than INT40/INT48/INT56/INT64,
`fvalue_get_uinteger64` and `fvalue_set_uinteger64` for every tag other than
UINT40/UINT48/UINT56/UINT64/BOOLEAN/EUI64, and `fvalue_set_time` for every tag that is not a
time kind. -/
theorem accessor_tag_mismatch_aborts {σ : Type} (fv : fvalue_t σ) :
    (fv.ftype.ftype ∉ [ftenum.FT_INT8, .FT_INT16, .FT_INT24, .FT_INT32] →
        fvalue_get_sinteger fv = .aborts ∧ ∀ value, fvalue_set_sinteger fv value = .aborts)
    ∧ (fv.ftype.ftype ∉ [ftenum.FT_INT40, .FT_INT48, .FT_INT56, .FT_INT64] →
        fvalue_get_sinteger64 fv = .aborts ∧ ∀ value, fvalue_set_sinteger64 fv value = .aborts)
    ∧ (fv.ftype.ftype ∉
          [ftenum.FT_UINT40, .FT_UINT48, .FT_UINT56, .FT_UINT64, .FT_BOOLEAN, .FT_EUI64] →
        fvalue_get_uinteger64 fv = .aborts ∧ ∀ value, fvalue_set_uinteger64 fv value = .aborts)
    ∧ (fv.ftype.ftype ∉ [ftenum.FT_ABSOLUTE_TIME, .FT_RELATIVE_TIME] →
        ∀ value, fvalue_set_time fv value = .aborts) := by
  refine ⟨fun h => ?_, fun h => ?_, fun h => ?_, fun h => ?_⟩
  · have ht : sinteger_tag fv.ftype.ftype = false := by
      simp only [List.mem_cons, List.mem_singleton, List.not_mem_nil, or_false] at h
      simpa [sinteger_tag] using h
    simp [fvalue_get_sinteger, fvalue_set_sinteger, call_getter, call_setter, ht]
  · have ht : sinteger64_tag fv.ftype.ftype = false := by
      simp only [List.mem_cons, List.mem_singleton, List.not_mem_nil, or_false] at h
      simpa [sinteger64_tag] using h
    simp [fvalue_get_sinteger64, fvalue_set_sinteger64, call_getter, call_setter, ht]
  · have ht : uinteger64_tag fv.ftype.ftype = false := by
      simp only [List.mem_cons, List.mem_singleton, List.not_mem_nil, or_false] at h
      simpa [uinteger64_tag] using h
    simp [fvalue_get_uinteger64, fvalue_set_uinteger64, call_getter, call_setter, ht]
  · have ht : IS_FT_TIME fv.ftype.ftype = false := by
      simp only [List.mem_cons, List.mem_singleton, List.not_mem_nil, or_false] at h
      simpa [IS_FT_TIME] using h
    simp [fvalue_set_time, call_setter, ht]

/-- C21, an instance: a value of kind UINT8 that carries the signed entries aborts in the
signed accessors, and the same entries under the tag INT32 store and return the value. -/
theorem accessor_tag_mismatch_aborts_witness :
    (fvalue_get_sinteger (⟨sinteger_accessors .FT_UINT8, 5⟩ : fvalue_t Int) = .aborts
      ∧ ∀ value, fvalue_set_sinteger (⟨sinteger_accessors .FT_UINT8, 5⟩ : fvalue_t Int) value
          = .aborts)
    ∧ fvalue_get_sinteger (⟨sinteger_accessors .FT_INT32, 5⟩ : fvalue_t Int) = .returns 5 :=
  ⟨(accessor_tag_mismatch_aborts ⟨sinteger_accessors .FT_UINT8, 5⟩).1 (by decide), rfl⟩

/-- C22: the text `r` that the matched calendar layout leaves unconsumed in an absolute time;
the matched layout is the first of the six, in the order of the attempts, that `strptime`
matches.  If `r` is empty the nanoseconds are 0.  If `r` is not empty the parse succeeds only
when the matched layout has a seconds field and `r` is `.` followed by a non-empty run of
digits, and the nanoseconds are those `get_nsecs` computes from the run, as in the relative
case; every other leftover is the parse error.  The layouts with a seconds field are the
month-name layout and the two numeric layouts that end in `%S`; a layout without seconds
(`%Y-%m-%d %H:%M`, `%Y-%m-%d %H`, `%Y-%m-%d`) followed by a non-empty `r` fails, and a layout
with seconds followed by `.123` yields 123000000 ns. -/
theorem absolute_leftover (strptime : strptime_t) (mktime : tm → Int) (s layout r : List Char)
    (t : tm) (hlen : 8 ≤ s.length)
    (hm : absolute_matched_layout strptime s = (some (layout, r), t)) (hr : NUL ∉ r) :
    absolute_match strptime s = (some r, layout_has_seconds layout, t)
    ∧ (layout ∈ [layout_month_name, layout_iso8601, layout_seconds] ∧
          layout_has_seconds layout = true
        ∨ layout ∈ [layout_minutes, layout_hours, layout_date] ∧
          layout_has_seconds layout = false)
    ∧ (∀ v, absolute_val_from_string strptime mktime s = .ok v → r = [] → v.nsecs = 0)
    ∧ (∀ v, absolute_val_from_string strptime mktime s = .ok v → r ≠ [] →
        layout_has_seconds layout = true ∧
          ∃ d, r = '.' :: d ∧ d ≠ [] ∧ (∀ c ∈ d, g_ascii_isdigit c = true)
            ∧ get_nsecs d = some v.nsecs)
    ∧ (r ≠ [] →
        (layout_has_seconds layout = false ∨
          ¬ ∃ d, r = '.' :: d ∧ d ≠ [] ∧ ∀ c ∈ d, g_ascii_isdigit c = true) →
        absolute_val_from_string strptime mktime s = .error (msgNotValidAbsTime s))
    ∧ (layout ∈ [layout_minutes, layout_hours, layout_date] → r ≠ [] →
        absolute_val_from_string strptime mktime s = .error (msgNotValidAbsTime s))
    ∧ (mktime { t with tm_isdst := -1 } ≠ -1 → r = [] →
        absolute_val_from_string strptime mktime s
          = .ok ⟨mktime { t with tm_isdst := -1 }, 0⟩)
    ∧ (mktime { t with tm_isdst := -1 } ≠ -1 →
        layout ∈ [layout_month_name, layout_iso8601, layout_seconds] →
        ∀ d n, r = '.' :: d → d ≠ [] → get_nsecs d = some n →
          absolute_val_from_string strptime mktime s
            = .ok ⟨mktime { t with tm_isdst := -1 }, n⟩)
    ∧ (mktime { t with tm_isdst := -1 } ≠ -1 →
        layout ∈ [layout_month_name, layout_iso8601, layout_seconds] → r = ".123".toList →
        absolute_val_from_string strptime mktime s
          = .ok ⟨mktime { t with tm_isdst := -1 }, 123000000⟩) := by
  have hmatch : absolute_match strptime s = (some r, layout_has_seconds layout, t) := by
    rw [absolute_match_matched_layout, hm]
  have hwith : ∀ l ∈ [layout_month_name, layout_iso8601, layout_seconds],
      layout_has_seconds l = true := by decide
  have hwithout : ∀ l ∈ [layout_minutes, layout_hours, layout_date],
      layout_has_seconds l = false := by decide
  have hsix : layout ∈ [layout_month_name, layout_iso8601, layout_seconds] ∨
      layout ∈ [layout_minutes, layout_hours, layout_date] := by
    have h := absolute_matched_layout_mem strptime s layout r t hm
    simp only [List.mem_cons, List.mem_singleton, List.not_mem_nil, or_false] at h ⊢
    tauto
  have hl : ¬ s.length < 8 := by omega
  have hnone : absolute_nsecs (layout_has_seconds layout) r = none →
      absolute_val_from_string strptime mktime s = .error (msgNotValidAbsTime s) := by
    intro hn
    simp only [absolute_val_from_string, if_neg hl, hmatch, hn]
  have hnsecs : ∀ n, absolute_nsecs (layout_has_seconds layout) r = some n →
      absolute_val_from_string strptime mktime s
        = if mktime { t with tm_isdst := -1 } = -1 then .error (msgNotValidAbsTime s)
          else .ok ⟨mktime { t with tm_isdst := -1 }, n⟩ := by
    intro n hn
    simp only [absolute_val_from_string, if_neg hl, hmatch, hn]
  have hok : ∀ v, absolute_val_from_string strptime mktime s = .ok v →
      absolute_nsecs (layout_has_seconds layout) r = some v.nsecs := by
    intro v hv
    cases hn : absolute_nsecs (layout_has_seconds layout) r with
    | none => rw [hnone hn] at hv; exact absurd hv (by simp)
    | some n =>
      rw [hnsecs n hn] at hv
      split_ifs at hv
      simp only [Except.ok.injEq] at hv
      rw [← hv]
  have herr : ∀ e, absolute_val_from_string strptime mktime s = .error e →
      e = msgNotValidAbsTime s := by
    intro e hv
    cases hn : absolute_nsecs (layout_has_seconds layout) r with
    | none => rw [hnone hn] at hv; simp only [Except.error.injEq] at hv; exact hv.symm
    | some n =>
      rw [hnsecs n hn] at hv
      split_ifs at hv
      simp only [Except.error.injEq] at hv
      exact hv.symm
  have hsome : ∀ v, absolute_val_from_string strptime mktime s = .ok v → r ≠ [] →
      layout_has_seconds layout = true ∧
        ∃ d, r = '.' :: d ∧ d ≠ [] ∧ (∀ c ∈ d, g_ascii_isdigit c = true)
          ∧ get_nsecs d = some v.nsecs := by
    intro v hv hne
    obtain ⟨hs, d, hrd, hd, hg⟩ :=
      absolute_nsecs_some (layout_has_seconds layout) r v.nsecs hr hne (hok v hv)
    exact ⟨hs, d, hrd, hd, get_nsecs_some_digits d _ hg, hg⟩
  have hfail : r ≠ [] →
      (layout_has_seconds layout = false ∨
        ¬ ∃ d, r = '.' :: d ∧ d ≠ [] ∧ ∀ c ∈ d, g_ascii_isdigit c = true) →
      absolute_val_from_string strptime mktime s = .error (msgNotValidAbsTime s) := by
    intro hne hbad
    cases hv : absolute_val_from_string strptime mktime s with
    | error e => rw [herr e hv]
    | ok v =>
      obtain ⟨hs, d, hrd, hd, hdig, _⟩ := hsome v hv hne
      rcases hbad with hbad | hbad
      · rw [hs] at hbad
        exact absurd hbad (by decide)
      · exact absurd ⟨d, hrd, hd, hdig⟩ hbad
  have hdot : ∀ d n, mktime { t with tm_isdst := -1 } ≠ -1 →
      layout ∈ [layout_month_name, layout_iso8601, layout_seconds] →
      r = '.' :: d → d ≠ [] → get_nsecs d = some n →
      absolute_val_from_string strptime mktime s
        = .ok ⟨mktime { t with tm_isdst := -1 }, n⟩ := by
    intro d n hk hs hrd hd hg
    rw [hnsecs n (by rw [hwith layout hs, hrd]; exact absolute_nsecs_dot d n hd hg), if_neg hk]
  refine ⟨hmatch, ?_, fun v hv he => ?_, hsome, hfail,
    fun hl hne => hfail hne (Or.inl (hwithout layout hl)), fun hk he => ?_,
    fun hk hs d n hrd hd hg => hdot d n hk hs hrd hd hg,
    fun hk hs hrd => hdot "123".toList 123000000 hk hs hrd (by decide) (by decide)⟩
  · rcases hsix with h | h
    · exact Or.inl ⟨h, hwith layout h⟩
    · exact Or.inr ⟨h, hwithout layout h⟩
  · have h := hok v hv
    rw [he, absolute_nsecs_nil] at h
    exact (Option.some.inj h).symm
  · rw [hnsecs 0 (by rw [he]; exact absolute_nsecs_nil _), if_neg hk]

/-- C22, two instances.  With a `strptime` that matches the layout with seconds on the first
19 characters, `2011-07-04 12:34:56.123` yields 123000000 ns; with a `strptime` that matches
the layout `%Y-%m-%d %H:%M` on the first 16 characters, `2011-07-04 12:34.5` is rejected. -/
theorem absolute_leftover_witness :
    absolute_val_from_string
        (fun text layout t =>
          if layout = layout_seconds then (some (text.drop 19), t) else (none, t))
        (fun _ => 1309782896) "2011-07-04 12:34:56.123".toList
      = .ok ⟨1309782896, 123000000⟩
    ∧ absolute_val_from_string
        (fun text layout t =>
          if layout = layout_minutes then (some (text.drop 16), t) else (none, t))
        (fun _ => 1309782840) "2011-07-04 12:34.5".toList
      = .error (msgNotValidAbsTime "2011-07-04 12:34.5".toList) :=
  ⟨(absolute_leftover
      (fun text layout t =>
        if layout = layout_seconds then (some (text.drop 19), t) else (none, t))
      (fun _ => 1309782896) "2011-07-04 12:34:56.123".toList layout_seconds ".123".toList
      ⟨0, 0, 0, 0, 0, 0, 0, 0, 0⟩ (by decide) (by decide) (by decide)).2.2.2.2.2.2.2.2
    (by decide) (by decide) rfl,
   (absolute_leftover
      (fun text layout t =>
        if layout = layout_minutes then (some (text.drop 16), t) else (none, t))
      (fun _ => 1309782840) "2011-07-04 12:34.5".toList layout_minutes ".5".toList
      ⟨0, 0, 0, 0, 0, 0, 0, 0, 0⟩ (by decide) (by decide) (by decide)).2.2.2.2.2.1
    (by decide) (by decide)⟩

/-- C23: `eui64_from_unparsed` tries the unsigned 64-bit numeric parse first.  Every text that
the numeric parse accepts yields that number, whatever the hex decoding would give; otherwise
a text that decodes to exactly eight bytes `b0 .. b7` yields the big-endian value
`b0 * 2^56 + b1 * 2^48 + ... + b7`; otherwise the parse fails with the message
`"s" is not a valid EUI-64 address.` -/
theorem eui64_try_order (hex_str_to_bytes : List Char → Option (List Nat)) (s : List Char) :
    (∀ v, uint64_from_unparsed s = .ok v → eui64_from_unparsed hex_str_to_bytes s = .ok v)
    ∧ (∀ e b0 b1 b2 b3 b4 b5 b6 b7, uint64_from_unparsed s = .error e →
        hex_str_to_bytes s = some [b0, b1, b2, b3, b4, b5, b6, b7] →
        (∀ b ∈ [b0, b1, b2, b3, b4, b5, b6, b7], b ≤ 255) →
        eui64_from_unparsed hex_str_to_bytes s
          = .ok (b0 * 2 ^ 56 + b1 * 2 ^ 48 + b2 * 2 ^ 40 + b3 * 2 ^ 32 + b4 * 2 ^ 24
              + b5 * 2 ^ 16 + b6 * 2 ^ 8 + b7))
    ∧ (∀ e, uint64_from_unparsed s = .error e →
        (hex_str_to_bytes s = none ∨ ∃ bytes, hex_str_to_bytes s = some bytes ∧ bytes.length ≠ 8) →
        eui64_from_unparsed hex_str_to_bytes s = .error (msgNotEui64 s)) := by
  refine ⟨fun v hv => ?_, fun e b0 b1 b2 b3 b4 b5 b6 b7 he hb hle => ?_, fun e he hb => ?_⟩
  · simp only [eui64_from_unparsed, hv]
  · simp only [List.mem_cons, List.mem_singleton, List.not_mem_nil, or_false,
      forall_eq_or_imp, forall_eq] at hle
    obtain ⟨h0, h1, h2, h3, h4, h5, h6, h7⟩ := hle
    simp only [eui64_from_unparsed, he, hb, GUINT64_FROM_BE, List.length_cons, List.length_nil,
      List.take, List.foldl_cons, List.foldl_nil]
    simp only [Nat.mod_eq_of_lt (show b0 < 256 by omega), Nat.mod_eq_of_lt (show b1 < 256 by omega),
      Nat.mod_eq_of_lt (show b2 < 256 by omega), Nat.mod_eq_of_lt (show b3 < 256 by omega),
      Nat.mod_eq_of_lt (show b4 < 256 by omega), Nat.mod_eq_of_lt (show b5 < 256 by omega),
      Nat.mod_eq_of_lt (show b6 < 256 by omega), Nat.mod_eq_of_lt (show b7 < 256 by omega)]
    norm_num
    ring
  · rcases hb with hb | ⟨bytes, hb, hlen⟩
    · simp only [eui64_from_unparsed, he, hb]
    · simp only [eui64_from_unparsed, he, hb, if_pos hlen]

/-- C23, instances: the text `11` is the number 11 although its hex reading is the byte 17;
a colon-separated address is assembled with the first byte as the most significant; a
decoding of seven bytes is rejected. -/
theorem eui64_try_order_witness :
    eui64_from_unparsed (fun _ => some [17]) "11".toList = .ok 11
    ∧ eui64_from_unparsed (fun _ => some [0, 17, 34, 51, 68, 85, 102, 119])
        "00:11:22:33:44:55:66:77".toList = .ok 0x0011223344556677
    ∧ eui64_from_unparsed (fun _ => some [0, 17, 34, 51, 68, 85, 102])
        "00:11:22:33:44:55:66".toList = .error (msgNotEui64 "00:11:22:33:44:55:66".toList) :=
  ⟨(eui64_try_order (fun _ => some [17]) "11".toList).1 11 (by decide), by decide, by decide⟩

/-- C24: each of the four integer comparators is a total order on the stored values: its
result is -1, 0 or 1; it is 0 exactly for equal values; swapping the arguments negates it; it
is transitive; and it is negative exactly when the first value is numerically smaller, in the
signedness of the kind. -/
theorem integer_cmp_order_total :
    (∀ a b : Nat, (uinteger_cmp_order a b = -1 ∨ uinteger_cmp_order a b = 0
          ∨ uinteger_cmp_order a b = 1)
        ∧ (uinteger_cmp_order a b = 0 ↔ a = b)
        ∧ uinteger_cmp_order a b = -uinteger_cmp_order b a
        ∧ (uinteger_cmp_order a b < 0 ↔ a < b)
        ∧ (∀ c, uinteger_cmp_order a b < 0 → uinteger_cmp_order b c < 0 →
            uinteger_cmp_order a c < 0))
    ∧ (∀ a b : Int, (sinteger_cmp_order a b = -1 ∨ sinteger_cmp_order a b = 0
          ∨ sinteger_cmp_order a b = 1)
        ∧ (sinteger_cmp_order a b = 0 ↔ a = b)
        ∧ sinteger_cmp_order a b = -sinteger_cmp_order b a
        ∧ (sinteger_cmp_order a b < 0 ↔ a < b)
        ∧ (∀ c, sinteger_cmp_order a b < 0 → sinteger_cmp_order b c < 0 →
            sinteger_cmp_order a c < 0))
    ∧ (∀ a b : Nat, (uinteger64_cmp_order a b = -1 ∨ uinteger64_cmp_order a b = 0
          ∨ uinteger64_cmp_order a b = 1)
        ∧ (uinteger64_cmp_order a b = 0 ↔ a = b)
        ∧ uinteger64_cmp_order a b = -uinteger64_cmp_order b a
        ∧ (uinteger64_cmp_order a b < 0 ↔ a < b)
        ∧ (∀ c, uinteger64_cmp_order a b < 0 → uinteger64_cmp_order b c < 0 →
            uinteger64_cmp_order a c < 0))
    ∧ (∀ a b : Int, (sinteger64_cmp_order a b = -1 ∨ sinteger64_cmp_order a b = 0
          ∨ sinteger64_cmp_order a b = 1)
        ∧ (sinteger64_cmp_order a b = 0 ↔ a = b)
        ∧ sinteger64_cmp_order a b = -sinteger64_cmp_order b a
        ∧ (sinteger64_cmp_order a b < 0 ↔ a < b)
        ∧ (∀ c, sinteger64_cmp_order a b < 0 → sinteger64_cmp_order b c < 0 →
            sinteger64_cmp_order a c < 0))
    ∧ sinteger_cmp_order (-1) 1 = -1 ∧ sinteger64_cmp_order (-1) 1 = -1 := by
  refine ⟨fun a b => ?_, fun a b => ?_, fun a b => ?_, fun a b => ?_, by decide, by decide⟩
  · refine ⟨?_, ?_, ?_, ?_, fun c h1 h2 => ?_⟩ <;> unfold uinteger_cmp_order at * <;>
      split_ifs at * <;> first | omega | simp_all
  · refine ⟨?_, ?_, ?_, ?_, fun c h1 h2 => ?_⟩ <;> unfold sinteger_cmp_order at * <;>
      split_ifs at * <;> first | omega | simp_all
  · refine ⟨?_, ?_, ?_, ?_, fun c h1 h2 => ?_⟩ <;> unfold uinteger64_cmp_order at * <;>
      split_ifs at * <;> first | omega | simp_all
  · refine ⟨?_, ?_, ?_, ?_, fun c h1 h2 => ?_⟩ <;> unfold sinteger64_cmp_order at * <;>
      split_ifs at * <;> first | omega | simp_all

/-- C25, the claim as stated fails: on the table before any registration the lookup of the
tag FT_UINT8 passes its one assertion and yields the NULL of the unbound slot, and
`ftype_name`, `ftype_pretty_name` and `ftype_length` read their field through that NULL
pointer; neither the lookup nor a query aborts by a check. -/
theorem lookup_unbound_no_check :
    FTYPE_LOOKUP (fun _ => none) .FT_UINT8 = .returns none
    ∧ FTYPE_LOOKUP (fun _ => none) .FT_UINT8 ≠ .aborts
    ∧ ftype_name (fun _ => none) .FT_UINT8 = .null_dereference
    ∧ ftype_name (fun _ => none) .FT_UINT8 ≠ .aborts
    ∧ ftype_pretty_name (fun _ => none) .FT_UINT8 = .null_dereference
    ∧ ftype_pretty_name (fun _ => none) .FT_UINT8 ≠ .aborts
    ∧ ftype_length (fun _ => none) .FT_UINT8 = .null_dereference
    ∧ ftype_length (fun _ => none) .FT_UINT8 ≠ .aborts := by
  simp [FTYPE_LOOKUP, ftype_name, ftype_pretty_name, ftype_length, read_field]

/-- C25, amended: the lookup tests only that the tag is inside the enumeration, which every
tag is; it never aborts and yields the content of the slot.  For a tag bound to a descriptor
`ftype_name`, `ftype_pretty_name` and `ftype_length` return the fields of that descriptor.
For an unbound tag the lookup yields NULL and each of the three queries reads through it
without a check: the outcome is a NULL dereference, not an abort. -/
theorem lookup_yields_slot (type_list : type_list_t) (ftype : ftenum) :
    FTYPE_LOOKUP type_list ftype = .returns (type_list ftype)
    ∧ (∀ ft, type_list ftype = some ft →
        ftype_name type_list ftype = .returns ft.name
        ∧ ftype_pretty_name type_list ftype = .returns ft.pretty_name
        ∧ ftype_length type_list ftype = .returns ft.wire_size)
    ∧ (type_list ftype = none →
        ftype_name type_list ftype = .null_dereference
        ∧ ftype_pretty_name type_list ftype = .null_dereference
        ∧ ftype_length type_list ftype = .null_dereference) := by
  refine ⟨rfl, fun ft h => ?_, fun h => ?_⟩ <;>
    simp [FTYPE_LOOKUP, ftype_name, ftype_pretty_name, ftype_length, read_field, h]

/-- C25, an instance: on the table that binds FT_UINT8 alone the three queries return the
fields registered for FT_UINT8, and `ftype_name` of FT_UINT16 is a NULL dereference. -/
theorem lookup_yields_slot_witness :
    (ftype_name (fun t => if t = .FT_UINT8 then
          some ⟨.FT_UINT8, "FT_UINT8", "Unsigned integer, 1 byte", 1⟩ else none) .FT_UINT8
        = .returns "FT_UINT8"
      ∧ ftype_pretty_name (fun t => if t = .FT_UINT8 then
          some ⟨.FT_UINT8, "FT_UINT8", "Unsigned integer, 1 byte", 1⟩ else none) .FT_UINT8
        = .returns "Unsigned integer, 1 byte"
      ∧ ftype_length (fun t => if t = .FT_UINT8 then
          some ⟨.FT_UINT8, "FT_UINT8", "Unsigned integer, 1 byte", 1⟩ else none) .FT_UINT8
        = .returns 1)
    ∧ ftype_name (fun t => if t = .FT_UINT8 then
          some ⟨.FT_UINT8, "FT_UINT8", "Unsigned integer, 1 byte", 1⟩ else none) .FT_UINT16
        = .null_dereference :=
  ⟨(lookup_yields_slot (fun t => if t = .FT_UINT8 then
        some ⟨.FT_UINT8, "FT_UINT8", "Unsigned integer, 1 byte", 1⟩ else none) .FT_UINT8).2.1
      ⟨.FT_UINT8, "FT_UINT8", "Unsigned integer, 1 byte", 1⟩ rfl,
   ((lookup_yields_slot (fun t => if t = .FT_UINT8 then
        some ⟨.FT_UINT8, "FT_UINT8", "Unsigned integer, 1 byte", 1⟩ else none) .FT_UINT16).2.2
      rfl).1⟩

/-- C26: the bounds test of a FixedLength node is defeated by the overflow of
`start_offset + length`.  On a source of ten bytes the node with start 5 and length
2147483647 records no failure and the source kind's slice operation is called with offset 5
and length 2147483647, although 5 + 2147483647 exceeds the logical length 10. -/
theorem slice_call_beyond_length :
    fvalue_length ⟨List.range 10⟩ = 10
    ∧ slice_span ⟨List.range 10⟩ ⟨5, 2147483647, 0, .DRANGE_NODE_END_T_LENGTH⟩
        = .returns (some (5, 2147483647))
    ∧ ¬ ((5 : Int) + 2147483647 ≤ 10)
    ∧ slice_func ⟨List.range 10⟩ ⟨5, 2147483647, 0, .DRANGE_NODE_END_T_LENGTH⟩
          { bytes := [], slice_failure := false }
        = .returns { bytes := [5, 6, 7, 8, 9], slice_failure := false } := by
  decide

/-- C27: for a fractional run of more than nine decimal digits `get_nsecs` succeeds if and
only if every digit after the ninth is `0`, and it then yields the integer value of the first
nine digits; and every text that contains a character that is no digit is rejected. -/
theorem get_nsecs_beyond_nanoseconds (d : List Char)
    (hd : ∀ c ∈ d, g_ascii_isdigit c = true) (hN : 9 < d.length) :
    ((∃ n, get_nsecs d = some n) ↔ ∀ c ∈ d.drop 9, c = '0')
    ∧ ((∀ c ∈ d.drop 9, c = '0') →
        get_nsecs d = some ((digitsValue (d.take 9) : Nat) : Int))
    ∧ (¬ (∀ c ∈ d.drop 9, c = '0') → get_nsecs d = none)
    ∧ (∀ s : List Char, (∃ c ∈ s, g_ascii_isdigit c = false) → get_nsecs s = none) := by
  have h := get_nsecs_long d hd hN
  refine ⟨?_, fun hz => ?_, fun hz => ?_, fun s hs => ?_⟩
  · by_cases hz : ∀ c ∈ d.drop 9, c = '0'
    · rw [h, if_pos hz]
      exact ⟨fun _ => hz, fun _ => ⟨_, rfl⟩⟩
    · rw [h, if_neg hz]
      exact ⟨fun ⟨n, hn⟩ => absurd hn (by simp), fun hz1 => absurd hz1 hz⟩
  · rw [h, if_pos hz]
  · rw [h, if_neg hz]
  · obtain ⟨c, hc, hnd⟩ := hs
    cases hg : get_nsecs s with
    | none => rfl
    | some n =>
      have := get_nsecs_some_digits s n hg c hc
      rw [hnd] at this
      exact absurd this (by decide)

/-- C27, instances: `1000000000` gives 100000000 ns and `0000000001` is rejected, also as
the fractions of the relative times `0.1000000000` and `0.0000000001`. -/
theorem get_nsecs_beyond_nanoseconds_witness :
    (((∃ n, get_nsecs "1000000000".toList = some n)
        ↔ ∀ c ∈ "1000000000".toList.drop 9, c = '0')
      ∧ ((∀ c ∈ "1000000000".toList.drop 9, c = '0') →
          get_nsecs "1000000000".toList
            = some ((digitsValue ("1000000000".toList.take 9) : Nat) : Int))
      ∧ (¬ (∀ c ∈ "1000000000".toList.drop 9, c = '0') → get_nsecs "1000000000".toList = none)
      ∧ (∀ s : List Char, (∃ c ∈ s, g_ascii_isdigit c = false) → get_nsecs s = none))
    ∧ get_nsecs "1000000000".toList = some 100000000
    ∧ get_nsecs "0000000001".toList = none
    ∧ get_nsecs "12x".toList = none
    ∧ relative_val_from_unparsed 64 64 "0.1000000000".toList = .ok ⟨0, 100000000⟩
    ∧ relative_val_from_unparsed 64 64 "0.0000000001".toList
        = .error (msgNotValidTime "0.0000000001".toList) :=
  ⟨get_nsecs_beyond_nanoseconds "1000000000".toList (by decide) (by decide), by decide,
    by decide, by decide, by decide, by decide⟩

/-- C28, the claim as stated fails: the 5-byte unsigned kind formats the value 1 in hex with
sixteen digits, not with the ten digits of its byte width, and the display mode
`BASE_HEX_DEC`, which is not `BASE_HEX`, formats the byte 255 in hex, not in decimal. -/
theorem unsigned_hex_width_not_exact :
    val_to_string_repr .FT_UINT40 (store .FT_UINT40 1) BASE_HEX
        = some "0x0000000000000001".toList
    ∧ val_to_string_repr .FT_UINT40 (store .FT_UINT40 1) BASE_HEX
        ≠ some ('0' :: 'x' :: hexFixed (2 * wire_size .FT_UINT40) 1)
    ∧ BASE_HEX_DEC ≠ BASE_HEX
    ∧ val_to_string_repr .FT_UINT8 (store .FT_UINT8 255) BASE_HEX_DEC = some "0xff".toList
    ∧ val_to_string_repr .FT_UINT8 (store .FT_UINT8 255) BASE_HEX_DEC ≠ some (decimal 255) := by
  decide

/-- C28, amended: for every unsigned integer kind and every stored in-range value, when the
display mode is `BASE_HEX` or `BASE_HEX_DEC` the formatted text is `0x` followed by the
zero-padded hex numeral of the value with 2, 4, 6 and 8 digits for the kinds of 1, 2, 3 and 4
bytes and 16 digits for each of the kinds of 5, 6, 7 and 8 bytes; when the low byte of the
display mode is neither of the two, the text is the decimal numeral of the value. -/
theorem unsigned_hex_format (ft : ftenum) (v field_display : Nat) (hft : ft ∈ unsignedKinds)
    (hv : v ≤ umaxOf (widthBits ft)) :
    ((field_display = BASE_HEX ∨ field_display = BASE_HEX_DEC) →
        val_to_string_repr ft (store ft v) field_display
          = some ('0' :: 'x' :: hexFixed (hexDigitsOf ft) v))
    ∧ ((field_display &&& 0xff ≠ BASE_HEX ∧ field_display &&& 0xff ≠ BASE_HEX_DEC) →
        val_to_string_repr ft (store ft v) field_display = some (decimal v))
    ∧ (hexFixed (hexDigitsOf ft) v).length = hexDigitsOf ft
    ∧ (hexFixed (hexDigitsOf ft) v).foldl (fun a c => a * 16 + digitValue c) 0 = v
    ∧ unsignedKinds.map hexDigitsOf = [2, 4, 6, 8, 16, 16, 16, 16] := by
  have hlow : (field_display = BASE_HEX ∨ field_display = BASE_HEX_DEC) →
      (field_display &&& 0xff = BASE_HEX ∨ field_display &&& 0xff = BASE_HEX_DEC) := by
    rintro (h | h)
    · subst h; left; decide
    · subst h; right; decide
  have hnot : (field_display &&& 0xff ≠ BASE_HEX ∧ field_display &&& 0xff ≠ BASE_HEX_DEC) →
      ¬ (field_display = BASE_HEX ∨ field_display = BASE_HEX_DEC) := by
    intro h1 h2
    rcases hlow h2 with h | h
    · exact h1.1 h
    · exact h1.2 h
  have hcast : ((v : Int)).toNat = v := Int.toNat_natCast v
  refine ⟨fun hx => ?_, fun hd => ?_, hexFixed_length _ _, ?_, by decide⟩
  · have hx32 := hlow hx
    simp only [unsignedKinds, List.mem_cons, List.mem_singleton, List.not_mem_nil,
      or_false] at hft
    rcases hft with h | h | h | h | h | h | h | h <;> subst h <;>
      simp only [val_to_string_repr, store, hcast, uinteger_to_repr, uinteger64_to_repr,
        if_pos hx32, if_pos hx, guint8_to_hex, word_to_hex, dword_to_hex, qword_to_hex] <;>
      first
        | rfl
        | (have h24 := hex24_digits v
           simp only [guint8_to_hex, word_to_hex] at h24
           rw [h24]
           rfl)
  · have hn := hnot hd
    have hn32 : ¬ (field_display &&& 0xff = BASE_HEX ∨ field_display &&& 0xff = BASE_HEX_DEC) :=
      fun h => h.elim hd.1 hd.2
    simp only [unsignedKinds, List.mem_cons, List.mem_singleton, List.not_mem_nil,
      or_false] at hft
    rcases hft with h | h | h | h | h | h | h | h <;> subst h <;>
      simp only [val_to_string_repr, store, hcast, uinteger_to_repr, uinteger64_to_repr,
        if_neg hn32, if_neg hn, guint32_to_str_buf, guint64_to_str_buf] <;>
      simp only [umaxOf, widthBits, wire_size] at hv <;>
      rw [Nat.mod_eq_of_lt (by omega)]
  · rw [hexFixed_value]
    simp only [unsignedKinds, List.mem_cons, List.mem_singleton, List.not_mem_nil,
      or_false] at hft
    rcases hft with h | h | h | h | h | h | h | h <;> subst h <;>
      simp only [umaxOf, widthBits, wire_size] at hv <;>
      simp only [hexDigitsOf, wire_size] <;>
      norm_num <;> omega

/-- C28, instances: the 3-byte kind writes six hex digits and, in decimal mode, the decimal
numeral. -/
theorem unsigned_hex_format_witness :
    (((BASE_HEX = BASE_HEX ∨ BASE_HEX = BASE_HEX_DEC) →
        val_to_string_repr .FT_UINT24 (store .FT_UINT24 (1193046 : Nat)) BASE_HEX
          = some ('0' :: 'x' :: hexFixed (hexDigitsOf .FT_UINT24) 1193046))
      ∧ ((BASE_HEX &&& 0xff ≠ BASE_HEX ∧ BASE_HEX &&& 0xff ≠ BASE_HEX_DEC) →
        val_to_string_repr .FT_UINT24 (store .FT_UINT24 (1193046 : Nat)) BASE_HEX
          = some (decimal 1193046))
      ∧ (hexFixed (hexDigitsOf .FT_UINT24) 1193046).length = hexDigitsOf .FT_UINT24
      ∧ (hexFixed (hexDigitsOf .FT_UINT24) 1193046).foldl (fun a c => a * 16 + digitValue c) 0
          = 1193046
      ∧ unsignedKinds.map hexDigitsOf = [2, 4, 6, 8, 16, 16, 16, 16])
    ∧ val_to_string_repr .FT_UINT24 (store .FT_UINT24 1193046) BASE_HEX
        = some "0x123456".toList
    ∧ val_to_string_repr .FT_UINT24 (store .FT_UINT24 1193046) BASE_DEC
        = some "1193046".toList
    ∧ val_to_string_repr .FT_UINT64 (store .FT_UINT64 255) BASE_HEX_DEC
        = some "0x00000000000000ff".toList :=
  ⟨unsigned_hex_format .FT_UINT24 1193046 BASE_HEX (by decide) (by decide), by decide,
    by decide, by decide⟩

/-- C29: the fixed per-kind length is sufficient.  For every kind that
`ftype_register_integers` registers with a constant length (all but the hardware address),
every value its storage member can hold and every display mode, the text the kind's format
writes is at most as long as the constant the kind's length entry returns, so the text and
its terminator fit the `len + 1` bytes allocated; the constants are 11 for the signed and 10
for the unsigned kinds of up to 32 bits and for the IPX network number, 20 for the signed and
the unsigned kinds above 32 bits, 7 for the character kind and 1 for the boolean. -/
theorem formatted_length_sufficient (ft : ftenum) (v : fvalue_value) (field_display len : Nat)
    (text : List Char) (hv : v.inStorage = true)
    (ht : val_to_string_repr_registered ft v field_display = some text)
    (hl : len_string_repr ft = some len) :
    text.length ≤ len ∧ text.length + 1 ≤ len + 1
    ∧ len_string_repr .FT_INT32 = some 11 ∧ len_string_repr .FT_UINT32 = some 10
    ∧ len_string_repr .FT_IPXNET = some 10 ∧ len_string_repr .FT_INT64 = some 20
    ∧ len_string_repr .FT_UINT64 = some 20 ∧ len_string_repr .FT_CHAR = some 7
    ∧ len_string_repr .FT_BOOLEAN = some 1 := by
  refine ⟨?_, ?_, rfl, rfl, rfl, rfl, rfl, rfl, rfl⟩
  all_goals
    cases v with
    | uinteger u =>
      have h1 := uinteger_to_repr_length ft u field_display
      have h2 := uinteger_to_repr_length ft u BASE_HEX
      have h3 := char_to_repr_length u field_display
      cases ft <;>
        simp only [val_to_string_repr_registered, val_to_string_repr, len_string_repr,
          ipxnet_to_repr, Option.some.injEq, reduceCtorEq, uinteger_repr_len, char_repr_len,
          ipxnet_repr_len] at ht hl <;>
        subst ht <;> subst hl <;> omega
    | sinteger i =>
      have h1 := integer_to_repr_length i
      cases ft <;>
        simp only [val_to_string_repr_registered, val_to_string_repr, len_string_repr,
          Option.some.injEq, reduceCtorEq, integer_repr_len] at ht hl <;>
        subst ht <;> subst hl <;> omega
    | uinteger64 u =>
      have h1 := uinteger64_to_repr_length u field_display
      cases ft <;>
        simp only [val_to_string_repr_registered, val_to_string_repr, len_string_repr,
          boolean_to_repr, Option.some.injEq, reduceCtorEq, uinteger64_repr_len,
          boolean_repr_len] at ht hl <;>
        subst ht <;> subst hl <;> first | omega | simp
    | sinteger64 i =>
      simp only [fvalue_value.inStorage, decide_eq_true_eq] at hv
      have h1 := integer64_to_repr_length i hv.1 hv.2
      cases ft <;>
        simp only [val_to_string_repr_registered, val_to_string_repr, len_string_repr,
          Option.some.injEq, reduceCtorEq, integer64_repr_len] at ht hl <;>
        subst ht <;> subst hl <;> omega

/-- C29, instances: the smallest 32-bit and 64-bit signed numbers fill their 11 and 20
characters, and a 24-bit unsigned number in hex stays below its 10. -/
theorem formatted_length_sufficient_witness :
    ((integer_to_repr (-2147483648)).length ≤ 11
      ∧ (integer_to_repr (-2147483648)).length + 1 ≤ 11 + 1
      ∧ len_string_repr .FT_INT32 = some 11 ∧ len_string_repr .FT_UINT32 = some 10
      ∧ len_string_repr .FT_IPXNET = some 10 ∧ len_string_repr .FT_INT64 = some 20
      ∧ len_string_repr .FT_UINT64 = some 20 ∧ len_string_repr .FT_CHAR = some 7
      ∧ len_string_repr .FT_BOOLEAN = some 1)
    ∧ integer_to_repr (-2147483648) = "-2147483648".toList
    ∧ integer64_to_repr (-9223372036854775808) = "-9223372036854775808".toList
    ∧ uinteger64_to_repr 18446744073709551615 BASE_DEC = "18446744073709551615".toList
    ∧ uinteger_to_repr .FT_UINT24 1193046 BASE_HEX = "0x123456".toList :=
  ⟨formatted_length_sufficient .FT_INT32 (.sinteger (-2147483648)) BASE_DEC 11
      (integer_to_repr (-2147483648)) (by decide) rfl rfl,
    by decide, by decide, by decide, by decide⟩

/-- C30: for every byte value `c` in 0..255 and every display mode, the text that the
character kind's format writes for `c` is accepted by `parse_charconst` and by the kind's
`parse_literal`, and both decode it back to exactly `c`. -/
theorem char_format_parse_roundtrip (lbits c field_display : Nat) (hc : c ≤ 255) :
    val_to_string_repr_registered .FT_CHAR (.uinteger c) field_display
        = some (char_to_repr c field_display)
    ∧ parse_charconst (char_to_repr c field_display) = .ok c
    ∧ val_from_unparsed lbits .FT_CHAR (char_to_repr c field_display)
        = some (.ok (.uinteger c)) := by
  have hp := char_roundtrip c field_display (by omega)
  refine ⟨rfl, hp, ?_⟩
  have hq : cAt (char_to_repr c field_display) 0 = QUOTE := rfl
  simp only [val_from_unparsed, uint8_from_unparsed, uint_from_unparsed, hq, if_true, hp,
    G_MAXUINT8]
  rw [if_neg (by omega)]
  simp [Except.map]
  omega

/-- C30, instances: the escape character 27 in both display modes, the backslash and a
byte above 127. -/
theorem char_format_parse_roundtrip_witness :
    (val_to_string_repr_registered .FT_CHAR (.uinteger 27) BASE_HEX
        = some (char_to_repr 27 BASE_HEX)
      ∧ parse_charconst (char_to_repr 27 BASE_HEX) = .ok 27
      ∧ val_from_unparsed 64 .FT_CHAR (char_to_repr 27 BASE_HEX) = some (.ok (.uinteger 27)))
    ∧ char_to_repr 27 BASE_HEX = [QUOTE, BACKSLASH, 'x', '1', 'b', QUOTE]
    ∧ char_to_repr 27 BASE_DEC = [QUOTE, BACKSLASH, '0', '3', '3', QUOTE]
    ∧ char_to_repr 92 BASE_DEC = [QUOTE, BACKSLASH, BACKSLASH, QUOTE]
    ∧ char_to_repr 200 BASE_DEC = [QUOTE, BACKSLASH, '3', '1', '0', QUOTE] :=
  ⟨char_format_parse_roundtrip 64 27 BASE_HEX (by decide), by decide, by decide, by decide,
    by decide⟩

/-- C31: the 40-bit signed kind on `-549755813889`, one below its minimum -549755813888,
reports `too small for this field, maximum 549755813887`: the message of a value that is too
small names the maximum, not the minimum.  A value that is too big is reported with the
maximum, and the kinds of up to 32 bits report a value below their minimum with the minimum. -/
theorem sint64_too_small_names_maximum :
    val_from_unparsed 64 .FT_INT40 "-549755813889".toList
        = some (.error (msgTooSmallMaximum "-549755813889".toList "549755813887".toList))
    ∧ msgTooSmallMaximum "-549755813889".toList "549755813887".toList
        = quoted "-549755813889".toList ++ " too small for this field, maximum 549755813887."
    ∧ val_from_unparsed 64 .FT_INT40 "-549755813889".toList
        ≠ some (.error (msgTooSmall "-549755813889".toList "-549755813888".toList))
    ∧ val_from_unparsed 64 .FT_INT56 "-36028797018963969".toList
        = some (.error (msgTooSmallMaximum "-36028797018963969".toList
            "36028797018963967".toList))
    ∧ val_from_unparsed 64 .FT_INT40 "549755813888".toList
        = some (.error (msgTooBig "549755813888".toList "549755813887".toList))
    ∧ val_from_unparsed 64 .FT_INT32 "-2147483649".toList
        = some (.error (msgTooSmall "-2147483649".toList "-2147483648".toList)) := by
  decide

/-- C32, the claim as stated fails: kinds that the lists quoted from README.dissector put
together are not similar: UINT32 and IPXNET, UINT32 and FRAMENUM, UINT64 and EUI64, BYTES and
ETHER, BYTES and AX25, BYTES and VINES, BYTES and OID, ABSOLUTE_TIME and RELATIVE_TIME. -/
theorem readme_lists_not_similar :
    ftype_similar_types .FT_UINT32 .FT_IPXNET = false
    ∧ ftype_similar_types .FT_UINT32 .FT_FRAMENUM = false
    ∧ ftype_similar_types .FT_UINT64 .FT_EUI64 = false
    ∧ ftype_similar_types .FT_BYTES .FT_ETHER = false
    ∧ ftype_similar_types .FT_BYTES .FT_AX25 = false
    ∧ ftype_similar_types .FT_BYTES .FT_VINES = false
    ∧ ftype_similar_types .FT_BYTES .FT_OID = false
    ∧ ftype_similar_types .FT_ABSOLUTE_TIME .FT_RELATIVE_TIME = false := by
  decide

/-- C32, amended: `ftype_similar_types a b` is true for every two kinds of one list among
{INT8, INT16, INT24, INT32}, {UINT8, UINT16, UINT24, UINT32}, {STRING, STRINGZ, UINT_STRING},
{FLOAT, DOUBLE}, {BYTES, UINT_BYTES} and {OID, REL_OID}.  Each of IPXNET, FRAMENUM, EUI64,
AX25, ETHER, VINES, ABSOLUTE_TIME and RELATIVE_TIME is similar to itself only; UINT64 is
similar exactly to UINT40, UINT48, UINT56 and UINT64; and no kind of {BYTES, UINT_BYTES} is
similar to a kind of {OID, REL_OID}. -/
theorem readme_lists_as_implemented :
    (∀ l ∈ [[ftenum.FT_INT8, .FT_INT16, .FT_INT24, .FT_INT32],
            [.FT_UINT8, .FT_UINT16, .FT_UINT24, .FT_UINT32],
            [.FT_STRING, .FT_STRINGZ, .FT_UINT_STRING],
            [.FT_FLOAT, .FT_DOUBLE],
            [.FT_BYTES, .FT_UINT_BYTES],
            [.FT_OID, .FT_REL_OID]],
        ∀ a ∈ l, ∀ b ∈ l, ftype_similar_types a b = true)
    ∧ (∀ a ∈ [ftenum.FT_IPXNET, .FT_FRAMENUM, .FT_EUI64, .FT_AX25, .FT_ETHER, .FT_VINES,
              .FT_ABSOLUTE_TIME, .FT_RELATIVE_TIME],
        ∀ b, ftype_similar_types a b = true ↔ b = a)
    ∧ (∀ b, ftype_similar_types .FT_UINT64 b = true ↔
        b ∈ [ftenum.FT_UINT40, .FT_UINT48, .FT_UINT56, .FT_UINT64])
    ∧ (∀ a ∈ [ftenum.FT_BYTES, .FT_UINT_BYTES], ∀ b ∈ [ftenum.FT_OID, .FT_REL_OID],
        ftype_similar_types a b = false) := by
  refine ⟨by decide, fun a ha b => ?_, fun b => ?_, by decide⟩
  · simp only [List.mem_cons, List.mem_singleton, List.not_mem_nil, or_false] at ha
    rcases ha with rfl | rfl | rfl | rfl | rfl | rfl | rfl | rfl <;> cases b <;> decide
  · cases b <;> decide

/-- C32, an instance: ETHER is similar to ETHER and not to BYTES, and STRINGZ is similar to
UINT_STRING. -/
theorem readme_lists_as_implemented_witness :
    (ftype_similar_types .FT_ETHER .FT_ETHER = true ↔ ftenum.FT_ETHER = ftenum.FT_ETHER)
    ∧ (ftype_similar_types .FT_ETHER .FT_BYTES = true ↔ ftenum.FT_BYTES = ftenum.FT_ETHER)
    ∧ ftype_similar_types .FT_STRINGZ .FT_UINT_STRING = true :=
  ⟨readme_lists_as_implemented.2.1 .FT_ETHER (by decide) .FT_ETHER,
   readme_lists_as_implemented.2.1 .FT_ETHER (by decide) .FT_BYTES,
   readme_lists_as_implemented.1 [.FT_STRING, .FT_STRINGZ, .FT_UINT_STRING] (by decide)
     .FT_STRINGZ (by decide) .FT_UINT_STRING (by decide)⟩

/-- C33: texts outside the grammar are accepted.  With a 64-bit `long` and `time_t` the
texts `--5`, `+5` and ` 5` parse to 5 seconds and `- 5` to -5 seconds, because the seconds
are read by `strtoul`, which skips white space and takes a sign; with a 32-bit `long` the
text `--5` parses to -4294967291 seconds.  A text without digits is rejected. -/
theorem relative_accepts_sign_and_space :
    relative_val_from_unparsed 64 64 "--5".toList = .ok ⟨5, 0⟩
    ∧ relative_val_from_unparsed 64 64 "+5".toList = .ok ⟨5, 0⟩
    ∧ relative_val_from_unparsed 64 64 " 5".toList = .ok ⟨5, 0⟩
    ∧ relative_val_from_unparsed 64 64 "- 5".toList = .ok ⟨-5, 0⟩
    ∧ relative_val_from_unparsed 32 64 "--5".toList = .ok ⟨-4294967291, 0⟩
    ∧ relative_val_from_unparsed 64 64 "-x".toList = .error (msgNotValidTime "-x".toList) := by
  decide

/-- C34: every successful `parse_charconst` yields a value in 0..255; an unescaped character
is accepted only when it is printable ASCII; and the 8-bit unsigned kind accepts every
character constant that `parse_charconst` accepts, with the same value.  The octal escape
`\377` gives 255 while `\400` and `\777` are rejected as too large, and `\xff` gives 255. -/
theorem charconst_value_is_byte (lbits : Nat) (s : List Char) (v : Nat)
    (h : parse_charconst s = .ok v) :
    v ≤ 255
    ∧ (cAt s 1 ≠ BACKSLASH → g_ascii_isprint (cAt s 1).toNat = true ∧ v = (cAt s 1).toNat)
    ∧ (cAt s 0 = QUOTE → uint8_from_unparsed lbits s = .ok v
        ∧ val_from_unparsed lbits .FT_UINT8 s = some (.ok (.uinteger v)))
    ∧ parse_charconst [QUOTE, BACKSLASH, '3', '7', '7', QUOTE] = .ok 255
    ∧ parse_charconst [QUOTE, BACKSLASH, '4', '0', '0', QUOTE]
        = .error (msgCharconstTooLarge [QUOTE, BACKSLASH, '4', '0', '0', QUOTE])
    ∧ parse_charconst [QUOTE, BACKSLASH, '7', '7', '7', QUOTE]
        = .error (msgCharconstTooLarge [QUOTE, BACKSLASH, '7', '7', '7', QUOTE])
    ∧ parse_charconst [QUOTE, BACKSLASH, 'x', 'f', 'f', QUOTE] = .ok 255 := by
  refine ⟨parse_charconst_le h, fun hb => ?_, fun hq => ?_, by decide, by decide, by decide,
    by decide⟩
  · unfold parse_charconst at h
    dsimp only at h
    rw [if_neg hb] at h
    by_cases hp : g_ascii_isprint (cAt s 1).toNat = true
    · have hnp : ¬ ¬ g_ascii_isprint (cAt s 1).toNat = true := not_not.mpr hp
      rw [if_neg hnp] at h
      exact ⟨hp, charconstClose_ok h⟩
    · rw [if_pos hp] at h
      cases h
  · have hu := uint_from_unparsed_charconst lbits 255 s v hq h (le_refl _)
    refine ⟨hu, ?_⟩
    simp only [val_from_unparsed, uint8_from_unparsed, G_MAXUINT8, hu, Except.map]

/-- C34, an instance: the constant `\377`. -/
theorem charconst_value_is_byte_witness :
    val_from_unparsed 64 .FT_UINT8 [QUOTE, BACKSLASH, '3', '7', '7', QUOTE]
      = some (.ok (.uinteger 255)) :=
  ((charconst_value_is_byte 64 [QUOTE, BACKSLASH, '3', '7', '7', QUOTE] 255
    (by decide)).2.2.1 rfl).2

/-- C35: a FixedLength node whose length `n` is zero or negative and whose resolved start
satisfies `start + n <= L` records no slice failure: `slice_func` reaches the assertion
`start_offset >= 0 && length > 0` with `length = n` and the process aborts.  The source is
not longer than `INT_MAX` and the offsets are C `int` values. -/
theorem fixed_length_nonpositive_aborts (fv : slice_source) (drnode : drange_node)
    (slice_data : slice_data_t) (start : Int)
    (hfail : slice_data.slice_failure = false)
    (hL : fv.data.length ≤ 2147483647)
    (hend : drnode.ending = .DRANGE_NODE_END_T_LENGTH)
    (hs1 : -2147483648 ≤ drnode.start_offset) (hs2 : drnode.start_offset ≤ 2147483647)
    (hres : start = if drnode.start_offset < 0 then (fv.data.length : Int) + drnode.start_offset
      else drnode.start_offset)
    (hstart : 0 ≤ start)
    (hn0 : drnode.length ≤ 0) (hn1 : -2147483648 ≤ drnode.length)
    (hsum : start + drnode.length ≤ fv.data.length) :
    slice_span fv drnode = .aborts ∧ slice_func fv drnode slice_data = .aborts := by
  have hspan : slice_span fv drnode = .aborts := by
    have hlen : ((fvalue_length fv : Nat) : Int) = (fv.data.length : Int) := by
      unfold fvalue_length
      rw [Nat.mod_eq_of_lt (by omega)]
    have hLs : toSigned 32 (fv.data.length : Int) = (fv.data.length : Int) :=
      toSigned32_id _ (by omega) (by omega)
    unfold slice_span
    simp only [hlen, hend]
    by_cases hneg : drnode.start_offset < 0
    · rw [if_pos hneg] at hres
      have hid : toSigned 32 ((fv.data.length : Int) + drnode.start_offset) = start := by
        rw [toSigned32_id _ (by omega) (by omega), hres]
      simp only [hneg, if_true, hid, true_and]
      rw [if_neg (by omega), toSigned32_id _ (by omega) (by omega), hLs, if_neg (by omega)]
      unfold slice_span_checked
      rw [if_neg (by omega)]
    · rw [if_neg hneg] at hres
      subst hres
      simp only [hneg, if_false, false_and]
      rw [toSigned32_id _ (by omega) (by omega), hLs, if_neg (by omega)]
      unfold slice_span_checked
      rw [if_neg (by omega)]
  refine ⟨hspan, ?_⟩
  rw [slice_func_eq_span fv drnode slice_data hfail, hspan]

/-- C35, instances: on a source of ten bytes the node with start 5 and length 0 aborts, and
so does the node with start -3 and length -2. -/
theorem fixed_length_nonpositive_aborts_witness :
    (slice_span ⟨List.range 10⟩ ⟨5, 0, 0, .DRANGE_NODE_END_T_LENGTH⟩ = .aborts
      ∧ slice_func ⟨List.range 10⟩ ⟨5, 0, 0, .DRANGE_NODE_END_T_LENGTH⟩
          { bytes := [], slice_failure := false } = .aborts)
    ∧ slice_func ⟨List.range 10⟩ ⟨-3, -2, 0, .DRANGE_NODE_END_T_LENGTH⟩
        { bytes := [], slice_failure := false } = .aborts
    ∧ fvalue_slice ⟨List.range 10⟩ [⟨5, 0, 0, .DRANGE_NODE_END_T_LENGTH⟩] = .aborts :=
  ⟨fixed_length_nonpositive_aborts ⟨List.range 10⟩ ⟨5, 0, 0, .DRANGE_NODE_END_T_LENGTH⟩
      { bytes := [], slice_failure := false } 5 rfl (by decide) rfl (by decide) (by decide)
      (by decide) (by decide) (by decide) (by decide) (by decide),
    by decide, by decide⟩

/-- C36: for every text, a result of `get_nsecs` lies in [0, 999999999]; every value of the
computation (a scaled digit or the running sum) lies in that range too, so none leaves the
range of a 32-bit signed `int`; and the nanoseconds of every relative or absolute time that
parses have a magnitude below 10^9. -/
theorem get_nsecs_in_range (s : List Char) :
    (∀ n, get_nsecs s = some n → 0 ≤ n ∧ n ≤ 999999999)
    ∧ (∀ x ∈ get_nsecs_values s,
        (0 ≤ x ∧ x ≤ 999999999) ∧ (G_MININT32 ≤ x ∧ x ≤ G_MAXINT32))
    ∧ (∀ lbits tbits v, 1 ≤ tbits → relative_val_from_unparsed lbits tbits s = .ok v →
        -999999999 ≤ v.nsecs ∧ v.nsecs ≤ 999999999)
    ∧ (∀ strptime mktime v, absolute_val_from_string strptime mktime s = .ok v →
        0 ≤ v.nsecs ∧ v.nsecs ≤ 999999999) := by
  refine ⟨fun n hn => ?_, fun x hx => ?_, fun lbits tbits v htb hv => ?_,
    fun strptime mktime v hv => ?_⟩
  · have := get_nsecs_bound s n hn
    omega
  · have := get_nsecs_values_bound s x hx
    unfold G_MININT32 G_MAXINT32
    omega
  · unfold relative_val_from_unparsed at hv
    dsimp only at hv
    cases hp : relative_val_parse lbits tbits
        (if decide (cAt s 0 = '-') = true then List.drop 1 s else s) with
    | none => rw [hp] at hv; cases hv
    | some t =>
      rw [hp] at hv
      have hr := (relative_val_parse_range lbits tbits htb _ t hp).2
      simp only [Except.ok.injEq] at hv
      split_ifs at hv
      · rw [← hv]
        simp only
        rw [toSigned32_id _ (by omega) (by omega)]
        omega
      · rw [← hv]
        omega
  · obtain ⟨hs, r, hn⟩ := absolute_ok_nsecs strptime mktime s v hv
    have := absolute_nsecs_bound hs r _ hn
    omega

/-- C36, instances: the values computed for `999999999`, the largest result, and for `95`. -/
theorem get_nsecs_in_range_witness :
    get_nsecs "999999999".toList = some 999999999
    ∧ get_nsecs_values "95".toList
        = [50, 500, 5000, 50000, 500000, 5000000, 50000000, 50000000,
           90, 900, 9000, 90000, 900000, 9000000, 90000000, 900000000, 950000000]
    ∧ (∀ x ∈ get_nsecs_values "95".toList,
        (0 ≤ x ∧ x ≤ 999999999) ∧ (G_MININT32 ≤ x ∧ x ≤ G_MAXINT32)) :=
  ⟨by decide, by decide, (get_nsecs_in_range "95".toList).2.1⟩

/-- C37: for the signed kinds INT8, INT16, INT24 and INT32 a character constant of byte value
`b` parses to `b - 256` when `b` is at least 128 and to `b` otherwise, while the unsigned kinds
UINT8, UINT16, UINT24 and UINT32 and the character kind parse it to `b`. -/
theorem charconst_signed_kinds (lbits : Nat) (s : List Char) (b : Nat)
    (hq : cAt s 0 = QUOTE) (h : parse_charconst s = .ok b) :
    (∀ ft ∈ [ftenum.FT_INT8, .FT_INT16, .FT_INT24, .FT_INT32],
        val_from_unparsed lbits ft s
          = some (.ok (.sinteger (if 128 ≤ b then (b : Int) - 256 else (b : Int)))))
    ∧ (∀ ft ∈ [ftenum.FT_UINT8, .FT_UINT16, .FT_UINT24, .FT_UINT32, .FT_CHAR],
        val_from_unparsed lbits ft s = some (.ok (.uinteger b))) := by
  constructor
  · intro ft hft
    simp only [List.mem_cons, List.mem_singleton, List.not_mem_nil, or_false] at hft
    rcases hft with e | e | e | e <;> subst e
    · have := sint_from_unparsed_charconst lbits G_MAXINT8 G_MININT8 s b hq h
        (by decide) (by decide) (by decide) (by decide)
      simp only [val_from_unparsed, sint8_from_unparsed, this, Except.map]
    · have := sint_from_unparsed_charconst lbits G_MAXINT16 G_MININT16 s b hq h
        (by decide) (by decide) (by decide) (by decide)
      simp only [val_from_unparsed, sint16_from_unparsed, this, Except.map]
    · have := sint_from_unparsed_charconst lbits 0x7FFFFF (-0x800000) s b hq h
        (by decide) (by decide) (by decide) (by decide)
      simp only [val_from_unparsed, sint24_from_unparsed, this, Except.map]
    · have := sint_from_unparsed_charconst lbits G_MAXINT32 G_MININT32 s b hq h
        (by decide) (by decide) (by decide) (by decide)
      simp only [val_from_unparsed, sint32_from_unparsed, this, Except.map]
  · intro ft hft
    simp only [List.mem_cons, List.mem_singleton, List.not_mem_nil, or_false] at hft
    rcases hft with e | e | e | e | e <;> subst e
    · have := uint_from_unparsed_charconst lbits G_MAXUINT8 s b hq h (by decide)
      simp only [val_from_unparsed, uint8_from_unparsed, this, Except.map]
    · have := uint_from_unparsed_charconst lbits G_MAXUINT16 s b hq h (by decide)
      simp only [val_from_unparsed, uint16_from_unparsed, this, Except.map]
    · have := uint_from_unparsed_charconst lbits 0xFFFFFF s b hq h (by decide)
      simp only [val_from_unparsed, uint24_from_unparsed, this, Except.map]
    · have := uint_from_unparsed_charconst lbits G_MAXUINT32 s b hq h (by decide)
      simp only [val_from_unparsed, uint32_from_unparsed, this, Except.map]
    · have := uint_from_unparsed_charconst lbits G_MAXUINT8 s b hq h (by decide)
      simp only [val_from_unparsed, uint8_from_unparsed, this, Except.map]

/-- C37, an instance: `\xff` parses to -1 for INT8 .. INT32 and to 255 for UINT8 .. UINT32
and the character kind. -/
theorem charconst_signed_kinds_witness :
    (∀ ft ∈ [ftenum.FT_INT8, .FT_INT16, .FT_INT24, .FT_INT32],
        val_from_unparsed 64 ft [QUOTE, BACKSLASH, 'x', 'f', 'f', QUOTE]
          = some (.ok (.sinteger (-1))))
    ∧ (∀ ft ∈ [ftenum.FT_UINT8, .FT_UINT16, .FT_UINT24, .FT_UINT32, .FT_CHAR],
        val_from_unparsed 64 ft [QUOTE, BACKSLASH, 'x', 'f', 'f', QUOTE]
          = some (.ok (.uinteger 255))) :=
  charconst_signed_kinds 64 [QUOTE, BACKSLASH, 'x', 'f', 'f', QUOTE] 255 rfl (by decide)

/-- C38: `absolute_val_from_string` rejects every text shorter than 8 characters with the
message `is not a valid absolute time`, whatever the text contains and whatever `strptime`
and `mktime` would make of it: no layout is tried. -/
theorem absolute_short_text_rejected (strptime : strptime_t) (mktime : tm → Int)
    (s : List Char) (h : s.length < 8) :
    absolute_val_from_string strptime mktime s = .error (msgNotValidAbsTime s)
    ∧ absolute_val_from_unparsed strptime mktime s = .error (msgNotValidAbsTime s)
    ∧ msgNotValidAbsTime s = quoted s ++ " is not a valid absolute time. Example: " ++
        quoted "Nov 12, 1999 08:55:44.123".toList ++ " or " ++
        quoted "2011-07-04 12:34:56".toList := by
  refine ⟨?_, ?_, rfl⟩
  · unfold absolute_val_from_string
    rw [if_pos h]
  · unfold absolute_val_from_unparsed absolute_val_from_string
    rw [if_pos h]

/-- C38, an instance: the seven characters `2011-07` are rejected although the `strptime`
at hand matches every layout. -/
theorem absolute_short_text_rejected_witness :
    absolute_val_from_string (fun text _ t => (some text, t)) (fun _ => 0) "2011-07".toList
        = .error (msgNotValidAbsTime "2011-07".toList)
    ∧ absolute_val_from_string (fun _ _ t => (some [], t)) (fun _ => 0) "2011-07-".toList
        = .ok ⟨0, 0⟩ :=
  ⟨(absolute_short_text_rejected (fun text _ t => (some text, t)) (fun _ => 0)
      "2011-07".toList (by decide)).1, by decide⟩

/-- C39: `ftype_similar_types` is an equivalence relation over the whole tag enumeration:
reflexive, symmetric and transitive; `same_ftype` is idempotent, and the representative
`same_ftype t` is similar to `t`. -/
theorem ftype_similar_types_equivalence :
    (∀ a, ftype_similar_types a a = true)
    ∧ (∀ a b, ftype_similar_types a b = true → ftype_similar_types b a = true)
    ∧ (∀ a b c, ftype_similar_types a b = true → ftype_similar_types b c = true →
        ftype_similar_types a c = true)
    ∧ (∀ t, same_ftype (same_ftype t) = same_ftype t)
    ∧ (∀ t, ftype_similar_types (same_ftype t) t = true)
    ∧ (∀ a b, ftype_similar_types a b = true ↔ same_ftype a = same_ftype b) := by
  have hid : ∀ t, same_ftype (same_ftype t) = same_ftype t := by
    intro t
    cases t <;> rfl
  have hiff : ∀ a b, ftype_similar_types a b = true ↔ same_ftype a = same_ftype b := by
    intro a b
    simp [ftype_similar_types]
  refine ⟨fun a => (hiff a a).mpr rfl, fun a b h => (hiff b a).mpr ((hiff a b).mp h).symm,
    fun a b c h1 h2 => (hiff a c).mpr (((hiff a b).mp h1).trans ((hiff b c).mp h2)),
    hid, fun t => (hiff _ _).mpr (hid t), hiff⟩

/-- C40: `parse_charconst` is total and never reads past the terminator.  For every string
whose first character is a single quote (a string is a list of characters without NUL, so its
length is the index of the terminator), every character the routine inspects lies at an index
not greater than that of the terminator, and the routine returns a value or an error
message. -/
theorem parse_charconst_reads_in_string (s : List Char) (hq : cAt s 0 = QUOTE) :
    (∀ i ∈ parse_charconst_reads s, i ≤ s.length)
    ∧ ((∃ v, parse_charconst s = .ok v) ∨ (∃ e, parse_charconst s = .error e)) := by
  refine ⟨parse_charconst_reads_le s hq, ?_⟩
  cases h : parse_charconst s with
  | ok v => exact Or.inl ⟨v, rfl⟩
  | error e => exact Or.inr ⟨e, rfl⟩

/-- C40, instances: the truncated inputs `'`, `'\`, `'\x`, `'\x4`, `'\1` and `'a` are
rejected, and the last index inspected is that of the terminator. -/
theorem parse_charconst_reads_in_string_witness :
    ((∀ i ∈ parse_charconst_reads [QUOTE, BACKSLASH, 'x', '4'],
        i ≤ [QUOTE, BACKSLASH, 'x', '4'].length)
      ∧ ((∃ v, parse_charconst [QUOTE, BACKSLASH, 'x', '4'] = .ok v)
        ∨ (∃ e, parse_charconst [QUOTE, BACKSLASH, 'x', '4'] = .error e)))
    ∧ parse_charconst_reads [QUOTE] = [1]
    ∧ parse_charconst [QUOTE] = .error (msgNonPrintable 0)
    ∧ parse_charconst_reads [QUOTE, BACKSLASH] = [1, 2]
    ∧ parse_charconst [QUOTE, BACKSLASH] = .error (msgNotCharconst [QUOTE, BACKSLASH])
    ∧ parse_charconst_reads [QUOTE, BACKSLASH, 'x'] = [1, 2, 3]
    ∧ parse_charconst [QUOTE, BACKSLASH, 'x']
        = .error (msgNotCharconst [QUOTE, BACKSLASH, 'x'])
    ∧ parse_charconst_reads [QUOTE, BACKSLASH, 'x', '4'] = [1, 2, 3, 4]
    ∧ parse_charconst [QUOTE, BACKSLASH, 'x', '4']
        = .error (msgNotCharconst [QUOTE, BACKSLASH, 'x', '4'])
    ∧ parse_charconst_reads [QUOTE, BACKSLASH, '1'] = [1, 2, 2, 3]
    ∧ parse_charconst [QUOTE, BACKSLASH, '1']
        = .error (msgNotCharconst [QUOTE, BACKSLASH, '1'])
    ∧ parse_charconst_reads [QUOTE, 'a'] = [1, 2]
    ∧ parse_charconst [QUOTE, 'a'] = .error (msgCharconstTooLong [QUOTE, 'a'])
    ∧ parse_charconst_reads [QUOTE, 'a', QUOTE] = [1, 2, 3]
    ∧ parse_charconst [QUOTE, 'a', QUOTE] = .ok 97 :=
  ⟨parse_charconst_reads_in_string [QUOTE, BACKSLASH, 'x', '4'] rfl, by decide, by decide,
    by decide, by decide, by decide, by decide, by decide, by decide, by decide, by decide,
    by decide, by decide, by decide, by decide⟩

end Ftypes
